import Mathlib

/-!
# Seat manager of waylib (`src/server/kernel/wseatmanager.cpp`)

A shallow embedding of `WSeatManager`: the seat registry `m_seats`, the rule map
`m_deviceRules` and the recorded fallback name `m_fallbackSeatName`, with every
member function translated to a function on that state.

* A `QString` is a `String`, that is well-formed Unicode text. `QMap<QString, T>` is a
  list of key/value pairs; the functions below keep it in ascending key order the way
  `QMap` iterates. Keys are compared the way `QString::operator<` compares them: by
  their UTF-16 code units, so that a character outside the Basic Multilingual Plane
  (a surrogate pair, first unit D800..DBFF) comes before the characters E000..FFFF.
* A pointer argument (`WInputDevice *`, `WOutput *`, `WServer *`) is an `Option`;
  `none` is the null pointer.
* A `WSeat *` that a member function returns is the seat object it points to; a
  write through such a pointer updates the registry entry stored under the name
  of that seat (`createSeat` stores every seat under its own name).
* `QRegularExpression` is a library type: its validity check and its search are
  parameters (`RegexEngine`). A stored rule is its pattern text
  (`QRegularExpression(rule).pattern() == rule`).
-/

namespace Waylib

/-! ## QString and QMap -/

/-- The UTF-16 code units of a character, as a `QString` stores it: one unit for a
character of the Basic Multilingual Plane, a surrogate pair for any other. -/
def QChar.units (c : Char) : List Nat :=
  if c.toNat < 0x10000 then [c.toNat]
  else [0xD800 + (c.toNat - 0x10000) / 0x400, 0xDC00 + (c.toNat - 0x10000) % 0x400]

/-- The UTF-16 code units of a text, the content of the `QString`. -/
def QString.units : List Char → List Nat
  | [] => []
  | c :: cs => QChar.units c ++ QString.units cs

/-- The order of `QMap` keys, `QString::operator<`: lexicographic on the UTF-16 code
units of the two strings. -/
def QString.lt (a b : String) : Prop := QString.units a.toList < QString.units b.toList

instance QString.decLt (a b : String) : Decidable (QString.lt a b) := by
  unfold QString.lt; infer_instance

namespace QMap

variable {α : Type}

/-- The member `QMap::contains(key)`. -/
def contains : List (String × α) → String → Bool
  | [], _ => false
  | (k', _) :: m, k => if k' = k then true else contains m k

/-- The member `QMap::value(key)` and the read `map[key]`: the value stored under
`key`; `none` stands for the default-constructed value (a null pointer). -/
def value : List (String × α) → String → Option α
  | [], _ => none
  | (k', v) :: m, k => if k' = k then some v else value m k

/-- The assignment `map[key] = v`: replaces the value of an existing key, otherwise
inserts the pair at its place in ascending key order. -/
def insert : List (String × α) → String → α → List (String × α)
  | [], k, v => [(k, v)]
  | (k', v') :: m, k, v =>
    if QString.lt k k' then (k, v) :: (k', v') :: m
    else if k = k' then (k, v) :: m
    else (k', v') :: insert m k v

/-- The members `QMap::take(key)` and `QMap::remove(key)`, as far as the map is concerned. -/
def remove (m : List (String × α)) (k : String) : List (String × α) :=
  m.filter (fun e => !decide (e.1 = k))

/-- A write through a reference or pointer into the map: `f` applied to the value
stored under `k`. -/
def modify (m : List (String × α)) (k : String) (f : α → α) : List (String × α) :=
  m.map (fun e => if e.1 = k then (e.1, f e.2) else e)

end QMap

/-! ## The collaborators: devices, outputs, seats, regular expressions, JSON -/

/-- An input device object; `id` stands for the identity of the object, `name` is the
identifying string the rules are matched against. -/
structure WInputDevice where
  id : Nat
  name : String
deriving DecidableEq, Repr

/-- An output object; `id` stands for the identity of the object. -/
structure WOutput where
  id : Nat
  name : String
deriving DecidableEq, Repr

/-- The regular-expression library: which pattern texts compile, and whether a
pattern finds a match in a subject string (a search, not a full match). -/
structure RegexEngine where
  isValid : String → Bool
  hasMatch : String → String → Bool

/-- The state of a `WSeat` the manager reads and writes. -/
structure WSeat where
  name : String
  isFallback : Bool
  deviceList : List WInputDevice
  outputs : List WOutput
deriving DecidableEq, Repr

namespace WSeat

/-- Modelled from the spec: the constructor `WSeat(name)`, which is not under src/.
A new seat has the given name, is not fallback and has no devices and no outputs. -/
def create (name : String) : WSeat :=
  { name := name, isFallback := false, deviceList := [], outputs := [] }

/-- Modelled from the spec: `WSeat::setIsFallback`, which is not under src/. -/
def setIsFallback (seat : WSeat) (b : Bool) : WSeat := { seat with isFallback := b }

/-- Modelled from the spec: `WSeat::attachInputDevice`, which is not under src/. The
devices of a seat are an ordered set: the device is added at the end unless the
seat holds it already. -/
def attachInputDevice (seat : WSeat) (d : WInputDevice) : WSeat :=
  if seat.deviceList.contains d then seat
  else { seat with deviceList := seat.deviceList ++ [d] }

/-- Modelled from the spec: `WSeat::detachInputDevice`, which is not under src/. The
device is taken out of the ordered set. -/
def detachInputDevice (seat : WSeat) (d : WInputDevice) : WSeat :=
  { seat with deviceList := seat.deviceList.filter (fun x => !decide (x = d)) }

/-- Modelled from the spec: `WSeat::attachOutput`, which is not under src/. The
outputs of a seat are an ordered set. -/
def attachOutput (seat : WSeat) (o : WOutput) : WSeat :=
  if seat.outputs.contains o then seat
  else { seat with outputs := seat.outputs ++ [o] }

/-- Modelled from the spec: `WSeat::detachOutput`, which is not under src/. -/
def detachOutput (seat : WSeat) (o : WOutput) : WSeat :=
  { seat with outputs := seat.outputs.filter (fun x => !decide (x = o)) }

/-- Modelled from the spec: `WSeat::matchesDevice(device, rules)`, which is not under
src/. The identifying string of the device is searched with every rule; one
match suffices. -/
def matchesDevice (re : RegexEngine) (_seat : WSeat) (d : WInputDevice)
    (rules : List String) : Bool :=
  rules.any (fun p => re.hasMatch p d.name)

end WSeat

/-- A JSON value (`QJsonValue`). Only the kind of a number is ever inspected here,
so its payload is an integer. -/
inductive QJsonValue where
  | null
  | bool (b : Bool)
  | double (n : Int)
  | string (s : String)
  | array (a : List QJsonValue)
  | object (o : List (String × QJsonValue))

namespace QJsonValue

/-- The conversion `QJsonValue::toArray()`: the empty array for a value that is no array. -/
def toArray : QJsonValue → List QJsonValue
  | array a => a
  | _ => []

/-- The conversion `QJsonValue::toObject()`: the empty object for a value that is no object. -/
def toObject : QJsonValue → List (String × QJsonValue)
  | object o => o
  | _ => []

/-- The conversion `QJsonValue::toString()`: the empty string for a value that is no string. -/
def toString : QJsonValue → String
  | string s => s
  | _ => ""

/-- The conversion `QJsonValue::toBool()`: false for a value that is no boolean. -/
def toBool : QJsonValue → Bool
  | bool b => b
  | _ => false

end QJsonValue

/-- The read `object[key]` of a `QJsonObject`: the value of the key, or an undefined
value (which converts like null) when the key is missing. -/
def QJsonObject.get : List (String × QJsonValue) → String → QJsonValue
  | [], _ => QJsonValue.null
  | (k', v) :: o, k => if k' = k then v else QJsonObject.get o k

/-! ## The manager -/

/-- The data members of `WSeatManager` (wseatmanager.h). -/
structure WSeatManager where
  m_seats : List (String × WSeat)
  m_deviceRules : List (String × List String)
  m_fallbackSeatName : String
deriving DecidableEq, Repr

/-- A `WSeat *` argument coming from outside: null, the seat object the registry
holds under `key`, or a seat object this manager does not hold. -/
inductive SeatPtr where
  | null
  | owned (key : String)
  | foreign
deriving DecidableEq, Repr

/-- A `WServer *` argument; the server itself takes no part in the state. -/
structure WServer where
deriving DecidableEq, Repr

namespace WSeatManager

/-- The constructor: empty maps and an empty fallback name. -/
def init : WSeatManager :=
  { m_seats := [], m_deviceRules := [], m_fallbackSeatName := "" }

/-- The member `WSeatManager::fallbackSeat` (lines 115-118). -/
def fallbackSeat (s : WSeatManager) : Option WSeat :=
  QMap.value s.m_seats s.m_fallbackSeatName

/-- The member `WSeatManager::getSeat` (lines 105-108). -/
def getSeat (s : WSeatManager) (name : String) : Option WSeat :=
  QMap.value s.m_seats name

/-- The member `WSeatManager::seats` (lines 110-113). -/
def seats (s : WSeatManager) : List WSeat := s.m_seats.map (fun e => e.2)

/-- The loop of `createSeat` (lines 42-46) that clears the flag of every other seat. -/
def demoteOthers (m : List (String × WSeat)) (name : String) : List (String × WSeat) :=
  m.map (fun e => if e.1 ≠ name ∧ e.2.isFallback = true then (e.1, e.2.setIsFallback false) else e)

/-- The member `WSeatManager::createSeat` (lines 31-50): the returned seat and the new state. -/
def createSeat (s : WSeatManager) (name : String) (isFallback : Bool) :
    Option WSeat × WSeatManager :=
  if QMap.contains s.m_seats name then (QMap.value s.m_seats name, s)
  else
    let seat := (WSeat.create name).setIsFallback isFallback
    let s1 := { s with m_seats := QMap.insert s.m_seats name seat }
    if isFallback then
      (some seat, { s1 with m_fallbackSeatName := name,
                            m_seats := demoteOthers s1.m_seats name })
    else (some seat, s1)

/-- The promotion `it = m_seats.begin(); it.value()->setIsFallback(true);
m_fallbackSeatName = it.key()` of lines 58-60, 290-292 and 346-348. -/
def promoteFirst (s : WSeatManager) : WSeatManager :=
  match s.m_seats with
  | [] => s
  | (k, seat) :: rest =>
    { s with m_seats := (k, seat.setIsFallback true) :: rest, m_fallbackSeatName := k }

/-- The member `WSeatManager::deviceMatchesSeat` (lines 360-373). -/
def deviceMatchesSeat (re : RegexEngine) (s : WSeatManager) (device : Option WInputDevice)
    (seat : Option WSeat) : Bool :=
  match device, seat with
  | some d, some st =>
    if !QMap.contains s.m_deviceRules st.name then false
    else st.matchesDevice re d ((QMap.value s.m_deviceRules st.name).getD [])
  | _, _ => false

/-- The member `WSeatManager::findSeatForDevice` (lines 375-410). -/
def findSeatForDevice (re : RegexEngine) (s : WSeatManager) (device : Option WInputDevice) :
    Option WSeat :=
  match device with
  | none => none
  | some d =>
    match s.m_seats.find? (fun e => e.2.deviceList.contains d) with
    | some e => some e.2
    | none =>
      match s.m_seats.find?
          (fun e => !e.2.isFallback && deviceMatchesSeat re s (some d) (some e.2)) with
      | some e => some e.2
      | none =>
        let fallbackSeat := s.fallbackSeat
        match fallbackSeat with
        | some fb =>
          let hasRules := QMap.contains s.m_deviceRules fb.name &&
            !((QMap.value s.m_deviceRules fb.name).getD []).isEmpty
          if hasRules then
            if deviceMatchesSeat re s (some d) (some fb) then some fb else fallbackSeat
          else some fb
        | none => fallbackSeat

/-- The member `WSeatManager::findSeatForOutput` (lines 412-424). -/
def findSeatForOutput (s : WSeatManager) (output : Option WOutput) : Option WSeat :=
  match output with
  | none => none
  | some o =>
    match s.m_seats.find? (fun e => e.2.outputs.contains o) with
    | some e => some e.2
    | none => s.fallbackSeat

/-- The member `WSeatManager::autoAssignDevice` (lines 145-169): the returned flag and
the new state. -/
def autoAssignDevice (re : RegexEngine) (s : WSeatManager) (device : Option WInputDevice) :
    Bool × WSeatManager :=
  match device with
  | none => (false, s)
  | some d =>
    if s.m_seats.any (fun e => e.2.deviceList.contains d) then (true, s)
    else
      match findSeatForDevice re s (some d) with
      | some targetSeat =>
        (true, { s with m_seats := QMap.modify s.m_seats targetSeat.name (fun seat => seat.attachInputDevice d) })
      | none =>
        if s.fallbackSeat.isSome then
          (true, { s with m_seats := QMap.modify s.m_seats s.m_fallbackSeatName (fun seat => seat.attachInputDevice d) })
        else (false, s)

/-- The first loop of `assignDeviceToSeat` (lines 127-136) over the registry: `none`
is the early return (the first seat holding the device is the requested one),
otherwise the registry with the device detached from the first seat holding it. -/
def detachDeviceLoop (d : WInputDevice) (seatName : String) :
    List (String × WSeat) → Option (List (String × WSeat))
  | [] => some []
  | (k, seat) :: rest =>
    if seat.deviceList.contains d then
      if seat.name = seatName then none
      else some ((k, seat.detachInputDevice d) :: rest)
    else (detachDeviceLoop d seatName rest).map (fun r => (k, seat) :: r)

/-- The member `WSeatManager::assignDeviceToSeat` (lines 120-143). -/
def assignDeviceToSeat (s : WSeatManager) (device : Option WInputDevice) (seatName : String) :
    WSeatManager :=
  match device with
  | none => s
  | some d =>
    match detachDeviceLoop d seatName s.m_seats with
    | none => s
    | some m =>
      let s1 := { s with m_seats := m }
      if QMap.contains s1.m_seats seatName then
        { s1 with m_seats := QMap.modify s1.m_seats seatName (fun seat => seat.attachInputDevice d) }
      else if s1.fallbackSeat.isSome then
        { s1 with m_seats := QMap.modify s1.m_seats s1.m_fallbackSeatName (fun seat => seat.attachInputDevice d) }
      else s1

/-- The first loop of `assignOutputToSeat` (lines 178-187), like `detachDeviceLoop`. -/
def detachOutputLoop (o : WOutput) (seatName : String) :
    List (String × WSeat) → Option (List (String × WSeat))
  | [] => some []
  | (k, seat) :: rest =>
    if seat.outputs.contains o then
      if seat.name = seatName then none
      else some ((k, seat.detachOutput o) :: rest)
    else (detachOutputLoop o seatName rest).map (fun r => (k, seat) :: r)

/-- The member `WSeatManager::assignOutputToSeat` (lines 171-194). -/
def assignOutputToSeat (s : WSeatManager) (output : Option WOutput) (seatName : String) :
    WSeatManager :=
  match output with
  | none => s
  | some o =>
    match detachOutputLoop o seatName s.m_seats with
    | none => s
    | some m =>
      let s1 := { s with m_seats := m }
      if QMap.contains s1.m_seats seatName then
        { s1 with m_seats := QMap.modify s1.m_seats seatName (fun seat => seat.attachOutput o) }
      else if s1.fallbackSeat.isSome then
        { s1 with m_seats := QMap.modify s1.m_seats s1.m_fallbackSeatName (fun seat => seat.attachOutput o) }
      else s1

/-- One round of the device loop of `removeSeat` (lines 64-70); the detach from the
seat that is being removed leaves no trace in the registry. -/
def removeSeatDeviceStep (re : RegexEngine) (st : WSeatManager) (device : WInputDevice) :
    WSeatManager :=
  if !st.m_seats.isEmpty then (autoAssignDevice re st (some device)).2 else st

/-- One round of the output loop of `removeSeat` (lines 73-79). -/
def removeSeatOutputStep (st : WSeatManager) (output : WOutput) : WSeatManager :=
  if !st.m_seats.isEmpty && st.fallbackSeat.isSome then
    { st with m_seats := QMap.modify st.m_seats st.m_fallbackSeatName (fun seat => seat.attachOutput output) }
  else st

/-- The member `WSeatManager::removeSeat(const QString &)` (lines 52-83). -/
def removeSeat (re : RegexEngine) (s : WSeatManager) (name : String) : WSeatManager :=
  match QMap.value s.m_seats name with
  | none => s
  | some seat =>
    let s1 := { s with m_seats := QMap.remove s.m_seats name }
    let s2 := if seat.isFallback && !s1.m_seats.isEmpty then promoteFirst s1 else s1
    let s3 := seat.deviceList.foldl (removeSeatDeviceStep re) s2
    seat.outputs.foldl removeSeatOutputStep s3

/-- The search loop of `removeSeat(WSeat *)` (lines 90-96): the key under which the
registry holds the seat object, or the empty string. -/
def seatNameOf (s : WSeatManager) (seat : SeatPtr) : String :=
  match seat with
  | SeatPtr.owned key => if QMap.contains s.m_seats key then key else ""
  | _ => ""

/-- The member `WSeatManager::removeSeat(WSeat *)` (lines 85-103). -/
def removeSeatPtr (re : RegexEngine) (s : WSeatManager) (seat : SeatPtr) : WSeatManager :=
  match seat with
  | SeatPtr.null => s
  | _ =>
    let seatName := seatNameOf s seat
    if !seatName.isEmpty then removeSeat re s seatName else s

/-- The member `WSeatManager::addDeviceRule` (lines 196-224). -/
def addDeviceRule (re : RegexEngine) (s : WSeatManager) (seatName rule : String) :
    WSeatManager :=
  if seatName.isEmpty then s
  else if rule.isEmpty then s
  else if !QMap.contains s.m_seats seatName then s
  else if !re.isValid rule then s
  else
    let rules0 :=
      if !QMap.contains s.m_deviceRules seatName then QMap.insert s.m_deviceRules seatName []
      else s.m_deviceRules
    { s with m_deviceRules := QMap.modify rules0 seatName (fun rules => rules ++ [rule]) }

/-- The member `WSeatManager::removeDeviceRule` (lines 226-245). -/
def removeDeviceRule (re : RegexEngine) (s : WSeatManager) (seatName rule : String) :
    WSeatManager :=
  if !QMap.contains s.m_deviceRules seatName then s
  else if !re.isValid rule then s
  else
    let rules := ((QMap.value s.m_deviceRules seatName).getD []).erase rule
    if rules.isEmpty then { s with m_deviceRules := QMap.remove s.m_deviceRules seatName }
    else { s with m_deviceRules := QMap.modify s.m_deviceRules seatName (fun _ => rules) }

/-- The member `WSeatManager::deviceRules` (lines 247-258). -/
def deviceRules (s : WSeatManager) (seatName : String) : List String :=
  if !QMap.contains s.m_deviceRules seatName then []
  else (QMap.value s.m_deviceRules seatName).getD []

/-- One round of the loop of `loadConfig` over the seat entries (lines 271-283). -/
def loadSeatEntry (re : RegexEngine) (st : WSeatManager) (seatValue : QJsonValue) :
    WSeatManager :=
  let seatObj := seatValue.toObject
  let name := (QJsonObject.get seatObj "name").toString
  let isFallback := (QJsonObject.get seatObj "fallback").toBool
  let st1 := (createSeat st name isFallback).2
  let rulesArray := (QJsonObject.get seatObj "deviceRules").toArray
  rulesArray.foldl (fun acc ruleValue => addDeviceRule re acc name ruleValue.toString) st1

/-- The member `WSeatManager::loadConfig` (lines 260-294); `m_fallbackSeatName` is
not reset by the teardown. -/
def loadConfig (re : RegexEngine) (s : WSeatManager) (config : List (String × QJsonValue)) :
    WSeatManager :=
  let s0 := { s with m_seats := [], m_deviceRules := [] }
  let seatsArray := (QJsonObject.get config "seats").toArray
  let s1 := seatsArray.foldl (loadSeatEntry re) s0
  let s2 := if s1.m_seats.isEmpty then (createSeat s1 "seat0" true).2 else s1
  if s2.fallbackSeat.isNone && !s2.m_seats.isEmpty then promoteFirst s2 else s2

/-- The body of the loop of `saveConfig` (lines 302-321): the document entry of the
seat stored under `e.1`. A `QJsonObject` keeps its members in ascending key order. -/
def saveSeatEntry (s : WSeatManager) (e : String × WSeat) : QJsonValue :=
  let name := e.1
  let seat := e.2
  let seatObj1 := QMap.insert [] "name" (QJsonValue.string name)
  let seatObj2 := QMap.insert seatObj1 "fallback" (QJsonValue.bool seat.isFallback)
  let rulesArray := (s.deviceRules name).map (fun rule => QJsonValue.string rule)
  let seatObj3 := QMap.insert seatObj2 "deviceRules" (QJsonValue.array rulesArray)
  let outputsArray := seat.outputs.map (fun output => QJsonValue.string output.name)
  let seatObj4 := QMap.insert seatObj3 "outputs" (QJsonValue.array outputsArray)
  QJsonValue.object seatObj4

/-- The member `WSeatManager::saveConfig` (lines 296-326). It is a const member: the
document is all it returns, the members of the manager are only read. -/
def saveConfig (s : WSeatManager) : List (String × QJsonValue) :=
  let seatsArray := s.m_seats.map (saveSeatEntry s)
  QMap.insert [] "seats" (QJsonValue.array seatsArray)

/-- The member `WSeatManager::create` (lines 328-350); attaching a seat to the server
leaves the members of the manager as they are. -/
def create (s : WSeatManager) (server : Option WServer) : WSeatManager :=
  match server with
  | none => s
  | some _ =>
    if s.fallbackSeat.isNone && !s.m_seats.isEmpty then promoteFirst s else s

/-- The member `WSeatManager::destroy` (lines 352-358). -/
def destroy (_s : WSeatManager) (_server : Option WServer) : WSeatManager :=
  { m_seats := [], m_deviceRules := [], m_fallbackSeatName := "" }

end WSeatManager

/-! ## Call sequences -/

/-- A call of a state-changing member function of the manager. -/
inductive Call where
  | createSeat (name : String) (isFallback : Bool)
  | removeSeat (name : String)
  | removeSeatPtr (seat : SeatPtr)
  | assignDeviceToSeat (device : Option WInputDevice) (seatName : String)
  | autoAssignDevice (device : Option WInputDevice)
  | assignOutputToSeat (output : Option WOutput) (seatName : String)
  | addDeviceRule (seatName rule : String)
  | removeDeviceRule (seatName rule : String)
  | loadConfig (config : List (String × QJsonValue))
  | create (server : Option WServer)
  | destroy (server : Option WServer)

/-- The state after one call. -/
def Call.apply (re : RegexEngine) (s : WSeatManager) : Call → WSeatManager
  | Call.createSeat name isFallback => (s.createSeat name isFallback).2
  | Call.removeSeat name => s.removeSeat re name
  | Call.removeSeatPtr seat => s.removeSeatPtr re seat
  | Call.assignDeviceToSeat device seatName => s.assignDeviceToSeat device seatName
  | Call.autoAssignDevice device => (s.autoAssignDevice re device).2
  | Call.assignOutputToSeat output seatName => s.assignOutputToSeat output seatName
  | Call.addDeviceRule seatName rule => s.addDeviceRule re seatName rule
  | Call.removeDeviceRule seatName rule => s.removeDeviceRule re seatName rule
  | Call.loadConfig config => s.loadConfig re config
  | Call.create server => s.create server
  | Call.destroy server => s.destroy server

/-- The state after a sequence of calls, first call first. -/
def runCalls (re : RegexEngine) (s : WSeatManager) (calls : List Call) : WSeatManager :=
  calls.foldl (Call.apply re) s

/-- A call of `createSeat` or of `removeSeat` (either overload). -/
def Call.isSeatLifecycle : Call → Bool
  | Call.createSeat _ _ => true
  | Call.removeSeat _ => true
  | Call.removeSeatPtr _ => true
  | _ => false

/-! ## Properties stated in the claims -/

/-- The number of seats of the registry whose fallback flag is set. -/
def fallbackCount (s : WSeatManager) : Nat :=
  (s.m_seats.filter (fun e => e.2.isFallback)).length

/-- The keys of the registry are pairwise different. -/
def NodupKeys {α : Type} (m : List (String × α)) : Prop := (m.map Prod.fst).Nodup

/-- The link between the flags and the recorded name that the manager maintains:
keys are pairwise different and a flagged seat is stored under `m_fallbackSeatName`. -/
def FlagInv (s : WSeatManager) : Prop :=
  NodupKeys s.m_seats ∧ ∀ e ∈ s.m_seats, e.2.isFallback = true → e.1 = s.m_fallbackSeatName

/-- The part of the registry that the fallback bookkeeping depends on: keys and flags. -/
def flagView (m : List (String × WSeat)) : List (String × Bool) :=
  m.map (fun e => (e.1, e.2.isFallback))

/-- Some seat of the registry has its fallback flag set. -/
def HasFlaggedSeat (s : WSeatManager) : Prop := ∃ e ∈ s.m_seats, e.2.isFallback = true

/-- Every `createSeat` call of the sequence that finds the registry empty asks for a
fallback seat (`isFallback = true`); the sequence starts in state `s`. -/
def createsOnEmptyAreFallback (re : RegexEngine) (s : WSeatManager) : List Call → Bool
  | [] => true
  | c :: cs =>
    (match c with
      | Call.createSeat _ isFallback => !s.m_seats.isEmpty || isFallback
      | _ => true) && createsOnEmptyAreFallback re (c.apply re s) cs

/-- A regular-expression engine for the concrete scenarios: every pattern text but the
unterminated class `[` compiles; an anchored pattern `^text.*` finds a match in
the subjects that start with `text`, no other pattern finds one. -/
def demoRegex : RegexEngine where
  isValid := fun p => !decide (p = "[")
  hasMatch := fun p subject =>
    match p.toList with
    | '^' :: rest => (rest.takeWhile (fun c => !decide (c = '.'))).isPrefixOf subject.toList
    | _ => false

/-- A registry for the concrete scenarios: seat0 is the fallback seat and holds the
mouse and the first screen; seat1 is a plain seat with one rule. -/
def demoManager : WSeatManager :=
  { m_seats :=
      [("seat0", { name := "seat0", isFallback := true,
                   deviceList := [{ id := 1, name := "Logitech USB Mouse" }],
                   outputs := [{ id := 1, name := "HDMI-1" }] }),
       ("seat1", { name := "seat1", isFallback := false, deviceList := [], outputs := [] })],
    m_deviceRules := [("seat1", ["^Logitech.*"])],
    m_fallbackSeatName := "seat0" }

/-- The number of seats of the registry that hold device `d`. -/
def deviceOwnerCount (s : WSeatManager) (d : WInputDevice) : Nat :=
  s.m_seats.countP (fun e => e.2.deviceList.contains d)

/-- The number of seats of the registry that hold output `o`. -/
def outputOwnerCount (s : WSeatManager) (o : WOutput) : Nat :=
  s.m_seats.countP (fun e => e.2.outputs.contains o)

/-- Exclusive ownership: every device and every output is attached to at most one seat. -/
def ExclusiveOwnership (s : WSeatManager) : Prop :=
  (∀ d, deviceOwnerCount s d ≤ 1) ∧ (∀ o, outputOwnerCount s o ≤ 1)

/-- What a `QMap` and `createSeat` guarantee about the registry: the keys are in
strictly ascending order and every seat is stored under its own name. -/
def WellFormed (s : WSeatManager) : Prop :=
  s.m_seats.Pairwise (fun a b => QString.lt a.1 b.1) ∧ ∀ e ∈ s.m_seats, e.2.name = e.1

instance WellFormed.decidable (s : WSeatManager) : Decidable (WellFormed s) := by
  unfold WellFormed; infer_instance

/-- The mouse of the concrete scenarios. -/
def demoMouse : WInputDevice := { id := 1, name := "Logitech USB Mouse" }

/-- A keyboard that no rule of the concrete scenarios matches. -/
def demoKeyboard : WInputDevice := { id := 2, name := "Generic Keyboard" }

/-- The seat to which lines 138-142 of `assignDeviceToSeat(d, seatName)` attach the
device, by registry key: `seatName` if it names an existing seat, else the recorded
fallback name if `fallbackSeat()` returns a seat (flagged or not), else none. -/
def assignTarget (s : WSeatManager) (seatName : String) : Option String :=
  if QMap.contains s.m_seats seatName then some seatName
  else if s.fallbackSeat.isSome then some s.m_fallbackSeatName
  else none

/-- Seat `seat` has a rule that matches device `d`: some pattern of
`deviceRules(seat.name)` finds a match in the identifying string of the device. -/
def hasMatchingRule (re : RegexEngine) (s : WSeatManager) (seat : WSeat) (d : WInputDevice) :
    Bool :=
  (s.deviceRules seat.name).any (fun p => re.hasMatch p d.name)

/-- The scenario of the spec: on an empty registry `createSeat("seat0", true)`,
`createSeat("seat1", false)`, `addDeviceRule("seat1", "^Logitech.*")`. -/
def demoScenario : WSeatManager :=
  runCalls demoRegex WSeatManager.init
    [Call.createSeat "seat0" true, Call.createSeat "seat1" false,
      Call.addDeviceRule "seat1" "^Logitech.*"]

/-- The second scenario of the spec: the fallback seat seat0 carries the rule "^Never.*",
seat1 the rule "^Logitech.*". -/
def demoScenarioNever : WSeatManager :=
  demoScenario.addDeviceRule demoRegex "seat0" "^Never.*"

/-- The part of the registry that well-formedness depends on: keys and seat names. -/
def nameView (m : List (String × WSeat)) : List (String × String) :=
  m.map (fun e => (e.1, e.2.name))

/-- A registry without a fallback seat: the single call `createSeat("seat1", false)` on
an empty manager. -/
def demoNoFallback : WSeatManager :=
  runCalls demoRegex WSeatManager.init [Call.createSeat "seat1" false]

/-- The registry part of `removeSeat` (lines 55-61): the seat is taken out of the map
and, when it was flagged and seats remain, the first remaining seat is promoted. -/
def WSeatManager.removeSeatTaken (s : WSeatManager) (name : String) : WSeatManager :=
  match QMap.value s.m_seats name with
  | none => s
  | some seat =>
    let s1 := { s with m_seats := QMap.remove s.m_seats name }
    if seat.isFallback && !s1.m_seats.isEmpty then s1.promoteFirst else s1

/-- The third scenario of the spec: seat0 is a plain seat and seat1 the fallback seat. -/
def demoFallbackLast : WSeatManager :=
  runCalls demoRegex WSeatManager.init
    [Call.createSeat "seat0" false, Call.createSeat "seat1" true]

/-- A registry whose only seat is stored under the empty name: the single call
`createSeat("", false)` on an empty manager. -/
def demoEmptyName : WSeatManager :=
  runCalls demoRegex WSeatManager.init [Call.createSeat "" false]

/-- The conditions under which the spec says `addDeviceRule(seatName, rule)` is rejected:
the seat name is empty or names no seat of the registry, the pattern is empty, or
the pattern does not compile. -/
def addDeviceRuleRejected (re : RegexEngine) (s : WSeatManager) (seatName rule : String) :
    Bool :=
  seatName.isEmpty || !QMap.contains s.m_seats seatName || rule.isEmpty || !re.isValid rule

/-- What a `QMap` and the rule calls guarantee about the rule map: the keys are in
strictly ascending order and no seat name is stored with an empty rule list. -/
def RulesWellFormed (s : WSeatManager) : Prop :=
  s.m_deviceRules.Pairwise (fun a b => QString.lt a.1 b.1) ∧ ∀ e ∈ s.m_deviceRules, e.2 ≠ []

instance RulesWellFormed.decidable (s : WSeatManager) : Decidable (RulesWellFormed s) := by
  unfold RulesWellFormed; infer_instance

/-- A rule map with a repeated pattern: seat1 has the rules "^Logitech.*", "^Wacom.*",
"^Logitech.*" in this order. -/
def demoRepeatedRule : WSeatManager :=
  (demoScenario.addDeviceRule demoRegex "seat1" "^Wacom.*").addDeviceRule demoRegex
    "seat1" "^Logitech.*"

/-- The device that stands for output `o` under the correspondence that swaps the
device list and the output list of every seat. -/
def WOutput.asDevice (o : WOutput) : WInputDevice := { id := o.id, name := o.name }

/-- The output that stands for device `d` under that correspondence. -/
def WInputDevice.asOutput (d : WInputDevice) : WOutput := { id := d.id, name := d.name }

/-- The seat with its device list and its output list swapped. -/
def WSeat.swapped (seat : WSeat) : WSeat :=
  { seat with deviceList := seat.outputs.map WOutput.asDevice,
              outputs := seat.deviceList.map WInputDevice.asOutput }

/-- The manager state with the device list and the output list of every seat swapped. -/
def WSeatManager.swapped (s : WSeatManager) : WSeatManager :=
  { s with m_seats := s.m_seats.map (fun e => (e.1, e.2.swapped)) }

/-- The first screen of the concrete scenarios. -/
def demoScreen : WOutput := { id := 1, name := "HDMI-1" }

/-- The part of the registry that device ownership depends on: keys and device lists. -/
def devView (m : List (String × WSeat)) : List (String × List WInputDevice) :=
  m.map (fun e => (e.1, e.2.deviceList))

/-- The part of the registry that output ownership depends on: keys and output lists. -/
def outView (m : List (String × WSeat)) : List (String × List WOutput) :=
  m.map (fun e => (e.1, e.2.outputs))

/-- Device `d` is attached to exactly the seat stored under key `r`, and to no seat at
all when `r` is none. -/
def HeldExactlyAt (s : WSeatManager) (d : WInputDevice) (r : Option String) : Prop :=
  ∀ e ∈ s.m_seats, d ∈ e.2.deviceList ↔ r = some e.1

/-- A registry for the removal scenarios: seat0 is the fallback seat, seat1 holds the
mouse, the keyboard and the screen, seat2 has the rule "^Logitech.*". -/
def demoRemoval : WSeatManager :=
  { m_seats :=
      [("seat0", { name := "seat0", isFallback := true, deviceList := [], outputs := [] }),
       ("seat1", { name := "seat1", isFallback := false,
                   deviceList := [demoMouse, demoKeyboard], outputs := [demoScreen] }),
       ("seat2", { name := "seat2", isFallback := false, deviceList := [], outputs := [] })],
    m_deviceRules := [("seat2", ["^Logitech.*"])],
    m_fallbackSeatName := "seat0" }

/-- Every seat of the registry holds its devices and its outputs as ordered sets: no
device and no output occurs twice in a list. -/
def ListsNodup (s : WSeatManager) : Prop :=
  ∀ e ∈ s.m_seats, e.2.deviceList.Nodup ∧ e.2.outputs.Nodup

/-- What the claim says `autoAssignDevice(d)` amounts to for a device attached to no
seat: the device is attached to `findSeatForDevice(d)` when that is a seat, and nothing
happens otherwise; there is no second attempt with `fallbackSeat()`. -/
def attachToResolvedSeat (re : RegexEngine) (s : WSeatManager) (d : WInputDevice) :
    Bool × WSeatManager :=
  match s.findSeatForDevice re (some d) with
  | some targetSeat =>
    (true, { s with m_seats := QMap.modify s.m_seats targetSeat.name (fun seat => seat.attachInputDevice d) })
  | none => (false, s)

/-- The seat entries of a configuration document, as `loadConfig` reads them (line 270). -/
def seatEntries (config : List (String × QJsonValue)) : List QJsonValue :=
  (QJsonObject.get config "seats").toArray

/-- The seat name of a document entry, as `loadConfig` reads it (lines 272-273). -/
def entryName (seatValue : QJsonValue) : String :=
  (QJsonObject.get seatValue.toObject "name").toString

/-- The fallback value of a document entry, as `loadConfig` reads it (line 274). -/
def entryFallback (seatValue : QJsonValue) : Bool :=
  (QJsonObject.get seatValue.toObject "fallback").toBool

/-- The rule patterns of a document entry, as `loadConfig` reads them (lines 278-280). -/
def entryRules (seatValue : QJsonValue) : List String :=
  (QJsonObject.get seatValue.toObject "deviceRules").toArray.map QJsonValue.toString

/-- The output names of a document entry; `loadConfig` does not read them. -/
def entryOutputs (seatValue : QJsonValue) : List String :=
  (QJsonObject.get seatValue.toObject "outputs").toArray.map QJsonValue.toString
/-- What the claim says the document entry `v` of the seat `e.2` holds: the name of the
seat, its fallback flag, the patterns `deviceRules` returns for it and the names of its
outputs, the last two as arrays of strings in the order of the lists. -/
def entryHoldsSeat (s : WSeatManager) (e : String × WSeat) (v : QJsonValue) : Prop :=
  QJsonObject.get v.toObject "name" = QJsonValue.string e.2.name ∧
  QJsonObject.get v.toObject "fallback" = QJsonValue.bool e.2.isFallback ∧
  QJsonObject.get v.toObject "deviceRules"
    = QJsonValue.array ((s.deviceRules e.2.name).map QJsonValue.string) ∧
  QJsonObject.get v.toObject "outputs"
    = QJsonValue.array (e.2.outputs.map (fun o => QJsonValue.string o.name))

/-- The patterns of a list that `addDeviceRule` accepts for a registered seat with a
non-empty name: the non-empty patterns that compile, in the order of the list. -/
def acceptedRules (re : RegexEngine) (rules : List String) : List String :=
  rules.filter (fun r => !r.isEmpty && re.isValid r)

/-- The non-empty valid patterns that the entries of a document list for the seat name
`n`, in document order: entry after entry, and within an entry in array order. -/
def documentRules (re : RegexEngine) : List QJsonValue → String → List String
  | [], _ => []
  | v :: vs, n =>
    (if entryName v = n then acceptedRules re (entryRules v) else []) ++ documentRules re vs n

/-- A document whose only seat entry has the empty name and lists one rule. -/
def demoUnnamedEntry : List (String × QJsonValue) :=
  [("seats", QJsonValue.array
    [QJsonValue.object
      [("deviceRules", QJsonValue.array [QJsonValue.string "^Logitech.*"]),
       ("name", QJsonValue.string "")]])]
/-- A document with a repeated seat name: seat1 (fallback, the rules "^Logitech.*", the
empty pattern and the pattern "[" that does not compile), then seat0 (fallback, no
rules), then seat1 again (fallback, the rule "^Wacom.*"). -/
def demoDocument : List (String × QJsonValue) :=
  [("seats", QJsonValue.array
    [QJsonValue.object
      [("deviceRules", QJsonValue.array
          [QJsonValue.string "^Logitech.*", QJsonValue.string "", QJsonValue.string "["]),
       ("fallback", QJsonValue.bool true),
       ("name", QJsonValue.string "seat1")],
     QJsonValue.object
      [("deviceRules", QJsonValue.array []),
       ("fallback", QJsonValue.bool true),
       ("name", QJsonValue.string "seat0")],
     QJsonValue.object
      [("deviceRules", QJsonValue.array [QJsonValue.string "^Wacom.*"]),
       ("fallback", QJsonValue.bool true),
       ("name", QJsonValue.string "seat1")]])]

/-- The names of the entries that create a seat with the fallback flag set, in document
order: an entry counts when its fallback value is true and its name is not among
`seen`, the names of the entries before it. -/
def creatingFallbackNamesFrom (seen : List String) : List QJsonValue → List String
  | [] => []
  | v :: vs =>
    (if entryFallback v && !seen.contains (entryName v) then [entryName v] else [])
      ++ creatingFallbackNamesFrom (entryName v :: seen) vs

/-- The names of the entries of a document that are the first of their name and have
fallback true, in document order. -/
def creatingFallbackNames (vs : List QJsonValue) : List String :=
  creatingFallbackNamesFrom [] vs

/-- A document in which a later entry with fallback true repeats a name: seat1
(fallback false, the rules "^Logitech.*", the empty pattern and the pattern "[" that
does not compile), then seat0 (fallback true), then seat1 again (fallback true, the
rule "^Wacom.*"). -/
def demoRepeatedFallback : List (String × QJsonValue) :=
  [("seats", QJsonValue.array
    [QJsonValue.object
      [("deviceRules", QJsonValue.array
          [QJsonValue.string "^Logitech.*", QJsonValue.string "", QJsonValue.string "["]),
       ("fallback", QJsonValue.bool false),
       ("name", QJsonValue.string "seat1")],
     QJsonValue.object
      [("fallback", QJsonValue.bool true),
       ("name", QJsonValue.string "seat0")],
     QJsonValue.object
      [("deviceRules", QJsonValue.array [QJsonValue.string "^Wacom.*"]),
       ("fallback", QJsonValue.bool true),
       ("name", QJsonValue.string "seat1")]])]

/-- A document in which two entries share the empty name: the empty name (fallback
true, the rule "^Logitech.*"), then seat0 (fallback true), then the empty name again
(the rule "^Wacom.*"). -/
def demoEmptyNameRepeated : List (String × QJsonValue) :=
  [("seats", QJsonValue.array
    [QJsonValue.object
      [("deviceRules", QJsonValue.array [QJsonValue.string "^Logitech.*"]),
       ("fallback", QJsonValue.bool true),
       ("name", QJsonValue.string "")],
     QJsonValue.object
      [("fallback", QJsonValue.bool true),
       ("name", QJsonValue.string "seat0")],
     QJsonValue.object
      [("deviceRules", QJsonValue.array [QJsonValue.string "^Wacom.*"]),
       ("name", QJsonValue.string "")]])]

/-- A state with a stale recorded fallback name: on a fresh manager
`createSeat("seat0", true)`, `removeSeat("seat0")`, `createSeat("seat0", false)`. The
recorded name is still "seat0", and no seat is flagged. -/
def demoStaleName : WSeatManager :=
  runCalls demoRegex WSeatManager.init
    [Call.createSeat "seat0" true, Call.removeSeat "seat0", Call.createSeat "seat0" false]

/-- The state with the stale name after two more calls: `createSeat("seat1", false)` and
`assignDeviceToSeat(keyboard, "seat1")`. -/
def demoStaleNameTwoSeats : WSeatManager :=
  runCalls demoRegex demoStaleName
    [Call.createSeat "seat1" false, Call.assignDeviceToSeat (some demoKeyboard) "seat1"]

/-- A registry with names inside and outside the Basic Multilingual Plane: on a fresh
manager `createSeat("Ａ", false)` (U+FF21), `createSeat("😀", false)` (U+1F600, the
units D83D DE00) and `createSeat("z", true)`. -/
def demoSurrogateNames : WSeatManager :=
  runCalls demoRegex WSeatManager.init
    [Call.createSeat "Ａ" false, Call.createSeat "😀" false, Call.createSeat "z" true]

/-- A document with the entries seat0 and seat1, neither with fallback true. -/
def demoPlainDocument : List (String × QJsonValue) :=
  [("seats", QJsonValue.array
    [QJsonValue.object
      [("fallback", QJsonValue.bool false), ("name", QJsonValue.string "seat0")],
     QJsonValue.object [("name", QJsonValue.string "seat1")]])]

/-- What `addDeviceRule` guarantees about the rule map: no pattern is stored for the
empty seat name, and every stored pattern is non-empty and compiles. -/
def RulesAccepted (re : RegexEngine) (s : WSeatManager) : Prop :=
  s.deviceRules "" = [] ∧
  ∀ n, ∀ r ∈ s.deviceRules n, r.isEmpty = false ∧ re.isValid r = true

/-- The fallback flag of the seat registered under `n`, none when no seat is
registered under that name. -/
def WSeatManager.flagOf (s : WSeatManager) (n : String) : Option Bool :=
  (s.getSeat n).map (fun seat => seat.isFallback)
/-- The round trip property of the spec at state `s`: `loadConfig(saveConfig())` on the
same manager leaves the same set of seat names, the same fallback flag on every seat
and, for every seat, the rule list `deviceRules` returned before. -/
def RoundTripReproduces (re : RegexEngine) (s : WSeatManager) : Prop :=
  (∀ n, QMap.contains (s.loadConfig re s.saveConfig).m_seats n = QMap.contains s.m_seats n) ∧
  (∀ n, (s.loadConfig re s.saveConfig).flagOf n = s.flagOf n) ∧
  (∀ n, QMap.contains s.m_seats n = true →
    (s.loadConfig re s.saveConfig).deviceRules n = s.deviceRules n)

/-! ## Theorems -/

/-! ### QMap -/

theorem QMap.contains_eq_isSome {α : Type} (m : List (String × α)) (k : String) :
    QMap.contains m k = (QMap.value m k).isSome := by
  induction m with
  | nil => rfl
  | cons e m ih =>
    obtain ⟨k', v⟩ := e
    by_cases h : k' = k <;> simp [QMap.contains, QMap.value, h, ih]

theorem QMap.contains_iff_mem_keys {α : Type} (m : List (String × α)) (k : String) :
    QMap.contains m k = true ↔ k ∈ m.map Prod.fst := by
  induction m with
  | nil => simp [QMap.contains]
  | cons e m ih =>
    obtain ⟨k', v⟩ := e
    by_cases h : k' = k
    · simp [QMap.contains, h]
    · simp [QMap.contains, h, ih, Ne.symm h]

theorem QMap.value_mem {α : Type} {m : List (String × α)} {k : String} {v : α}
    (h : QMap.value m k = some v) : (k, v) ∈ m := by
  induction m with
  | nil => simp [QMap.value] at h
  | cons e m ih =>
    obtain ⟨k', v'⟩ := e
    by_cases hk : k' = k
    · simp [QMap.value, hk] at h
      simp [hk, h]
    · simp [QMap.value, hk] at h
      exact List.mem_cons_of_mem _ (ih h)

theorem QMap.value_eq_none_iff {α : Type} (m : List (String × α)) (k : String) :
    QMap.value m k = none ↔ k ∉ m.map Prod.fst := by
  rw [← QMap.contains_iff_mem_keys, QMap.contains_eq_isSome]
  cases QMap.value m k <;> simp

theorem QMap.value_of_mem {α : Type} {m : List (String × α)} (hn : NodupKeys m)
    {k : String} {v : α} (h : (k, v) ∈ m) : QMap.value m k = some v := by
  induction m with
  | nil => simp at h
  | cons e m ih =>
    obtain ⟨k', v'⟩ := e
    simp only [NodupKeys, List.map_cons, List.nodup_cons] at hn
    rcases List.mem_cons.mp h with h | h
    · cases h; simp [QMap.value]
    · have hk : k' ≠ k := by
        rintro rfl
        exact hn.1 (List.mem_map.mpr ⟨(k', v), h, rfl⟩)
      simp [QMap.value, hk]
      exact ih hn.2 h

theorem QMap.insert_perm {α : Type} (m : List (String × α)) (k : String) (v : α)
    (h : QMap.contains m k = false) : (QMap.insert m k v).Perm ((k, v) :: m) := by
  induction m with
  | nil => simp [QMap.insert]
  | cons e m ih =>
    obtain ⟨k', v'⟩ := e
    have hk : k' ≠ k := by
      intro hk; simp [QMap.contains, hk] at h
    have hm : QMap.contains m k = false := by
      simpa [QMap.contains, hk] using h
    unfold QMap.insert
    split_ifs with h1 h2
    · exact List.Perm.refl _
    · exact absurd h2.symm hk
    · exact ((ih hm).cons (k', v')).trans (List.Perm.swap _ _ _)

theorem QMap.keys_modify {α : Type} (m : List (String × α)) (k : String) (f : α → α) :
    (QMap.modify m k f).map Prod.fst = m.map Prod.fst := by
  induction m with
  | nil => rfl
  | cons e m ih =>
    simp only [QMap.modify, List.map_cons] at ih ⊢
    rw [ih]
    split_ifs <;> rfl

theorem QMap.remove_sublist {α : Type} (m : List (String × α)) (k : String) :
    (QMap.remove m k).Sublist m := List.filter_sublist m

theorem NodupKeys.sublist {α : Type} {m m' : List (String × α)} (h : m'.Sublist m)
    (hn : NodupKeys m) : NodupKeys m' :=
  List.Nodup.sublist (h.map Prod.fst) hn

theorem NodupKeys.eq_of_mem {α : Type} {m : List (String × α)} (hn : NodupKeys m)
    {e e' : String × α} (he : e ∈ m) (he' : e' ∈ m) (hk : e.1 = e'.1) : e = e' := by
  have h1 := QMap.value_of_mem hn (show (e.1, e.2) ∈ m from he)
  have h2 := QMap.value_of_mem hn (show (e'.1, e'.2) ∈ m from he')
  rw [hk, h2] at h1
  exact Prod.ext hk (Option.some.inj h1).symm

/-! ### The fallback bookkeeping -/

theorem flagView_keys (m : List (String × WSeat)) :
    (flagView m).map Prod.fst = m.map Prod.fst := by
  simp [flagView, List.map_map, Function.comp_def]

theorem flagInv_of_flagView {s s' : WSeatManager}
    (hv : flagView s'.m_seats = flagView s.m_seats)
    (hf : s'.m_fallbackSeatName = s.m_fallbackSeatName) (h : FlagInv s) : FlagInv s' := by
  refine ⟨?_, ?_⟩
  · have := h.1
    unfold NodupKeys at this ⊢
    rw [← flagView_keys, hv, flagView_keys]; exact this
  · intro e he hflag
    have : (e.1, e.2.isFallback) ∈ flagView s'.m_seats :=
      List.mem_map.mpr ⟨e, he, rfl⟩
    rw [hv] at this
    obtain ⟨e0, he0, heq⟩ := List.mem_map.mp this
    simp only [Prod.mk.injEq] at heq
    rw [hf, ← heq.1]
    exact h.2 e0 he0 (by rw [heq.2, hflag])

theorem fallbackCount_le_one {s : WSeatManager} (h : FlagInv s) : fallbackCount s ≤ 1 := by
  unfold fallbackCount
  have hn : NodupKeys (s.m_seats.filter (fun e => e.2.isFallback)) :=
    NodupKeys.sublist (List.filter_sublist _) h.1
  match hl : s.m_seats.filter (fun e => e.2.isFallback) with
  | [] => rw [hl]; simp
  | [_] => rw [hl]; simp
  | a :: b :: l =>
    exfalso
    have ha : a ∈ s.m_seats.filter (fun e => e.2.isFallback) := by rw [hl]; simp
    have hb : b ∈ s.m_seats.filter (fun e => e.2.isFallback) := by rw [hl]; simp
    rw [List.mem_filter] at ha hb
    have h1 := h.2 a ha.1 ha.2
    have h2 := h.2 b hb.1 hb.2
    rw [hl] at hn
    simp only [NodupKeys, List.map_cons, List.nodup_cons, List.mem_cons, not_or] at hn
    exact hn.1.1 (h1.trans h2.symm)

theorem flagView_modify (m : List (String × WSeat)) (k : String) (f : WSeat → WSeat)
    (hf : ∀ seat, (f seat).isFallback = seat.isFallback) :
    flagView (QMap.modify m k f) = flagView m := by
  induction m with
  | nil => rfl
  | cons e m ih =>
    simp only [flagView, QMap.modify, List.map_cons, List.cons.injEq] at ih ⊢
    refine ⟨?_, ih⟩
    split_ifs <;> simp [hf]

theorem WSeat.isFallback_attachInputDevice (seat : WSeat) (d : WInputDevice) :
    (seat.attachInputDevice d).isFallback = seat.isFallback := by
  unfold WSeat.attachInputDevice; split_ifs <;> rfl

theorem WSeat.isFallback_attachOutput (seat : WSeat) (o : WOutput) :
    (seat.attachOutput o).isFallback = seat.isFallback := by
  unfold WSeat.attachOutput; split_ifs <;> rfl

theorem flagView_detachDeviceLoop (d : WInputDevice) (seatName : String)
    (m m' : List (String × WSeat))
    (h : WSeatManager.detachDeviceLoop d seatName m = some m') : flagView m' = flagView m := by
  induction m generalizing m' with
  | nil =>
    simp [WSeatManager.detachDeviceLoop] at h; subst h; rfl
  | cons e m ih =>
    obtain ⟨k, seat⟩ := e
    unfold WSeatManager.detachDeviceLoop at h
    split_ifs at h with h1 h2
    · cases h; simp [flagView, WSeat.detachInputDevice]
    · cases hr : WSeatManager.detachDeviceLoop d seatName m with
      | none => simp [hr] at h
      | some r =>
        simp [hr] at h; subst h
        have := ih r hr
        simp only [flagView, List.map_cons] at this ⊢
        rw [this]

theorem flagView_detachOutputLoop (o : WOutput) (seatName : String)
    (m m' : List (String × WSeat))
    (h : WSeatManager.detachOutputLoop o seatName m = some m') : flagView m' = flagView m := by
  induction m generalizing m' with
  | nil =>
    simp [WSeatManager.detachOutputLoop] at h; subst h; rfl
  | cons e m ih =>
    obtain ⟨k, seat⟩ := e
    unfold WSeatManager.detachOutputLoop at h
    split_ifs at h with h1 h2
    · cases h; simp [flagView, WSeat.detachOutput]
    · cases hr : WSeatManager.detachOutputLoop o seatName m with
      | none => simp [hr] at h
      | some r =>
        simp [hr] at h; subst h
        have := ih r hr
        simp only [flagView, List.map_cons] at this ⊢
        rw [this]

theorem autoAssignDevice_cases (re : RegexEngine) (s : WSeatManager) (d : WInputDevice) :
    (s.autoAssignDevice re (some d)).2 = s ∨
    ((s.m_seats.any (fun e => e.2.deviceList.contains d)) = false ∧
      ∃ k, (s.autoAssignDevice re (some d)).2 =
        { s with m_seats := QMap.modify s.m_seats k (fun seat => seat.attachInputDevice d) }) := by
  unfold WSeatManager.autoAssignDevice
  by_cases h1 : (s.m_seats.any (fun e => e.2.deviceList.contains d)) = true
  · left; simp only [h1, if_true]
  · simp only [h1]
    cases WSeatManager.findSeatForDevice re s (some d) with
    | some t => right; exact ⟨trivial, t.name, rfl⟩
    | none =>
      by_cases h2 : s.fallbackSeat.isSome = true
      · right; simp only [h2, if_true]
        exact ⟨trivial, s.m_fallbackSeatName, rfl⟩
      · left; simp [h2]

theorem autoAssignDevice_flagView (re : RegexEngine) (s : WSeatManager)
    (device : Option WInputDevice) :
    flagView (s.autoAssignDevice re device).2.m_seats = flagView s.m_seats ∧
    (s.autoAssignDevice re device).2.m_fallbackSeatName = s.m_fallbackSeatName ∧
    (s.autoAssignDevice re device).2.m_deviceRules = s.m_deviceRules := by
  cases device with
  | none => simp [WSeatManager.autoAssignDevice]
  | some d =>
    rcases autoAssignDevice_cases re s d with h | ⟨_, k, h⟩
    · rw [h]; simp
    · rw [h]
      exact ⟨flagView_modify _ _ _ (fun seat => seat.isFallback_attachInputDevice d), rfl, rfl⟩

theorem assignDeviceToSeat_flagView (s : WSeatManager) (device : Option WInputDevice)
    (seatName : String) :
    flagView (s.assignDeviceToSeat device seatName).m_seats = flagView s.m_seats ∧
    (s.assignDeviceToSeat device seatName).m_fallbackSeatName = s.m_fallbackSeatName ∧
    (s.assignDeviceToSeat device seatName).m_deviceRules = s.m_deviceRules := by
  unfold WSeatManager.assignDeviceToSeat
  cases device with
  | none => simp
  | some d =>
    simp only
    cases hl : WSeatManager.detachDeviceLoop d seatName s.m_seats with
    | none => simp
    | some m =>
      have hm := flagView_detachDeviceLoop d seatName _ _ hl
      simp only
      split_ifs
      · exact ⟨(flagView_modify _ _ _ (fun seat => seat.isFallback_attachInputDevice d)).trans hm,
          rfl, rfl⟩
      · exact ⟨(flagView_modify _ _ _ (fun seat => seat.isFallback_attachInputDevice d)).trans hm,
          rfl, rfl⟩
      · exact ⟨hm, rfl, rfl⟩

theorem assignOutputToSeat_flagView (s : WSeatManager) (output : Option WOutput)
    (seatName : String) :
    flagView (s.assignOutputToSeat output seatName).m_seats = flagView s.m_seats ∧
    (s.assignOutputToSeat output seatName).m_fallbackSeatName = s.m_fallbackSeatName ∧
    (s.assignOutputToSeat output seatName).m_deviceRules = s.m_deviceRules := by
  unfold WSeatManager.assignOutputToSeat
  cases output with
  | none => simp
  | some o =>
    simp only
    cases hl : WSeatManager.detachOutputLoop o seatName s.m_seats with
    | none => simp
    | some m =>
      have hm := flagView_detachOutputLoop o seatName _ _ hl
      simp only
      split_ifs
      · exact ⟨(flagView_modify _ _ _ (fun seat => seat.isFallback_attachOutput o)).trans hm,
          rfl, rfl⟩
      · exact ⟨(flagView_modify _ _ _ (fun seat => seat.isFallback_attachOutput o)).trans hm,
          rfl, rfl⟩
      · exact ⟨hm, rfl, rfl⟩

theorem removeSeatDeviceStep_flagView (re : RegexEngine) (st : WSeatManager)
    (d : WInputDevice) :
    flagView (WSeatManager.removeSeatDeviceStep re st d).m_seats = flagView st.m_seats ∧
    (WSeatManager.removeSeatDeviceStep re st d).m_fallbackSeatName = st.m_fallbackSeatName ∧
    (WSeatManager.removeSeatDeviceStep re st d).m_deviceRules = st.m_deviceRules := by
  unfold WSeatManager.removeSeatDeviceStep
  split_ifs
  · exact autoAssignDevice_flagView re st (some d)
  · simp

theorem removeSeatOutputStep_flagView (st : WSeatManager) (o : WOutput) :
    flagView (WSeatManager.removeSeatOutputStep st o).m_seats = flagView st.m_seats ∧
    (WSeatManager.removeSeatOutputStep st o).m_fallbackSeatName = st.m_fallbackSeatName ∧
    (WSeatManager.removeSeatOutputStep st o).m_deviceRules = st.m_deviceRules := by
  unfold WSeatManager.removeSeatOutputStep
  split_ifs
  · exact ⟨flagView_modify _ _ _ (fun seat => seat.isFallback_attachOutput o), rfl, rfl⟩
  · simp

theorem foldl_deviceStep_flagView (re : RegexEngine) (ds : List WInputDevice)
    (st : WSeatManager) :
    flagView (ds.foldl (WSeatManager.removeSeatDeviceStep re) st).m_seats = flagView st.m_seats ∧
    (ds.foldl (WSeatManager.removeSeatDeviceStep re) st).m_fallbackSeatName
      = st.m_fallbackSeatName ∧
    (ds.foldl (WSeatManager.removeSeatDeviceStep re) st).m_deviceRules = st.m_deviceRules := by
  induction ds generalizing st with
  | nil => simp
  | cons d ds ih =>
    obtain ⟨h1, h2, h3⟩ := removeSeatDeviceStep_flagView re st d
    obtain ⟨i1, i2, i3⟩ := ih (WSeatManager.removeSeatDeviceStep re st d)
    exact ⟨i1.trans h1, i2.trans h2, i3.trans h3⟩

theorem foldl_outputStep_flagView (os : List WOutput) (st : WSeatManager) :
    flagView (os.foldl WSeatManager.removeSeatOutputStep st).m_seats = flagView st.m_seats ∧
    (os.foldl WSeatManager.removeSeatOutputStep st).m_fallbackSeatName
      = st.m_fallbackSeatName ∧
    (os.foldl WSeatManager.removeSeatOutputStep st).m_deviceRules = st.m_deviceRules := by
  induction os generalizing st with
  | nil => simp
  | cons o os ih =>
    obtain ⟨h1, h2, h3⟩ := removeSeatOutputStep_flagView st o
    obtain ⟨i1, i2, i3⟩ := ih (WSeatManager.removeSeatOutputStep st o)
    exact ⟨i1.trans h1, i2.trans h2, i3.trans h3⟩

theorem FlagInv.init : FlagInv WSeatManager.init := by
  simp [FlagInv, NodupKeys, WSeatManager.init]

theorem NodupKeys.insert {α : Type} {m : List (String × α)} (hn : NodupKeys m) (k : String)
    (v : α) (h : QMap.contains m k = false) : NodupKeys (QMap.insert m k v) := by
  have hp := (QMap.insert_perm m k v h).map Prod.fst
  unfold NodupKeys
  rw [hp.nodup_iff]
  simp only [List.map_cons, List.nodup_cons]
  refine ⟨?_, hn⟩
  rw [← QMap.contains_iff_mem_keys, h]; simp

theorem keys_demoteOthers (m : List (String × WSeat)) (name : String) :
    (WSeatManager.demoteOthers m name).map Prod.fst = m.map Prod.fst := by
  induction m with
  | nil => rfl
  | cons e m ih =>
    simp only [WSeatManager.demoteOthers, List.map_cons] at ih ⊢
    rw [ih]
    split_ifs <;> rfl

theorem mem_demoteOthers {m : List (String × WSeat)} {name : String} {e : String × WSeat}
    (h : e ∈ WSeatManager.demoteOthers m name) :
    ∃ e0 ∈ m, e.1 = e0.1 ∧ e.2.deviceList = e0.2.deviceList ∧ e.2.outputs = e0.2.outputs ∧
      e.2.name = e0.2.name ∧ (e.2.isFallback = true → e.1 = name) ∧
      (e0.1 = name → e = e0) := by
  obtain ⟨e0, he0, rfl⟩ := List.mem_map.mp h
  refine ⟨e0, he0, ?_⟩
  split_ifs with hc
  · refine ⟨rfl, rfl, rfl, rfl, ?_, fun h => absurd h hc.1⟩
    simp [WSeat.setIsFallback]
  · refine ⟨rfl, rfl, rfl, rfl, fun hf => ?_, fun _ => rfl⟩
    by_contra hne
    exact hc ⟨hne, hf⟩

theorem createSeat_flagInv (s : WSeatManager) (name : String) (isFallback : Bool)
    (h : FlagInv s) : FlagInv (s.createSeat name isFallback).2 := by
  unfold WSeatManager.createSeat
  by_cases hc : QMap.contains s.m_seats name = true
  · simp only [hc, if_true]; exact h
  · have hc' : QMap.contains s.m_seats name = false := eq_false_of_ne_true hc
    simp only [hc]
    have hn := NodupKeys.insert h.1 name
      ((WSeat.create name).setIsFallback isFallback) hc'
    cases isFallback with
    | true =>
      refine ⟨?_, ?_⟩
      · unfold NodupKeys at hn ⊢
        simpa [keys_demoteOthers] using hn
      · intro e he hf
        obtain ⟨e0, _, _, _, _, _, h5, _⟩ := mem_demoteOthers he
        exact h5 hf
    | false =>
      refine ⟨by simpa using hn, ?_⟩
      intro e he hf
      have he' : e ∈ QMap.insert s.m_seats name ((WSeat.create name).setIsFallback false) := he
      rcases List.mem_cons.mp ((QMap.insert_perm _ _ _ hc').mem_iff.mp he') with rfl | hm
      · simp [WSeat.setIsFallback, WSeat.create] at hf
      · exact h.2 e hm hf

theorem promoteFirst_flagInv (s : WSeatManager) (hn : NodupKeys s.m_seats)
    (h : ∀ e ∈ s.m_seats, e.2.isFallback = false) : FlagInv (s.promoteFirst) := by
  unfold WSeatManager.promoteFirst
  cases hm : s.m_seats with
  | nil => exact ⟨by simp [hm, NodupKeys], by simp [hm]⟩
  | cons e rest =>
    obtain ⟨k, seat⟩ := e
    rw [hm] at hn h
    refine ⟨by simpa [NodupKeys] using hn, ?_⟩
    intro e he hf
    rcases List.mem_cons.mp he with rfl | hr
    · rfl
    · have := h e (List.mem_cons_of_mem _ hr)
      rw [this] at hf; cases hf

theorem FlagInv.no_flag_of_no_fallbackSeat {s : WSeatManager} (h : FlagInv s)
    (hf : s.fallbackSeat = none) : ∀ e ∈ s.m_seats, e.2.isFallback = false := by
  intro e he
  by_contra hflag
  have hk := h.2 e he (by simpa using hflag)
  have : QMap.value s.m_seats s.m_fallbackSeatName = some e.2 :=
    QMap.value_of_mem h.1 (by rw [← hk]; exact he)
  rw [WSeatManager.fallbackSeat, this] at hf
  cases hf

theorem healFallback_flagInv (s : WSeatManager) (h : FlagInv s) :
    FlagInv (if s.fallbackSeat.isNone && !s.m_seats.isEmpty then s.promoteFirst else s) := by
  split_ifs with hc
  · simp only [Bool.and_eq_true, Option.isNone_iff_eq_none] at hc
    exact promoteFirst_flagInv s h.1 (h.no_flag_of_no_fallbackSeat hc.1)
  · exact h

theorem removeSeat_flagInv (re : RegexEngine) (s : WSeatManager) (name : String)
    (h : FlagInv s) : FlagInv (s.removeSeat re name) := by
  unfold WSeatManager.removeSeat
  cases hv : QMap.value s.m_seats name with
  | none => exact h
  | some seat =>
    simp only
    have hmem := QMap.value_mem hv
    have hn1 : NodupKeys (QMap.remove s.m_seats name) :=
      NodupKeys.sublist (QMap.remove_sublist _ _) h.1
    have h2 : FlagInv (if (seat.isFallback && !(QMap.remove s.m_seats name).isEmpty) = true
        then WSeatManager.promoteFirst { s with m_seats := QMap.remove s.m_seats name }
        else { s with m_seats := QMap.remove s.m_seats name }) := by
      split_ifs with hc
      · simp only [Bool.and_eq_true] at hc
        refine promoteFirst_flagInv _ hn1 ?_
        intro e he
        have he' : e ∈ s.m_seats ∧ e.1 ≠ name := by
          simpa [QMap.remove, List.mem_filter] using he
        by_contra hflag
        have hk := h.2 e he'.1 (by simpa using hflag)
        have hk' := h.2 (name, seat) hmem hc.1
        exact he'.2 (hk.trans hk'.symm)
      · refine ⟨hn1, ?_⟩
        intro e he hf
        have he' : e ∈ s.m_seats ∧ e.1 ≠ name := by
          simpa [QMap.remove, List.mem_filter] using he
        exact h.2 e he'.1 hf
    obtain ⟨a1, a2, _⟩ := foldl_deviceStep_flagView re seat.deviceList
      (if (seat.isFallback && !(QMap.remove s.m_seats name).isEmpty) = true
        then WSeatManager.promoteFirst { s with m_seats := QMap.remove s.m_seats name }
        else { s with m_seats := QMap.remove s.m_seats name })
    obtain ⟨b1, b2, _⟩ := foldl_outputStep_flagView seat.outputs
      (seat.deviceList.foldl (WSeatManager.removeSeatDeviceStep re)
        (if (seat.isFallback && !(QMap.remove s.m_seats name).isEmpty) = true
          then WSeatManager.promoteFirst { s with m_seats := QMap.remove s.m_seats name }
          else { s with m_seats := QMap.remove s.m_seats name }))
    exact flagInv_of_flagView (b1.trans a1) (b2.trans a2) h2

theorem removeSeatPtr_flagInv (re : RegexEngine) (s : WSeatManager) (seat : SeatPtr)
    (h : FlagInv s) : FlagInv (s.removeSeatPtr re seat) := by
  unfold WSeatManager.removeSeatPtr
  cases seat with
  | null => exact h
  | owned key =>
    simp only
    split_ifs
    · exact removeSeat_flagInv re s _ h
    · exact h
  | foreign =>
    simp only
    split_ifs
    · exact removeSeat_flagInv re s _ h
    · exact h

theorem addDeviceRule_seats (re : RegexEngine) (s : WSeatManager) (seatName rule : String) :
    (s.addDeviceRule re seatName rule).m_seats = s.m_seats ∧
    (s.addDeviceRule re seatName rule).m_fallbackSeatName = s.m_fallbackSeatName := by
  unfold WSeatManager.addDeviceRule
  split_ifs <;> exact ⟨rfl, rfl⟩

theorem removeDeviceRule_seats (re : RegexEngine) (s : WSeatManager) (seatName rule : String) :
    (s.removeDeviceRule re seatName rule).m_seats = s.m_seats ∧
    (s.removeDeviceRule re seatName rule).m_fallbackSeatName = s.m_fallbackSeatName := by
  unfold WSeatManager.removeDeviceRule
  simp only
  split_ifs <;> exact ⟨rfl, rfl⟩

theorem foldl_addDeviceRule_seats (re : RegexEngine) (name : String) (rs : List QJsonValue)
    (st : WSeatManager) :
    (rs.foldl (fun acc ruleValue => acc.addDeviceRule re name ruleValue.toString) st).m_seats
      = st.m_seats ∧
    (rs.foldl (fun acc ruleValue => acc.addDeviceRule re name ruleValue.toString)
      st).m_fallbackSeatName = st.m_fallbackSeatName := by
  induction rs generalizing st with
  | nil => exact ⟨rfl, rfl⟩
  | cons r rs ih =>
    obtain ⟨h1, h2⟩ := addDeviceRule_seats re st name r.toString
    obtain ⟨i1, i2⟩ := ih (st.addDeviceRule re name r.toString)
    exact ⟨i1.trans h1, i2.trans h2⟩

theorem FlagInv.of_seats {s s' : WSeatManager} (hm : s'.m_seats = s.m_seats)
    (hf : s'.m_fallbackSeatName = s.m_fallbackSeatName) (h : FlagInv s) : FlagInv s' :=
  flagInv_of_flagView (by rw [hm]) hf h

theorem loadSeatEntry_flagInv (re : RegexEngine) (st : WSeatManager) (v : QJsonValue)
    (h : FlagInv st) : FlagInv (WSeatManager.loadSeatEntry re st v) := by
  unfold WSeatManager.loadSeatEntry
  simp only
  obtain ⟨h1, h2⟩ := foldl_addDeviceRule_seats re
    (QJsonObject.get v.toObject "name").toString
    (QJsonObject.get v.toObject "deviceRules").toArray
    (st.createSeat (QJsonObject.get v.toObject "name").toString
      (QJsonObject.get v.toObject "fallback").toBool).2
  exact FlagInv.of_seats h1 h2 (createSeat_flagInv st _ _ h)

theorem foldl_loadSeatEntry_flagInv (re : RegexEngine) (vs : List QJsonValue)
    (st : WSeatManager) (h : FlagInv st) :
    FlagInv (vs.foldl (WSeatManager.loadSeatEntry re) st) := by
  induction vs generalizing st with
  | nil => exact h
  | cons v vs ih => exact ih _ (loadSeatEntry_flagInv re st v h)

theorem loadConfig_flagInv (re : RegexEngine) (s : WSeatManager)
    (config : List (String × QJsonValue)) : FlagInv (s.loadConfig re config) := by
  unfold WSeatManager.loadConfig
  simp only
  apply healFallback_flagInv
  have h0 : FlagInv { s with m_seats := [], m_deviceRules := [] } := by
    simp [FlagInv, NodupKeys]
  have h1 := foldl_loadSeatEntry_flagInv re (QJsonObject.get config "seats").toArray _ h0
  split_ifs
  · exact createSeat_flagInv _ _ _ h1
  · exact h1

theorem create_flagInv (s : WSeatManager) (server : Option WServer) (h : FlagInv s) :
    FlagInv (s.create server) := by
  unfold WSeatManager.create
  cases server with
  | none => exact h
  | some _ => exact healFallback_flagInv s h

theorem Call.apply_flagInv (re : RegexEngine) (s : WSeatManager) (c : Call) (h : FlagInv s) :
    FlagInv (c.apply re s) := by
  cases c with
  | createSeat name isFallback => exact createSeat_flagInv s name isFallback h
  | removeSeat name => exact removeSeat_flagInv re s name h
  | removeSeatPtr seat => exact removeSeatPtr_flagInv re s seat h
  | assignDeviceToSeat device seatName =>
    obtain ⟨h1, h2, _⟩ := assignDeviceToSeat_flagView s device seatName
    exact flagInv_of_flagView h1 h2 h
  | autoAssignDevice device =>
    obtain ⟨h1, h2, _⟩ := autoAssignDevice_flagView re s device
    exact flagInv_of_flagView h1 h2 h
  | assignOutputToSeat output seatName =>
    obtain ⟨h1, h2, _⟩ := assignOutputToSeat_flagView s output seatName
    exact flagInv_of_flagView h1 h2 h
  | addDeviceRule seatName rule =>
    obtain ⟨h1, h2⟩ := addDeviceRule_seats re s seatName rule
    exact FlagInv.of_seats h1 h2 h
  | removeDeviceRule seatName rule =>
    obtain ⟨h1, h2⟩ := removeDeviceRule_seats re s seatName rule
    exact FlagInv.of_seats h1 h2 h
  | loadConfig config => exact loadConfig_flagInv re s config
  | create server => exact create_flagInv s server h
  | destroy server => simp [Call.apply, WSeatManager.destroy, FlagInv, NodupKeys]

theorem runCalls_flagInv (re : RegexEngine) (calls : List Call) (s : WSeatManager)
    (h : FlagInv s) : FlagInv (runCalls re s calls) := by
  induction calls generalizing s with
  | nil => exact h
  | cons c cs ih => exact ih _ (Call.apply_flagInv re s c h)

/-- C1: in every state reachable from a freshly constructed manager by any sequence of
calls of the state-changing member functions, at most one seat of the registry has
its fallback flag set. -/
theorem at_most_one_fallback_reachable (re : RegexEngine) (calls : List Call) :
    fallbackCount (runCalls re WSeatManager.init calls) ≤ 1 :=
  fallbackCount_le_one (runCalls_flagInv re calls _ FlagInv.init)

/-! ### Exactly one fallback seat -/

theorem hasFlaggedSeat_of_flagView {s s' : WSeatManager}
    (hv : flagView s'.m_seats = flagView s.m_seats) (h : HasFlaggedSeat s) :
    HasFlaggedSeat s' := by
  obtain ⟨e, he, hf⟩ := h
  have : (e.1, e.2.isFallback) ∈ flagView s'.m_seats := by
    rw [hv]; exact List.mem_map.mpr ⟨e, he, rfl⟩
  obtain ⟨e', he', heq⟩ := List.mem_map.mp this
  simp only [Prod.mk.injEq] at heq
  exact ⟨e', he', heq.2.trans hf⟩

theorem fallbackCount_eq_one {s : WSeatManager} (h : FlagInv s) (hf : HasFlaggedSeat s) :
    fallbackCount s = 1 := by
  have h1 := fallbackCount_le_one h
  obtain ⟨e, he, hflag⟩ := hf
  have hmem : e ∈ s.m_seats.filter (fun e => e.2.isFallback) :=
    List.mem_filter.mpr ⟨he, hflag⟩
  have h2 : 0 < fallbackCount s := List.length_pos_of_mem hmem
  omega

theorem createSeat_hasFlaggedSeat (s : WSeatManager) (name : String) (isFallback : Bool)
    (h : HasFlaggedSeat s ∨ isFallback = true) :
    HasFlaggedSeat (s.createSeat name isFallback).2 ∨
      (QMap.contains s.m_seats name = true ∧ (s.createSeat name isFallback).2 = s) := by
  unfold WSeatManager.createSeat
  by_cases hc : QMap.contains s.m_seats name = true
  · right; simp only [hc, if_true, and_self]
  · left
    have hc' : QMap.contains s.m_seats name = false := eq_false_of_ne_true hc
    simp only [hc]
    cases isFallback with
    | true =>
      refine ⟨(name, (WSeat.create name).setIsFallback true), ?_, rfl⟩
      refine List.mem_map.mpr ⟨(name, (WSeat.create name).setIsFallback true), ?_, by simp⟩
      exact (QMap.insert_perm _ _ _ hc').mem_iff.mpr (List.mem_cons_self _ _)
    | false =>
      rcases h with ⟨e, he, hf⟩ | h
      · exact ⟨e, (QMap.insert_perm _ _ _ hc').mem_iff.mpr (List.mem_cons_of_mem _ he), hf⟩
      · cases h

theorem promoteFirst_hasFlaggedSeat (s : WSeatManager) (h : s.m_seats ≠ []) :
    HasFlaggedSeat s.promoteFirst := by
  unfold WSeatManager.promoteFirst
  cases hm : s.m_seats with
  | nil => exact absurd hm h
  | cons e rest => exact ⟨_, List.mem_cons_self _ _, rfl⟩

theorem removeSeat_hasFlaggedSeat (re : RegexEngine) (s : WSeatManager) (name : String)
    (h : FlagInv s) (hf : s.m_seats = [] ∨ HasFlaggedSeat s) :
    (s.removeSeat re name).m_seats = [] ∨ HasFlaggedSeat (s.removeSeat re name) := by
  unfold WSeatManager.removeSeat
  cases hv : QMap.value s.m_seats name with
  | none => exact hf
  | some seat =>
    simp only
    have hmem := QMap.value_mem hv
    have h2 : (if (seat.isFallback && !(QMap.remove s.m_seats name).isEmpty) = true
        then WSeatManager.promoteFirst { s with m_seats := QMap.remove s.m_seats name }
        else { s with m_seats := QMap.remove s.m_seats name }).m_seats = [] ∨
        HasFlaggedSeat (if (seat.isFallback && !(QMap.remove s.m_seats name).isEmpty) = true
        then WSeatManager.promoteFirst { s with m_seats := QMap.remove s.m_seats name }
        else { s with m_seats := QMap.remove s.m_seats name }) := by
      split_ifs with hc
      · simp only [Bool.and_eq_true, Bool.not_eq_true', List.isEmpty_eq_false] at hc
        right
        exact promoteFirst_hasFlaggedSeat _ (by simpa using hc.2)
      · rcases hf with hempty | ⟨e, he, hflag⟩
        · rw [hempty] at hmem; cases hmem
        · by_cases hk : e.1 = name
          · have : e = (name, seat) := NodupKeys.eq_of_mem h.1 he hmem hk
            subst this
            left
            have hflag' : seat.isFallback = true := hflag
            simpa [hflag'] using hc
          · right
            refine ⟨e, ?_, hflag⟩
            simp [QMap.remove, List.mem_filter, he, hk]
    obtain ⟨a1, _, _⟩ := foldl_deviceStep_flagView re seat.deviceList
      (if (seat.isFallback && !(QMap.remove s.m_seats name).isEmpty) = true
        then WSeatManager.promoteFirst { s with m_seats := QMap.remove s.m_seats name }
        else { s with m_seats := QMap.remove s.m_seats name })
    obtain ⟨b1, _, _⟩ := foldl_outputStep_flagView seat.outputs
      (seat.deviceList.foldl (WSeatManager.removeSeatDeviceStep re)
        (if (seat.isFallback && !(QMap.remove s.m_seats name).isEmpty) = true
          then WSeatManager.promoteFirst { s with m_seats := QMap.remove s.m_seats name }
          else { s with m_seats := QMap.remove s.m_seats name }))
    have hv' := b1.trans a1
    rcases h2 with h2 | h2
    · left
      rw [h2] at hv'
      simpa [flagView] using hv'
    · right
      exact hasFlaggedSeat_of_flagView hv' h2

theorem removeSeatPtr_hasFlaggedSeat (re : RegexEngine) (s : WSeatManager) (seat : SeatPtr)
    (h : FlagInv s) (hf : s.m_seats = [] ∨ HasFlaggedSeat s) :
    (s.removeSeatPtr re seat).m_seats = [] ∨ HasFlaggedSeat (s.removeSeatPtr re seat) := by
  unfold WSeatManager.removeSeatPtr
  cases seat with
  | null => exact hf
  | owned key =>
    simp only
    split_ifs
    · exact removeSeat_hasFlaggedSeat re s _ h hf
    · exact hf
  | foreign =>
    simp only
    split_ifs
    · exact removeSeat_hasFlaggedSeat re s _ h hf
    · exact hf

theorem runCalls_hasFlaggedSeat (re : RegexEngine) (calls : List Call) (s : WSeatManager)
    (h : FlagInv s) (hf : s.m_seats = [] ∨ HasFlaggedSeat s)
    (hl : ∀ c ∈ calls, c.isSeatLifecycle = true)
    (hs : createsOnEmptyAreFallback re s calls = true) :
    (runCalls re s calls).m_seats = [] ∨ HasFlaggedSeat (runCalls re s calls) := by
  induction calls generalizing s with
  | nil => exact hf
  | cons c cs ih =>
    simp only [createsOnEmptyAreFallback, Bool.and_eq_true] at hs
    refine ih (c.apply re s) (Call.apply_flagInv re s c h) ?_
      (fun c' hc' => hl c' (List.mem_cons_of_mem _ hc')) hs.2
    have hc := hl c (List.mem_cons_self _ _)
    cases c with
    | createSeat name isFallback =>
      have hpre : HasFlaggedSeat s ∨ isFallback = true := by
        rcases hf with hempty | hflag
        · right; simpa [hempty] using hs.1
        · exact Or.inl hflag
      rcases createSeat_hasFlaggedSeat s name isFallback hpre with h1 | ⟨hcont, h1⟩
      · exact Or.inr h1
      · simp only [Call.apply]
        rw [h1]
        rcases hf with hempty | hflag
        · rw [hempty] at hcont; simp [QMap.contains] at hcont
        · exact Or.inr hflag
    | removeSeat name => exact removeSeat_hasFlaggedSeat re s name h hf
    | removeSeatPtr seat => exact removeSeatPtr_hasFlaggedSeat re s seat h hf
    | assignDeviceToSeat _ _ => simp [Call.isSeatLifecycle] at hc
    | autoAssignDevice _ => simp [Call.isSeatLifecycle] at hc
    | assignOutputToSeat _ _ => simp [Call.isSeatLifecycle] at hc
    | addDeviceRule _ _ => simp [Call.isSeatLifecycle] at hc
    | removeDeviceRule _ _ => simp [Call.isSeatLifecycle] at hc
    | loadConfig _ => simp [Call.isSeatLifecycle] at hc
    | create _ => simp [Call.isSeatLifecycle] at hc
    | destroy _ => simp [Call.isSeatLifecycle] at hc

/-- C2, as stated, fails: after the single call `createSeat("seat1", false)` on an empty
manager the registry is non-empty and no seat has its fallback flag set. -/
theorem createSeat_plain_leaves_no_fallback :
    (runCalls demoRegex WSeatManager.init [Call.createSeat "seat1" false]).m_seats ≠ [] ∧
    fallbackCount (runCalls demoRegex WSeatManager.init [Call.createSeat "seat1" false]) = 0 := by
  decide

/-- C2, amended: for every sequence of createSeat/removeSeat calls applied to an empty
manager, at most one seat has fallback = true; and exactly one has it whenever the
resulting registry is non-empty and every createSeat call that found the registry
empty passed isFallback = true. -/
theorem exactly_one_fallback_when_seeded (re : RegexEngine) (calls : List Call)
    (hl : ∀ c ∈ calls, c.isSeatLifecycle = true)
    (hs : createsOnEmptyAreFallback re WSeatManager.init calls = true) :
    fallbackCount (runCalls re WSeatManager.init calls) ≤ 1 ∧
    ((runCalls re WSeatManager.init calls).m_seats ≠ [] →
      fallbackCount (runCalls re WSeatManager.init calls) = 1) := by
  have hinv := runCalls_flagInv re calls _ FlagInv.init
  refine ⟨fallbackCount_le_one hinv, fun hne => ?_⟩
  rcases runCalls_hasFlaggedSeat re calls _ FlagInv.init (Or.inl rfl) hl hs with h | h
  · exact absurd h hne
  · exact fallbackCount_eq_one hinv h

/-- Witness for C2 (amended): seat0 is created as fallback, seat1 as a plain seat, then
seat0 is removed; seat1 is the one flagged seat. -/
theorem exactly_one_fallback_when_seeded_witness :
    (runCalls demoRegex WSeatManager.init
      [Call.createSeat "seat0" true, Call.createSeat "seat1" false,
        Call.removeSeat "seat0"]).m_seats ≠ [] ∧
    fallbackCount (runCalls demoRegex WSeatManager.init
      [Call.createSeat "seat0" true, Call.createSeat "seat1" false,
        Call.removeSeat "seat0"]) = 1 :=
  ⟨by decide,
   (exactly_one_fallback_when_seeded demoRegex
      [Call.createSeat "seat0" true, Call.createSeat "seat1" false, Call.removeSeat "seat0"]
      (by decide) (by decide)).2 (by decide)⟩

/-! ### fallbackSeat and createSeat -/

/-- C3: the code at the failing input. After `createSeat("seat0", true)`,
`removeSeat("seat0")` and `createSeat("seat0", false)` the recorded fallback name is
still "seat0", so `fallbackSeat()` returns the new seat0 although neither it nor any
other seat has its fallback flag set. -/
theorem fallbackSeat_stale_name_returns_unflagged_seat :
    (runCalls demoRegex WSeatManager.init
      [Call.createSeat "seat0" true, Call.removeSeat "seat0",
        Call.createSeat "seat0" false]).fallbackSeat
      = some { name := "seat0", isFallback := false, deviceList := [], outputs := [] } ∧
    fallbackCount (runCalls demoRegex WSeatManager.init
      [Call.createSeat "seat0" true, Call.removeSeat "seat0",
        Call.createSeat "seat0" false]) = 0 := by
  decide

/-- C4: createSeat is idempotent on the name. For a name already in the registry,
createSeat with either value of isFallback returns the seat registered under that
name and leaves the whole manager state unchanged, hence also the seat returned by
fallbackSeat() and every rule list. -/
theorem createSeat_existing_name_is_noop (s : WSeatManager) (name : String)
    (isFallback : Bool) (h : name ∈ s.m_seats.map Prod.fst) :
    (s.createSeat name isFallback).2 = s ∧
    (∃ seat, (name, seat) ∈ s.m_seats ∧ s.getSeat name = some seat ∧
      (s.createSeat name isFallback).1 = some seat) ∧
    (s.createSeat name isFallback).2.fallbackSeat = s.fallbackSeat ∧
    (∀ n, (s.createSeat name isFallback).2.deviceRules n = s.deviceRules n) := by
  have hc : QMap.contains s.m_seats name = true := (QMap.contains_iff_mem_keys _ _).mpr h
  have hs : s.createSeat name isFallback = (QMap.value s.m_seats name, s) := by
    unfold WSeatManager.createSeat
    simp only [hc, if_true]
  rw [hs]
  refine ⟨rfl, ?_, rfl, fun _ => rfl⟩
  rw [QMap.contains_eq_isSome] at hc
  obtain ⟨seat, hseat⟩ := Option.isSome_iff_exists.mp hc
  exact ⟨seat, QMap.value_mem hseat, hseat, hseat⟩

/-- Witness for C4: seat0 exists and is the fallback seat; `createSeat("seat0", false)`
changes nothing. -/
theorem createSeat_existing_name_is_noop_witness :
    "seat0" ∈ demoManager.m_seats.map Prod.fst ∧
    (demoManager.createSeat "seat0" false).2 = demoManager :=
  ⟨by decide, (createSeat_existing_name_is_noop demoManager "seat0" false (by decide)).1⟩

theorem QMap.value_insert_self {α : Type} (m : List (String × α)) (k : String) (v : α) :
    QMap.value (QMap.insert m k v) k = some v := by
  induction m with
  | nil => simp [QMap.insert, QMap.value]
  | cons e m ih =>
    obtain ⟨k', v'⟩ := e
    unfold QMap.insert
    split_ifs with h1 h2
    · simp [QMap.value]
    · simp [QMap.value]
    · simp [QMap.value, Ne.symm h2, ih]

theorem value_demoteOthers_self (m : List (String × WSeat)) (name : String) :
    QMap.value (WSeatManager.demoteOthers m name) name = QMap.value m name := by
  induction m with
  | nil => rfl
  | cons e m ih =>
    obtain ⟨k, seat⟩ := e
    simp only [WSeatManager.demoteOthers, List.map_cons] at ih ⊢
    split_ifs with hc
    · have hk : k ≠ name := hc.1
      simp [QMap.value, hk, ih]
    · by_cases hk : k = name <;> simp [QMap.value, hk, ih]

theorem WSeat.setIsFallback_false_of_not_flagged (seat : WSeat)
    (h : ¬ seat.isFallback = true) : seat.setIsFallback false = seat := by
  cases seat
  simp only [WSeat.setIsFallback] at h ⊢
  simp at h
  simp [h]

/-- C5: for a name that is not in the registry, `createSeat(name, true)` registers a new
seat under that name with no devices and no outputs; afterwards that seat is the
only flagged one, fallbackSeat() returns it, every other seat is what it was with
its flag cleared (devices and outputs unchanged), and the rule map is unchanged. -/
theorem createSeat_new_fallback (s : WSeatManager) (name : String)
    (h : name ∉ s.m_seats.map Prod.fst) :
    (s.createSeat name true).1
      = some { name := name, isFallback := true, deviceList := [], outputs := [] } ∧
    (∀ e, e ∈ (s.createSeat name true).2.m_seats ↔
      e = (name, { name := name, isFallback := true, deviceList := [], outputs := [] }) ∨
      ∃ e0 ∈ s.m_seats, e = (e0.1, e0.2.setIsFallback false)) ∧
    (∀ e ∈ (s.createSeat name true).2.m_seats, e.2.isFallback = true →
      e = (name, { name := name, isFallback := true, deviceList := [], outputs := [] })) ∧
    fallbackCount (s.createSeat name true).2 = 1 ∧
    (s.createSeat name true).2.fallbackSeat
      = some { name := name, isFallback := true, deviceList := [], outputs := [] } ∧
    (s.createSeat name true).2.m_deviceRules = s.m_deviceRules := by
  have hc : QMap.contains s.m_seats name = false := by
    rw [← Bool.not_eq_true, QMap.contains_iff_mem_keys]; exact h
  have hs : s.createSeat name true =
      (some ((WSeat.create name).setIsFallback true),
        { s with m_fallbackSeatName := name,
                 m_seats := WSeatManager.demoteOthers
                   (QMap.insert s.m_seats name ((WSeat.create name).setIsFallback true)) name }) := by
    unfold WSeatManager.createSeat
    simp [hc]
  have hnew : (WSeat.create name).setIsFallback true
      = { name := name, isFallback := true, deviceList := [], outputs := [] } := rfl
  rw [hs, hnew]
  have hmem : ∀ e, e ∈ WSeatManager.demoteOthers (QMap.insert s.m_seats name
        { name := name, isFallback := true, deviceList := [], outputs := [] }) name ↔
      e = (name, { name := name, isFallback := true, deviceList := [], outputs := [] }) ∨
      ∃ e0 ∈ s.m_seats, e = (e0.1, e0.2.setIsFallback false) := by
    intro e
    have hne : ∀ e0 ∈ s.m_seats, e0.1 ≠ name := by
      intro e0 he0 hk
      exact h (hk ▸ List.mem_map_of_mem Prod.fst he0)
    have himg : ∀ e0 ∈ s.m_seats,
        (if e0.1 ≠ name ∧ e0.2.isFallback = true then (e0.1, e0.2.setIsFallback false) else e0)
          = (e0.1, e0.2.setIsFallback false) := by
      intro e0 he0
      split_ifs with hcnd
      · rfl
      · have : ¬ e0.2.isFallback = true := fun hf => hcnd ⟨hne e0 he0, hf⟩
        rw [WSeat.setIsFallback_false_of_not_flagged _ this]
    constructor
    · intro he
      obtain ⟨e1, he1, rfl⟩ := List.mem_map.mp he
      rcases List.mem_cons.mp ((QMap.insert_perm _ _ _ hc).mem_iff.mp he1) with rfl | hm
      · left; simp
      · right; exact ⟨e1, hm, himg e1 hm⟩
    · rintro (rfl | ⟨e0, he0, rfl⟩)
      · refine List.mem_map.mpr ⟨_, (QMap.insert_perm _ _ _ hc).mem_iff.mpr
          (List.mem_cons_self _ _), by simp⟩
      · exact List.mem_map.mpr ⟨e0, (QMap.insert_perm _ _ _ hc).mem_iff.mpr
          (List.mem_cons_of_mem _ he0), himg e0 he0⟩
  have hflag : ∀ e ∈ WSeatManager.demoteOthers (QMap.insert s.m_seats name
        { name := name, isFallback := true, deviceList := [], outputs := [] }) name,
      e.2.isFallback = true →
      e = (name, { name := name, isFallback := true, deviceList := [], outputs := [] }) := by
    intro e he hf
    rcases (hmem e).mp he with rfl | ⟨e0, _, rfl⟩
    · rfl
    · simp [WSeat.setIsFallback] at hf
  refine ⟨rfl, hmem, hflag, ?_, ?_, rfl⟩
  · unfold fallbackCount
    rw [← List.countP_eq_length_filter]
    simp only [WSeatManager.demoteOthers]
    rw [((QMap.insert_perm s.m_seats name
      ({ name := name, isFallback := true, deviceList := [], outputs := [] } : WSeat) hc).map
        _).countP_eq]
    rw [List.map_cons, List.countP_cons]
    have hz : List.countP (fun e : String × WSeat => e.2.isFallback)
        (s.m_seats.map (fun e => if e.1 ≠ name ∧ e.2.isFallback = true
          then (e.1, e.2.setIsFallback false) else e)) = 0 := by
      rw [List.countP_eq_zero]
      intro e he
      obtain ⟨e0, he0, rfl⟩ := List.mem_map.mp he
      have hne : e0.1 ≠ name := fun hk => h (hk ▸ List.mem_map_of_mem Prod.fst he0)
      split_ifs with hcnd
      · simp [WSeat.setIsFallback]
      · exact fun hf => hcnd ⟨hne, hf⟩
    rw [hz]
    simp
  · simp only [WSeatManager.fallbackSeat]
    rw [value_demoteOthers_self, QMap.value_insert_self]

/-- Witness for C5: seat2 is new in the registry of seat0 (fallback) and seat1; after
`createSeat("seat2", true)` it is the fallback seat and the only flagged seat. -/
theorem createSeat_new_fallback_witness :
    "seat2" ∉ demoManager.m_seats.map Prod.fst ∧
    fallbackCount (demoManager.createSeat "seat2" true).2 = 1 ∧
    (demoManager.createSeat "seat2" true).2.fallbackSeat
      = some { name := "seat2", isFallback := true, deviceList := [], outputs := [] } :=
  ⟨by decide, (createSeat_new_fallback demoManager "seat2" (by decide)).2.2.2.1,
    (createSeat_new_fallback demoManager "seat2" (by decide)).2.2.2.2.1⟩

/-! ### Exclusive ownership -/

theorem QChar.valid_toNat (c : Char) :
    c.toNat < 0xD800 ∨ (0xDFFF < c.toNat ∧ c.toNat < 0x110000) := by
  have := c.valid
  simp only [UInt32.isValidChar, Nat.isValidChar] at this
  exact this

/-- Two texts with the same UTF-16 code units are the same text: no character of the
Basic Multilingual Plane is a surrogate, so the units decode in one way only. -/
theorem QString.units_injective :
    ∀ (l1 l2 : List Char), QString.units l1 = QString.units l2 → l1 = l2 := by
  intro l1
  induction l1 with
  | nil =>
    intro l2 h
    cases l2 with
    | nil => rfl
    | cons d ds =>
      simp only [QString.units, QChar.units] at h
      split_ifs at h <;> simp at h
  | cons c cs ih =>
    intro l2 h
    cases l2 with
    | nil =>
      simp only [QString.units, QChar.units] at h
      split_ifs at h <;> simp at h
    | cons d ds =>
      have hc := QChar.valid_toNat c
      have hd := QChar.valid_toNat d
      simp only [QString.units, QChar.units] at h
      have key : c.toNat = d.toNat ∧ QString.units cs = QString.units ds := by
        split_ifs at h with h1 h2 h2
        · simp only [List.singleton_append, List.cons.injEq] at h
          exact h
        · simp only [List.singleton_append, List.cons_append, List.nil_append,
            List.cons.injEq] at h
          omega
        · simp only [List.singleton_append, List.cons_append, List.nil_append,
            List.cons.injEq] at h
          omega
        · simp only [List.cons_append, List.nil_append, List.cons.injEq] at h
          refine ⟨by omega, h.2.2⟩
      have hcd : c = d := by
        apply Char.ext
        apply UInt32.ext
        exact key.1
      rw [hcd, ih ds key.2]

theorem QString.not_lt_self (a : String) : ¬ QString.lt a a := by
  unfold QString.lt; exact lt_irrefl _

theorem QString.lt_of_lt_of_lt {a b c : String} (h1 : QString.lt a b) (h2 : QString.lt b c) :
    QString.lt a c := by
  unfold QString.lt at *; exact lt_trans h1 h2

theorem QString.lt_or_eq_or_gt (a b : String) : QString.lt a b ∨ a = b ∨ QString.lt b a := by
  unfold QString.lt
  rcases lt_trichotomy (QString.units a.toList) (QString.units b.toList) with h | h | h
  · exact Or.inl h
  · exact Or.inr (Or.inl (String.toList_inj.mp (QString.units_injective _ _ h)))
  · exact Or.inr (Or.inr h)

theorem WellFormed.nodupKeys {s : WSeatManager} (h : WellFormed s) : NodupKeys s.m_seats := by
  unfold NodupKeys List.Nodup
  rw [List.pairwise_map]
  refine h.1.imp ?_
  intro a b hab heq
  rw [heq] at hab
  exact QString.not_lt_self _ hab

theorem countP_le_one_unique {α : Type} {m : List α} {Q : α → Bool}
    (h : m.countP Q ≤ 1) {a b : α} (ha : a ∈ m) (hb : b ∈ m) (hQa : Q a = true)
    (hQb : Q b = true) : a = b := by
  rw [List.countP_eq_length_filter] at h
  have ha' : a ∈ m.filter Q := List.mem_filter.mpr ⟨ha, hQa⟩
  have hb' : b ∈ m.filter Q := List.mem_filter.mpr ⟨hb, hQb⟩
  match hl : m.filter Q with
  | [] => rw [hl] at ha'; cases ha'
  | [x] =>
    rw [hl] at ha' hb'
    simp only [List.mem_singleton] at ha' hb'
    rw [ha', hb']
  | x :: y :: l => rw [hl] at h; simp at h

theorem countP_le_one_of_holdersAt {m : List (String × WSeat)} (hn : NodupKeys m)
    (P : WSeat → Bool) (k : String) (h : ∀ e ∈ m, P e.2 = true → e.1 = k) :
    m.countP (fun e => P e.2) ≤ 1 := by
  rw [List.countP_eq_length_filter]
  match hl : m.filter (fun e => P e.2) with
  | [] => rw [hl]; simp
  | [_] => rw [hl]; simp
  | a :: b :: l =>
    exfalso
    have ha : a ∈ m.filter (fun e => P e.2) := by rw [hl]; simp
    have hb : b ∈ m.filter (fun e => P e.2) := by rw [hl]; simp
    rw [List.mem_filter] at ha hb
    have hn' : NodupKeys (m.filter (fun e => P e.2)) :=
      NodupKeys.sublist (List.filter_sublist _) hn
    rw [hl] at hn'
    simp only [NodupKeys, List.map_cons, List.nodup_cons, List.mem_cons, not_or] at hn'
    exact hn'.1.1 ((h a ha.1 ha.2).trans (h b hb.1 hb.2).symm)

theorem holdersAt_modify (m : List (String × WSeat)) (k : String) (f : WSeat → WSeat)
    (P : WSeat → Bool) (k0 : String) (hk : ∀ seat, P (f seat) = true → P seat = true ∨ k = k0)
    (h : ∀ e ∈ m, P e.2 = true → e.1 = k0) :
    ∀ e ∈ QMap.modify m k f, P e.2 = true → e.1 = k0 := by
  intro e he hP
  obtain ⟨e0, he0, rfl⟩ := List.mem_map.mp he
  split_ifs at hP ⊢ with hc
  · rcases hk e0.2 hP with h1 | h1
    · exact h e0 he0 h1
    · exact hc.trans h1
  · exact h e0 he0 hP

theorem countP_modify_eq (m : List (String × WSeat)) (k : String) (f : WSeat → WSeat)
    (P : WSeat → Bool) (hf : ∀ seat, P (f seat) = P seat) :
    (QMap.modify m k f).countP (fun e => P e.2) = m.countP (fun e => P e.2) := by
  induction m with
  | nil => rfl
  | cons e m ih =>
    simp only [QMap.modify, List.map_cons, List.countP_cons] at ih ⊢
    rw [ih]
    split_ifs <;> simp_all

theorem countP_map_eq (m : List (String × WSeat)) (g : String × WSeat → String × WSeat)
    (P : WSeat → Bool) (hg : ∀ e ∈ m, P (g e).2 = P e.2) :
    (m.map g).countP (fun e => P e.2) = m.countP (fun e => P e.2) := by
  induction m with
  | nil => rfl
  | cons e m ih =>
    simp only [List.map_cons, List.countP_cons]
    rw [ih (fun e he => hg e (List.mem_cons_of_mem _ he)), hg e (List.mem_cons_self _ _)]

theorem WSeat.mem_attachInputDevice (seat : WSeat) (d d' : WInputDevice) :
    d' ∈ (seat.attachInputDevice d).deviceList ↔ d' ∈ seat.deviceList ∨ d' = d := by
  unfold WSeat.attachInputDevice
  split_ifs with h
  · have hd : d ∈ seat.deviceList := by simpa using h
    constructor
    · exact Or.inl
    · rintro (h1 | rfl)
      · exact h1
      · exact hd
  · simp

theorem WSeat.mem_attachOutput (seat : WSeat) (o o' : WOutput) :
    o' ∈ (seat.attachOutput o).outputs ↔ o' ∈ seat.outputs ∨ o' = o := by
  unfold WSeat.attachOutput
  split_ifs with h
  · have hd : o ∈ seat.outputs := by simpa using h
    constructor
    · exact Or.inl
    · rintro (h1 | rfl)
      · exact h1
      · exact hd
  · simp

theorem WSeat.mem_detachInputDevice (seat : WSeat) (d d' : WInputDevice) :
    d' ∈ (seat.detachInputDevice d).deviceList ↔ d' ∈ seat.deviceList ∧ d' ≠ d := by
  simp [WSeat.detachInputDevice, List.mem_filter]

theorem WSeat.mem_detachOutput (seat : WSeat) (o o' : WOutput) :
    o' ∈ (seat.detachOutput o).outputs ↔ o' ∈ seat.outputs ∧ o' ≠ o := by
  simp [WSeat.detachOutput, List.mem_filter]

theorem WSeat.outputs_attachInputDevice (seat : WSeat) (d : WInputDevice) :
    (seat.attachInputDevice d).outputs = seat.outputs := by
  unfold WSeat.attachInputDevice; split_ifs <;> rfl

theorem WSeat.deviceList_attachOutput (seat : WSeat) (o : WOutput) :
    (seat.attachOutput o).deviceList = seat.deviceList := by
  unfold WSeat.attachOutput; split_ifs <;> rfl

theorem NodupKeys.modify {α : Type} {m : List (String × α)} (hn : NodupKeys m) (k : String)
    (f : α → α) : NodupKeys (QMap.modify m k f) := by
  unfold NodupKeys; rw [QMap.keys_modify]; exact hn

theorem exclusive_attachDevice (s : WSeatManager) (k : String) (d : WInputDevice)
    (hn : NodupKeys s.m_seats)
    (hd : ∀ e ∈ s.m_seats, e.2.deviceList.contains d = true → e.1 = k)
    (hex : ExclusiveOwnership s) :
    ExclusiveOwnership
      { s with m_seats := QMap.modify s.m_seats k (fun seat => seat.attachInputDevice d) } := by
  refine ⟨fun d' => ?_, fun o => ?_⟩
  · unfold deviceOwnerCount
    by_cases hdd : d' = d
    · rw [hdd]
      exact countP_le_one_of_holdersAt (hn.modify k (fun seat => seat.attachInputDevice d))
        (fun seat => seat.deviceList.contains d) k
        (holdersAt_modify _ _ _ (fun seat => seat.deviceList.contains d) k
          (fun _ _ => Or.inr rfl) hd)
    · have := countP_modify_eq s.m_seats k (fun seat => seat.attachInputDevice d)
        (fun seat => seat.deviceList.contains d')
        (fun seat => by simp [WSeat.mem_attachInputDevice, hdd])
      simp only at this ⊢
      rw [this]; exact hex.1 d'
  · unfold outputOwnerCount
    have := countP_modify_eq s.m_seats k (fun seat => seat.attachInputDevice d)
      (fun seat => seat.outputs.contains o)
      (fun seat => by simp [WSeat.outputs_attachInputDevice])
    simp only at this ⊢
    rw [this]; exact hex.2 o

theorem exclusive_attachOutput (s : WSeatManager) (k : String) (o : WOutput)
    (hn : NodupKeys s.m_seats)
    (ho : ∀ e ∈ s.m_seats, e.2.outputs.contains o = true → e.1 = k)
    (hex : ExclusiveOwnership s) :
    ExclusiveOwnership
      { s with m_seats := QMap.modify s.m_seats k (fun seat => seat.attachOutput o) } := by
  refine ⟨fun d => ?_, fun o' => ?_⟩
  · unfold deviceOwnerCount
    have := countP_modify_eq s.m_seats k (fun seat => seat.attachOutput o)
      (fun seat => seat.deviceList.contains d)
      (fun seat => by simp [WSeat.deviceList_attachOutput])
    simp only at this ⊢
    rw [this]; exact hex.1 d
  · unfold outputOwnerCount
    by_cases hoo : o' = o
    · rw [hoo]
      exact countP_le_one_of_holdersAt (hn.modify k (fun seat => seat.attachOutput o))
        (fun seat => seat.outputs.contains o) k
        (holdersAt_modify _ _ _ (fun seat => seat.outputs.contains o) k
          (fun _ _ => Or.inr rfl) ho)
    · have := countP_modify_eq s.m_seats k (fun seat => seat.attachOutput o)
        (fun seat => seat.outputs.contains o')
        (fun seat => by simp [WSeat.mem_attachOutput, hoo])
      simp only at this ⊢
      rw [this]; exact hex.2 o'

theorem no_holder_of_any_false {m : List (String × WSeat)} {d : WInputDevice}
    (h : (m.any (fun e => e.2.deviceList.contains d)) = false) :
    ∀ e ∈ m, e.2.deviceList.contains d = false := by
  intro e he
  by_contra hc
  have : (m.any (fun e => e.2.deviceList.contains d)) = true :=
    List.any_eq_true.mpr ⟨e, he, by simpa using hc⟩
  rw [h] at this; cases this

theorem autoAssignDevice_exclusive (re : RegexEngine) (s : WSeatManager)
    (device : Option WInputDevice) (hn : NodupKeys s.m_seats) (hex : ExclusiveOwnership s) :
    ExclusiveOwnership (s.autoAssignDevice re device).2 := by
  cases device with
  | none => simpa [WSeatManager.autoAssignDevice] using hex
  | some d =>
    rcases autoAssignDevice_cases re s d with h | ⟨hany, k, h⟩
    · rw [h]; exact hex
    · rw [h]
      refine exclusive_attachDevice s k d hn ?_ hex
      intro e he hc
      rw [no_holder_of_any_false hany e he] at hc; cases hc

theorem detachDeviceLoop_countP_le (d : WInputDevice) (seatName : String) (P : WSeat → Bool)
    (hP : ∀ seat, P (seat.detachInputDevice d) = true → P seat = true)
    (m m' : List (String × WSeat))
    (h : WSeatManager.detachDeviceLoop d seatName m = some m') :
    m'.countP (fun e => P e.2) ≤ m.countP (fun e => P e.2) := by
  induction m generalizing m' with
  | nil => simp [WSeatManager.detachDeviceLoop] at h; subst h; simp
  | cons e m ih =>
    obtain ⟨k, seat⟩ := e
    unfold WSeatManager.detachDeviceLoop at h
    split_ifs at h with h1 h2
    · cases h
      simp only [List.countP_cons]
      have := hP seat
      by_cases hp : P (seat.detachInputDevice d) = true
      · simp [hp, this hp]
      · simp [hp]
    · cases hr : WSeatManager.detachDeviceLoop d seatName m with
      | none => simp [hr] at h
      | some r =>
        simp [hr] at h; subst h
        have := ih r hr
        simp only [List.countP_cons]
        omega

theorem detachDeviceLoop_no_holder (d : WInputDevice) (seatName : String)
    (m m' : List (String × WSeat)) (hc : m.countP (fun e => e.2.deviceList.contains d) ≤ 1)
    (h : WSeatManager.detachDeviceLoop d seatName m = some m') :
    ∀ e ∈ m', e.2.deviceList.contains d = false := by
  induction m generalizing m' with
  | nil => simp [WSeatManager.detachDeviceLoop] at h; subst h; simp
  | cons e m ih =>
    obtain ⟨k, seat⟩ := e
    unfold WSeatManager.detachDeviceLoop at h
    simp only [List.countP_cons] at hc
    split_ifs at h with h1 h2
    · cases h
      simp only [h1, if_true] at hc
      have hz : m.countP (fun e => e.2.deviceList.contains d) = 0 := by omega
      rw [List.countP_eq_zero] at hz
      intro e he
      rcases List.mem_cons.mp he with rfl | he
      · simp [WSeat.mem_detachInputDevice]
      · simpa using hz e he
    · cases hr : WSeatManager.detachDeviceLoop d seatName m with
      | none => simp [hr] at h
      | some r =>
        simp [hr] at h; subst h
        simp only [h1] at hc
        intro e he
        rcases List.mem_cons.mp he with rfl | he
        · simpa using h1
        · exact ih r (by simpa using hc) hr e he

theorem detachOutputLoop_countP_le (o : WOutput) (seatName : String) (P : WSeat → Bool)
    (hP : ∀ seat, P (seat.detachOutput o) = true → P seat = true)
    (m m' : List (String × WSeat))
    (h : WSeatManager.detachOutputLoop o seatName m = some m') :
    m'.countP (fun e => P e.2) ≤ m.countP (fun e => P e.2) := by
  induction m generalizing m' with
  | nil => simp [WSeatManager.detachOutputLoop] at h; subst h; simp
  | cons e m ih =>
    obtain ⟨k, seat⟩ := e
    unfold WSeatManager.detachOutputLoop at h
    split_ifs at h with h1 h2
    · cases h
      simp only [List.countP_cons]
      have := hP seat
      by_cases hp : P (seat.detachOutput o) = true
      · simp [hp, this hp]
      · simp [hp]
    · cases hr : WSeatManager.detachOutputLoop o seatName m with
      | none => simp [hr] at h
      | some r =>
        simp [hr] at h; subst h
        have := ih r hr
        simp only [List.countP_cons]
        omega

theorem detachOutputLoop_no_holder (o : WOutput) (seatName : String)
    (m m' : List (String × WSeat)) (hc : m.countP (fun e => e.2.outputs.contains o) ≤ 1)
    (h : WSeatManager.detachOutputLoop o seatName m = some m') :
    ∀ e ∈ m', e.2.outputs.contains o = false := by
  induction m generalizing m' with
  | nil => simp [WSeatManager.detachOutputLoop] at h; subst h; simp
  | cons e m ih =>
    obtain ⟨k, seat⟩ := e
    unfold WSeatManager.detachOutputLoop at h
    simp only [List.countP_cons] at hc
    split_ifs at h with h1 h2
    · cases h
      simp only [h1, if_true] at hc
      have hz : m.countP (fun e => e.2.outputs.contains o) = 0 := by omega
      rw [List.countP_eq_zero] at hz
      intro e he
      rcases List.mem_cons.mp he with rfl | he
      · simp [WSeat.mem_detachOutput]
      · simpa using hz e he
    · cases hr : WSeatManager.detachOutputLoop o seatName m with
      | none => simp [hr] at h
      | some r =>
        simp [hr] at h; subst h
        simp only [h1] at hc
        intro e he
        rcases List.mem_cons.mp he with rfl | he
        · simpa using h1
        · exact ih r (by simpa using hc) hr e he

theorem nodupKeys_of_flagView {m m' : List (String × WSeat)} (hv : flagView m' = flagView m)
    (hn : NodupKeys m) : NodupKeys m' := by
  unfold NodupKeys at *
  rw [← flagView_keys, hv, flagView_keys]; exact hn

theorem assignDeviceToSeat_exclusive (s : WSeatManager) (device : Option WInputDevice)
    (seatName : String) (hn : NodupKeys s.m_seats) (hex : ExclusiveOwnership s) :
    ExclusiveOwnership (s.assignDeviceToSeat device seatName) := by
  unfold WSeatManager.assignDeviceToSeat
  cases device with
  | none => exact hex
  | some d =>
    simp only
    cases hl : WSeatManager.detachDeviceLoop d seatName s.m_seats with
    | none => exact hex
    | some m =>
      simp only
      have hn1 : NodupKeys m := nodupKeys_of_flagView (flagView_detachDeviceLoop _ _ _ _ hl) hn
      have hex1 : ExclusiveOwnership { s with m_seats := m } := by
        refine ⟨fun d' => ?_, fun o => ?_⟩
        · exact le_trans (detachDeviceLoop_countP_le d seatName
            (fun seat => seat.deviceList.contains d')
            (fun seat h => by
              simp [WSeat.mem_detachInputDevice] at h ⊢
              exact h.1) _ _ hl) (hex.1 d')
        · exact le_trans (detachDeviceLoop_countP_le d seatName
            (fun seat => seat.outputs.contains o) (fun seat h => h) _ _ hl) (hex.2 o)
      have hno := detachDeviceLoop_no_holder d seatName _ _ (hex.1 d) hl
      have hd : ∀ k, ∀ e ∈ m, e.2.deviceList.contains d = true → e.1 = k := by
        intro k e he hc
        rw [hno e he] at hc; cases hc
      split_ifs
      · exact exclusive_attachDevice { s with m_seats := m } seatName d hn1 (hd _) hex1
      · exact exclusive_attachDevice { s with m_seats := m } s.m_fallbackSeatName d hn1
          (hd _) hex1
      · exact hex1

theorem assignOutputToSeat_exclusive (s : WSeatManager) (output : Option WOutput)
    (seatName : String) (hn : NodupKeys s.m_seats) (hex : ExclusiveOwnership s) :
    ExclusiveOwnership (s.assignOutputToSeat output seatName) := by
  unfold WSeatManager.assignOutputToSeat
  cases output with
  | none => exact hex
  | some o =>
    simp only
    cases hl : WSeatManager.detachOutputLoop o seatName s.m_seats with
    | none => exact hex
    | some m =>
      simp only
      have hn1 : NodupKeys m := nodupKeys_of_flagView (flagView_detachOutputLoop _ _ _ _ hl) hn
      have hex1 : ExclusiveOwnership { s with m_seats := m } := by
        refine ⟨fun d => ?_, fun o' => ?_⟩
        · exact le_trans (detachOutputLoop_countP_le o seatName
            (fun seat => seat.deviceList.contains d) (fun seat h => h) _ _ hl) (hex.1 d)
        · exact le_trans (detachOutputLoop_countP_le o seatName
            (fun seat => seat.outputs.contains o')
            (fun seat h => by
              simp [WSeat.mem_detachOutput] at h ⊢
              exact h.1) _ _ hl) (hex.2 o')
      have hno := detachOutputLoop_no_holder o seatName _ _ (hex.2 o) hl
      have ho : ∀ k, ∀ e ∈ m, e.2.outputs.contains o = true → e.1 = k := by
        intro k e he hc
        rw [hno e he] at hc; cases hc
      split_ifs
      · exact exclusive_attachOutput { s with m_seats := m } seatName o hn1 (ho _) hex1
      · exact exclusive_attachOutput { s with m_seats := m } s.m_fallbackSeatName o hn1
          (ho _) hex1
      · exact hex1

theorem ExclusiveOwnership.of_sublist {s s' : WSeatManager}
    (h : s'.m_seats.Sublist s.m_seats) (hex : ExclusiveOwnership s) : ExclusiveOwnership s' :=
  ⟨fun d => le_trans (h.countP_le _) (hex.1 d), fun o => le_trans (h.countP_le _) (hex.2 o)⟩

theorem promoteFirst_exclusive (s : WSeatManager) (hex : ExclusiveOwnership s) :
    ExclusiveOwnership s.promoteFirst := by
  unfold WSeatManager.promoteFirst
  cases hm : s.m_seats with
  | nil => exact hex
  | cons e rest =>
    obtain ⟨hd, ho⟩ := hex
    unfold deviceOwnerCount at hd
    unfold outputOwnerCount at ho
    rw [hm] at hd ho
    exact ⟨fun d => by simpa [deviceOwnerCount, WSeat.setIsFallback] using hd d,
      fun o => by simpa [outputOwnerCount, WSeat.setIsFallback] using ho o⟩

theorem promoteFirst_flagView_keys (s : WSeatManager) :
    s.promoteFirst.m_seats.map Prod.fst = s.m_seats.map Prod.fst := by
  unfold WSeatManager.promoteFirst
  cases hm : s.m_seats with
  | nil => simp [hm]
  | cons e rest => simp

theorem foldl_deviceStep_exclusive (re : RegexEngine) (ds : List WInputDevice)
    (st : WSeatManager) (hn : NodupKeys st.m_seats) (hex : ExclusiveOwnership st) :
    ExclusiveOwnership (ds.foldl (WSeatManager.removeSeatDeviceStep re) st) := by
  induction ds generalizing st with
  | nil => exact hex
  | cons d ds ih =>
    have hv := (removeSeatDeviceStep_flagView re st d).1
    refine ih _ (nodupKeys_of_flagView hv hn) ?_
    unfold WSeatManager.removeSeatDeviceStep
    split_ifs
    · exact autoAssignDevice_exclusive re st (some d) hn hex
    · exact hex

theorem foldl_deviceStep_outputs (re : RegexEngine) (ds : List WInputDevice)
    (st : WSeatManager) (P : WSeat → Bool)
    (hP : ∀ (seat : WSeat) (d : WInputDevice), P (seat.attachInputDevice d) = P seat)
    (h : ∀ e ∈ st.m_seats, P e.2 = false) :
    ∀ e ∈ (ds.foldl (WSeatManager.removeSeatDeviceStep re) st).m_seats, P e.2 = false := by
  induction ds generalizing st with
  | nil => exact h
  | cons d ds ih =>
    refine ih _ ?_
    unfold WSeatManager.removeSeatDeviceStep
    split_ifs
    · rcases autoAssignDevice_cases re st d with h1 | ⟨_, k, h1⟩
      · rw [h1]; exact h
      · rw [h1]
        intro e he
        obtain ⟨e0, he0, rfl⟩ := List.mem_map.mp he
        split_ifs
        · simp only [hP]; exact h e0 he0
        · exact h e0 he0
    · exact h

theorem foldl_outputStep_exclusive (os : List WOutput) (st : WSeatManager)
    (hn : NodupKeys st.m_seats) (hex : ExclusiveOwnership st)
    (hh : ∀ o ∈ os, ∀ e ∈ st.m_seats, e.2.outputs.contains o = true →
      e.1 = st.m_fallbackSeatName) :
    ExclusiveOwnership (os.foldl WSeatManager.removeSeatOutputStep st) := by
  induction os generalizing st with
  | nil => exact hex
  | cons o os ih =>
    obtain ⟨hv, hfb, _⟩ := removeSeatOutputStep_flagView st o
    refine ih _ (nodupKeys_of_flagView hv hn) ?_ ?_
    · unfold WSeatManager.removeSeatOutputStep
      split_ifs
      · exact exclusive_attachOutput st st.m_fallbackSeatName o hn
          (hh o (List.mem_cons_self _ _)) hex
      · exact hex
    · intro o' ho'
      rw [hfb]
      unfold WSeatManager.removeSeatOutputStep
      split_ifs
      · exact holdersAt_modify st.m_seats st.m_fallbackSeatName
          (fun seat => seat.attachOutput o) (fun seat => seat.outputs.contains o')
          st.m_fallbackSeatName (fun _ _ => Or.inr rfl) (hh o' (List.mem_cons_of_mem _ ho'))
      · exact hh o' (List.mem_cons_of_mem _ ho')

theorem removeSeat_tail_exclusive (re : RegexEngine) (seat : WSeat) (s2 : WSeatManager)
    (hn : NodupKeys s2.m_seats) (hex : ExclusiveOwnership s2)
    (hno : ∀ o ∈ seat.outputs, ∀ e ∈ s2.m_seats, e.2.outputs.contains o = false) :
    ExclusiveOwnership (seat.outputs.foldl WSeatManager.removeSeatOutputStep
      (seat.deviceList.foldl (WSeatManager.removeSeatDeviceStep re) s2)) := by
  have hv := (foldl_deviceStep_flagView re seat.deviceList s2).1
  refine foldl_outputStep_exclusive _ _ (nodupKeys_of_flagView hv hn)
    (foldl_deviceStep_exclusive re _ _ hn hex) ?_
  intro o ho e he hc
  have := foldl_deviceStep_outputs re seat.deviceList s2 (fun seat => seat.outputs.contains o)
    (fun seat d => by simp [WSeat.outputs_attachInputDevice]) (hno o ho) e he
  simp only at this
  rw [this] at hc; cases hc

theorem mem_promoteFirst {s : WSeatManager} {e : String × WSeat}
    (h : e ∈ s.promoteFirst.m_seats) :
    ∃ e0 ∈ s.m_seats, e.1 = e0.1 ∧ e.2.deviceList = e0.2.deviceList ∧
      e.2.outputs = e0.2.outputs ∧ e.2.name = e0.2.name := by
  unfold WSeatManager.promoteFirst at h
  cases hm : s.m_seats with
  | nil => rw [hm] at h; simp [hm] at h
  | cons e1 rest =>
    rw [hm] at h
    rcases List.mem_cons.mp h with rfl | hr
    · exact ⟨e1, List.mem_cons_self _ _, rfl, rfl, rfl, rfl⟩
    · exact ⟨e, List.mem_cons_of_mem _ hr, rfl, rfl, rfl, rfl⟩

theorem removeSeat_exclusive (re : RegexEngine) (s : WSeatManager) (name : String)
    (hn : NodupKeys s.m_seats) (hex : ExclusiveOwnership s) :
    ExclusiveOwnership (s.removeSeat re name) := by
  unfold WSeatManager.removeSeat
  cases hv : QMap.value s.m_seats name with
  | none => exact hex
  | some seat =>
    simp only
    have hmem := QMap.value_mem hv
    have hn1 : NodupKeys (QMap.remove s.m_seats name) :=
      NodupKeys.sublist (QMap.remove_sublist _ _) hn
    have hex1 : ExclusiveOwnership { s with m_seats := QMap.remove s.m_seats name } :=
      ExclusiveOwnership.of_sublist (QMap.remove_sublist _ _) hex
    have hno1 : ∀ o ∈ seat.outputs, ∀ e ∈ QMap.remove s.m_seats name,
        e.2.outputs.contains o = false := by
      intro o ho e he
      have he' : e ∈ s.m_seats ∧ e.1 ≠ name := by
        simpa [QMap.remove, List.mem_filter] using he
      by_contra hc
      have heq := countP_le_one_unique (hex.2 o) he'.1 hmem (by simpa using hc)
        (by simpa using ho)
      exact he'.2 (by rw [heq])
    apply removeSeat_tail_exclusive
    · split_ifs
      · unfold NodupKeys
        rw [promoteFirst_flagView_keys]; exact hn1
      · exact hn1
    · split_ifs
      · exact promoteFirst_exclusive _ hex1
      · exact hex1
    · intro o ho e he
      split_ifs at he
      · obtain ⟨e0, he0, _, _, h3, _⟩ := mem_promoteFirst he
        rw [h3]; exact hno1 o ho e0 he0
      · exact hno1 o ho e he

theorem removeSeatPtr_exclusive (re : RegexEngine) (s : WSeatManager) (seat : SeatPtr)
    (hn : NodupKeys s.m_seats) (hex : ExclusiveOwnership s) :
    ExclusiveOwnership (s.removeSeatPtr re seat) := by
  unfold WSeatManager.removeSeatPtr
  cases seat with
  | null => exact hex
  | owned key =>
    simp only
    split_ifs
    · exact removeSeat_exclusive re s _ hn hex
    · exact hex
  | foreign =>
    simp only
    split_ifs
    · exact removeSeat_exclusive re s _ hn hex
    · exact hex

theorem createSeat_exclusive (s : WSeatManager) (name : String) (isFallback : Bool)
    (hex : ExclusiveOwnership s) : ExclusiveOwnership (s.createSeat name isFallback).2 := by
  unfold WSeatManager.createSeat
  by_cases hc : QMap.contains s.m_seats name = true
  · simp only [hc, if_true]; exact hex
  · have hc' : QMap.contains s.m_seats name = false := eq_false_of_ne_true hc
    simp only [hc', Bool.false_eq_true, ↓reduceIte]
    have hins : ∀ P : WSeat → Bool, P ((WSeat.create name).setIsFallback isFallback) = false →
        (QMap.insert s.m_seats name ((WSeat.create name).setIsFallback isFallback)).countP
          (fun e => P e.2) = s.m_seats.countP (fun e => P e.2) := by
      intro P hP
      rw [(QMap.insert_perm _ _ _ hc').countP_eq, List.countP_cons]
      simp [hP]
    have hdem : ∀ (P : WSeat → Bool) (m : List (String × WSeat)),
        (∀ seat b, P (seat.setIsFallback b) = P seat) →
        (WSeatManager.demoteOthers m name).countP (fun e => P e.2) = m.countP (fun e => P e.2) := by
      intro P m hP
      refine countP_map_eq m _ P (fun e _ => ?_)
      split_ifs
      · exact hP _ _
      · rfl
    cases isFallback with
    | true =>
      refine ⟨fun d => ?_, fun o => ?_⟩
      · unfold deviceOwnerCount
        simp only [↓reduceIte]
        rw [hdem (fun seat => seat.deviceList.contains d) _ (fun _ _ => rfl),
          hins (fun seat => seat.deviceList.contains d) rfl]
        exact hex.1 d
      · unfold outputOwnerCount
        simp only [↓reduceIte]
        rw [hdem (fun seat => seat.outputs.contains o) _ (fun _ _ => rfl),
          hins (fun seat => seat.outputs.contains o) rfl]
        exact hex.2 o
    | false =>
      refine ⟨fun d => ?_, fun o => ?_⟩
      · unfold deviceOwnerCount
        simp only [Bool.false_eq_true, ↓reduceIte]
        rw [hins (fun seat => seat.deviceList.contains d) rfl]
        exact hex.1 d
      · unfold outputOwnerCount
        simp only [Bool.false_eq_true, ↓reduceIte]
        rw [hins (fun seat => seat.outputs.contains o) rfl]
        exact hex.2 o

theorem exclusive_of_all_empty (s : WSeatManager)
    (h : ∀ e ∈ s.m_seats, e.2.deviceList = [] ∧ e.2.outputs = []) : ExclusiveOwnership s := by
  refine ⟨fun d => ?_, fun o => ?_⟩
  · have : deviceOwnerCount s d = 0 := by
      unfold deviceOwnerCount
      rw [List.countP_eq_zero]
      intro e he
      simp [(h e he).1]
    omega
  · have : outputOwnerCount s o = 0 := by
      unfold outputOwnerCount
      rw [List.countP_eq_zero]
      intro e he
      simp [(h e he).2]
    omega

theorem createSeat_all_empty (s : WSeatManager) (name : String) (isFallback : Bool)
    (h : ∀ e ∈ s.m_seats, e.2.deviceList = [] ∧ e.2.outputs = []) :
    ∀ e ∈ (s.createSeat name isFallback).2.m_seats, e.2.deviceList = [] ∧ e.2.outputs = [] := by
  unfold WSeatManager.createSeat
  by_cases hc : QMap.contains s.m_seats name = true
  · simp only [hc, if_true]; exact h
  · have hc' : QMap.contains s.m_seats name = false := eq_false_of_ne_true hc
    simp only [hc', Bool.false_eq_true, ↓reduceIte]
    have hins : ∀ e ∈ QMap.insert s.m_seats name ((WSeat.create name).setIsFallback isFallback),
        e.2.deviceList = [] ∧ e.2.outputs = [] := by
      intro e he
      rcases List.mem_cons.mp ((QMap.insert_perm _ _ _ hc').mem_iff.mp he) with rfl | hm
      · exact ⟨rfl, rfl⟩
      · exact h e hm
    cases isFallback with
    | true =>
      simp only [↓reduceIte]
      intro e he
      obtain ⟨e0, he0, _, h2, h3, _⟩ := mem_demoteOthers he
      rw [h2, h3]; exact hins e0 he0
    | false =>
      simp only [Bool.false_eq_true, ↓reduceIte]
      exact hins

theorem loadSeatEntry_all_empty (re : RegexEngine) (st : WSeatManager) (v : QJsonValue)
    (h : ∀ e ∈ st.m_seats, e.2.deviceList = [] ∧ e.2.outputs = []) :
    ∀ e ∈ (WSeatManager.loadSeatEntry re st v).m_seats,
      e.2.deviceList = [] ∧ e.2.outputs = [] := by
  unfold WSeatManager.loadSeatEntry
  simp only
  rw [(foldl_addDeviceRule_seats re _ _ _).1]
  exact createSeat_all_empty st _ _ h

theorem foldl_loadSeatEntry_all_empty (re : RegexEngine) (vs : List QJsonValue)
    (st : WSeatManager) (h : ∀ e ∈ st.m_seats, e.2.deviceList = [] ∧ e.2.outputs = []) :
    ∀ e ∈ (vs.foldl (WSeatManager.loadSeatEntry re) st).m_seats,
      e.2.deviceList = [] ∧ e.2.outputs = [] := by
  induction vs generalizing st with
  | nil => exact h
  | cons v vs ih => exact ih _ (loadSeatEntry_all_empty re st v h)

theorem healFallback_all_empty (s : WSeatManager)
    (h : ∀ e ∈ s.m_seats, e.2.deviceList = [] ∧ e.2.outputs = []) :
    ∀ e ∈ (if s.fallbackSeat.isNone && !s.m_seats.isEmpty then s.promoteFirst else s).m_seats,
      e.2.deviceList = [] ∧ e.2.outputs = [] := by
  split_ifs
  · intro e he
    obtain ⟨e0, he0, _, hd, ho, _⟩ := mem_promoteFirst he
    rw [hd, ho]; exact h e0 he0
  · exact h

theorem loadConfig_all_empty (re : RegexEngine) (s : WSeatManager)
    (config : List (String × QJsonValue)) :
    ∀ e ∈ (s.loadConfig re config).m_seats, e.2.deviceList = [] ∧ e.2.outputs = [] := by
  unfold WSeatManager.loadConfig
  simp only
  apply healFallback_all_empty
  have h1 := foldl_loadSeatEntry_all_empty re (QJsonObject.get config "seats").toArray
    { s with m_seats := [], m_deviceRules := [] } (by simp)
  split_ifs
  · exact createSeat_all_empty _ _ _ h1
  · exact h1

/-- C6: exclusive ownership is an invariant of the manager. From a state in which every
device and every output is attached to at most one seat, each call of a
state-changing member function (createSeat, removeSeat in both overloads,
assignDeviceToSeat, autoAssignDevice, assignOutputToSeat, the rule calls, loadConfig,
create, destroy) yields a state in which that holds again. -/
theorem exclusiveOwnership_preserved (re : RegexEngine) (s : WSeatManager) (c : Call)
    (hw : WellFormed s) (hex : ExclusiveOwnership s) : ExclusiveOwnership (c.apply re s) := by
  have hn := hw.nodupKeys
  cases c with
  | createSeat name isFallback => exact createSeat_exclusive s name isFallback hex
  | removeSeat name => exact removeSeat_exclusive re s name hn hex
  | removeSeatPtr seat => exact removeSeatPtr_exclusive re s seat hn hex
  | assignDeviceToSeat device seatName =>
    exact assignDeviceToSeat_exclusive s device seatName hn hex
  | autoAssignDevice device => exact autoAssignDevice_exclusive re s device hn hex
  | assignOutputToSeat output seatName =>
    exact assignOutputToSeat_exclusive s output seatName hn hex
  | addDeviceRule seatName rule =>
    have h := (addDeviceRule_seats re s seatName rule).1
    exact ⟨fun d => by simpa [Call.apply, deviceOwnerCount, h] using hex.1 d,
      fun o => by simpa [Call.apply, outputOwnerCount, h] using hex.2 o⟩
  | removeDeviceRule seatName rule =>
    have h := (removeDeviceRule_seats re s seatName rule).1
    exact ⟨fun d => by simpa [Call.apply, deviceOwnerCount, h] using hex.1 d,
      fun o => by simpa [Call.apply, outputOwnerCount, h] using hex.2 o⟩
  | loadConfig config => exact exclusive_of_all_empty _ (loadConfig_all_empty re s config)
  | create server =>
    cases server with
    | none => exact hex
    | some _ =>
      simp only [Call.apply, WSeatManager.create]
      split_ifs
      · exact promoteFirst_exclusive s hex
      · exact hex
  | destroy server => exact exclusive_of_all_empty _ (by simp [Call.apply, WSeatManager.destroy])

theorem demoManager_exclusive : ExclusiveOwnership demoManager := by
  refine ⟨fun d => ?_, fun o => ?_⟩
  · simp only [deviceOwnerCount, demoManager, List.countP_cons, List.countP_nil]
    split_ifs <;> simp_all
  · simp only [outputOwnerCount, demoManager, List.countP_cons, List.countP_nil]
    split_ifs <;> simp_all

/-- Witness for C6: the mouse sits on seat0 and is moved to seat1 by
`assignDeviceToSeat`; ownership is exclusive before and after. -/
theorem exclusiveOwnership_preserved_witness :
    WellFormed demoManager ∧ ExclusiveOwnership demoManager ∧
    ExclusiveOwnership
      ((Call.assignDeviceToSeat (some demoMouse) "seat1").apply demoRegex demoManager) :=
  ⟨by decide, demoManager_exclusive,
    exclusiveOwnership_preserved demoRegex demoManager
      (Call.assignDeviceToSeat (some demoMouse) "seat1") (by decide) demoManager_exclusive⟩

/-! ### Manual device assignment -/

theorem QMap.modify_cons {α : Type} (k0 : String) (v : α) (m : List (String × α)) (k : String)
    (f : α → α) :
    QMap.modify ((k0, v) :: m) k f = (k0, if k0 = k then f v else v) :: QMap.modify m k f := by
  simp only [QMap.modify, List.map_cons]
  split_ifs <;> rfl

theorem QMap.value_modify {α : Type} (m : List (String × α)) (k k' : String) (f : α → α) :
    QMap.value (QMap.modify m k f) k' =
      (QMap.value m k').map (fun v => if k' = k then f v else v) := by
  induction m with
  | nil => rfl
  | cons e m ih =>
    obtain ⟨k0, v⟩ := e
    rw [QMap.modify_cons]
    by_cases h0 : k0 = k'
    · subst h0
      simp [QMap.value]
    · simp [QMap.value, h0, ih]

theorem QMap.contains_congr_keys {α β : Type} {m : List (String × α)} {m' : List (String × β)}
    (h : m'.map Prod.fst = m.map Prod.fst) (k : String) :
    QMap.contains m' k = QMap.contains m k := by
  rw [Bool.eq_iff_iff, QMap.contains_iff_mem_keys, QMap.contains_iff_mem_keys, h]

theorem detachDeviceLoop_keys (d : WInputDevice) (seatName : String)
    (m m' : List (String × WSeat))
    (h : WSeatManager.detachDeviceLoop d seatName m = some m') :
    m'.map Prod.fst = m.map Prod.fst := by
  rw [← flagView_keys, flagView_detachDeviceLoop d seatName m m' h, flagView_keys]

theorem detachDeviceLoop_none (d : WInputDevice) (seatName : String)
    (m : List (String × WSeat)) (h : WSeatManager.detachDeviceLoop d seatName m = none) :
    ∃ e ∈ m, d ∈ e.2.deviceList ∧ e.2.name = seatName := by
  induction m with
  | nil => simp [WSeatManager.detachDeviceLoop] at h
  | cons e m ih =>
    obtain ⟨k, seat⟩ := e
    unfold WSeatManager.detachDeviceLoop at h
    split_ifs at h with h1 h2
    · exact ⟨(k, seat), List.mem_cons_self _ _, by simpa using h1, h2⟩
    · cases hr : WSeatManager.detachDeviceLoop d seatName m with
      | none =>
        obtain ⟨e, he, hd⟩ := ih hr
        exact ⟨e, List.mem_cons_of_mem _ he, hd⟩
      | some r => simp [hr] at h

theorem attachDevice_at_key (m : List (String × WSeat)) (k : String) (d : WInputDevice)
    (hno : ∀ e ∈ m, e.2.deviceList.contains d = false) (hk : QMap.contains m k = true) :
    (∃ seat, QMap.value (QMap.modify m k (fun seat => seat.attachInputDevice d)) k = some seat ∧
      d ∈ seat.deviceList) ∧
    (∀ e ∈ QMap.modify m k (fun seat => seat.attachInputDevice d), d ∈ e.2.deviceList →
      e.1 = k) := by
  constructor
  · rw [QMap.contains_eq_isSome] at hk
    obtain ⟨seat, hseat⟩ := Option.isSome_iff_exists.mp hk
    refine ⟨seat.attachInputDevice d, ?_, ?_⟩
    · rw [QMap.value_modify, hseat]; simp
    · rw [WSeat.mem_attachInputDevice]; exact Or.inr rfl
  · intro e he hd
    have := holdersAt_modify m k (fun seat => seat.attachInputDevice d)
      (fun seat => seat.deviceList.contains d) k (fun _ _ => Or.inr rfl)
      (fun e he hc => by have := hno e he; simp_all) e he
    exact this (by simpa using hd)

theorem assignDeviceToSeat_core (s : WSeatManager) (d : WInputDevice) (seatName : String)
    (hw : WellFormed s) (h1 : deviceOwnerCount s d ≤ 1) :
    (∀ k, assignTarget s seatName = some k →
      ∃ seat, QMap.value (s.assignDeviceToSeat (some d) seatName).m_seats k = some seat ∧
        d ∈ seat.deviceList) ∧
    (∀ e ∈ (s.assignDeviceToSeat (some d) seatName).m_seats, d ∈ e.2.deviceList →
      assignTarget s seatName = some e.1) := by
  have hn := hw.nodupKeys
  unfold WSeatManager.assignDeviceToSeat
  simp only
  cases hl : WSeatManager.detachDeviceLoop d seatName s.m_seats with
  | none =>
    simp only
    obtain ⟨e0, he0, hd0, hname⟩ := detachDeviceLoop_none _ _ _ hl
    have hkey : e0.1 = seatName := by rw [← hw.2 e0 he0]; exact hname
    have hcont : QMap.contains s.m_seats seatName = true :=
      (QMap.contains_iff_mem_keys _ _).mpr (hkey ▸ List.mem_map_of_mem Prod.fst he0)
    have ht : assignTarget s seatName = some seatName := by simp [assignTarget, hcont]
    rw [ht]
    constructor
    · intro k hk
      cases hk
      exact ⟨e0.2, QMap.value_of_mem hn (by rw [← hkey]; exact he0), hd0⟩
    · intro e he hd
      have := countP_le_one_unique h1 he he0 (by simpa using hd) (by simpa using hd0)
      rw [this, hkey]
  | some m =>
    simp only
    have hkeys := detachDeviceLoop_keys _ _ _ _ hl
    have hno := detachDeviceLoop_no_holder d seatName _ _ h1 hl
    have hc1 : QMap.contains m seatName = QMap.contains s.m_seats seatName :=
      QMap.contains_congr_keys hkeys _
    have hf1 : (WSeatManager.fallbackSeat { s with m_seats := m }).isSome
        = s.fallbackSeat.isSome := by
      simp only [WSeatManager.fallbackSeat]
      rw [← QMap.contains_eq_isSome, ← QMap.contains_eq_isSome]
      exact QMap.contains_congr_keys hkeys _
    have hf2 : QMap.contains m s.m_fallbackSeatName = s.fallbackSeat.isSome := by
      rw [← hf1, QMap.contains_eq_isSome]; rfl
    rw [hc1, hf1]
    unfold assignTarget
    by_cases hc : QMap.contains s.m_seats seatName = true
    · simp only [hc, if_true]
      obtain ⟨ha, hb⟩ := attachDevice_at_key m seatName d hno (hc1.trans hc)
      exact ⟨fun k hk => by cases hk; exact ha, fun e he hd => by rw [hb e he hd]⟩
    · have hc' : QMap.contains s.m_seats seatName = false := eq_false_of_ne_true hc
      by_cases hf : s.fallbackSeat.isSome = true
      · simp only [hc', hf, Bool.false_eq_true, ↓reduceIte]
        obtain ⟨ha, hb⟩ := attachDevice_at_key m s.m_fallbackSeatName d hno (hf2.trans hf)
        exact ⟨fun k hk => by cases hk; exact ha, fun e he hd => by rw [hb e he hd]⟩
      · have hf' : s.fallbackSeat.isSome = false := eq_false_of_ne_true hf
        simp only [hc', hf', Bool.false_eq_true, ↓reduceIte]
        refine ⟨fun k hk => (by cases hk), fun e he hd => ?_⟩
        have := hno e he
        simp [hd] at this

/-- What `assignDeviceToSeat(d, s)` does in a state where the non-null device d is
attached to at most one seat: afterwards the device is attached to exactly the seat
`assignTarget` names, that is to s if s names an existing seat, otherwise to the seat
`fallbackSeat()` returns, whether that seat is flagged or not, otherwise to no seat;
and d has left the seat that held it unless that seat is the target. -/
theorem assignDeviceToSeat_attaches_to_target (s : WSeatManager) (d : WInputDevice)
    (seatName : String) (hw : WellFormed s) (h1 : deviceOwnerCount s d ≤ 1) :
    (∀ k, assignTarget s seatName = some k →
      ∃ seat, QMap.value (s.assignDeviceToSeat (some d) seatName).m_seats k = some seat ∧
        d ∈ seat.deviceList) ∧
    (∀ e ∈ (s.assignDeviceToSeat (some d) seatName).m_seats, d ∈ e.2.deviceList →
      assignTarget s seatName = some e.1) ∧
    deviceOwnerCount (s.assignDeviceToSeat (some d) seatName) d
      = (if (assignTarget s seatName).isSome then 1 else 0) ∧
    (∀ e ∈ s.m_seats, d ∈ e.2.deviceList → assignTarget s seatName ≠ some e.1 →
      ∀ e' ∈ (s.assignDeviceToSeat (some d) seatName).m_seats, e'.1 = e.1 →
        d ∉ e'.2.deviceList) := by
  obtain ⟨ha, hb⟩ := assignDeviceToSeat_core s d seatName hw h1
  refine ⟨ha, hb, ?_, ?_⟩
  · have hn' : NodupKeys (s.assignDeviceToSeat (some d) seatName).m_seats :=
      nodupKeys_of_flagView (assignDeviceToSeat_flagView s (some d) seatName).1 hw.nodupKeys
    cases ht : assignTarget s seatName with
    | none =>
      simp only [Option.isSome_none, Bool.false_eq_true, if_false]
      unfold deviceOwnerCount
      rw [List.countP_eq_zero]
      intro e he hc
      have := hb e he (by simpa using hc)
      rw [ht] at this; cases this
    | some k =>
      simp only [Option.isSome_some, if_true]
      obtain ⟨seat, hseat, hd⟩ := ha k ht
      have hle : deviceOwnerCount (s.assignDeviceToSeat (some d) seatName) d ≤ 1 :=
        countP_le_one_of_holdersAt hn' (fun seat => seat.deviceList.contains d) k
          (fun e he hc => by
            have := hb e he (by simpa using hc)
            rw [ht] at this
            exact (Option.some.inj this).symm)
      have hpos : 0 < deviceOwnerCount (s.assignDeviceToSeat (some d) seatName) d :=
        List.countP_pos_iff.mpr ⟨(k, seat), QMap.value_mem hseat, by simpa using hd⟩
      omega
  · intro e _ _ hne e' he' hk hd
    have := hb e' he' hd
    rw [hk] at this
    exact hne this

/-- At the concrete registry the mouse moves from seat0 to seat1 and is attached to
seat1 only. -/
theorem assignDeviceToSeat_attaches_to_target_witness :
    WellFormed demoManager ∧ deviceOwnerCount demoManager demoMouse ≤ 1 ∧
    deviceOwnerCount (demoManager.assignDeviceToSeat (some demoMouse) "seat1") demoMouse
      = (if (assignTarget demoManager "seat1").isSome then 1 else 0) :=
  ⟨by decide, by decide,
    (assignDeviceToSeat_attaches_to_target demoManager demoMouse "seat1"
      (by decide) (by decide)).2.2.1⟩

/-! ### Seat resolution by rules -/

theorem deviceMatchesSeat_eq (re : RegexEngine) (s : WSeatManager) (d : WInputDevice)
    (seat : WSeat) :
    s.deviceMatchesSeat re (some d) (some seat) = hasMatchingRule re s seat d := by
  unfold WSeatManager.deviceMatchesSeat hasMatchingRule WSeatManager.deviceRules
    WSeat.matchesDevice
  simp only
  split_ifs <;> simp

theorem find?_pairwise_first {α : Type} {R : α → α → Prop} {m : List α} {p : α → Bool} {t : α}
    (hs : m.Pairwise R) (hf : m.find? p = some t) :
    t ∈ m ∧ p t = true ∧ ∀ e ∈ m, p e = true → e = t ∨ R t e := by
  induction m with
  | nil => simp at hf
  | cons a m ih =>
    rw [List.pairwise_cons] at hs
    rw [List.find?_cons] at hf
    by_cases hp : p a = true
    · simp only [hp] at hf
      cases hf
      refine ⟨List.mem_cons_self _ _, hp, fun e he _ => ?_⟩
      rcases List.mem_cons.mp he with rfl | he
      · exact Or.inl rfl
      · exact Or.inr (hs.1 e he)
    · have hp' : p a = false := eq_false_of_ne_true hp
      simp only [hp'] at hf
      obtain ⟨h1, h2, h3⟩ := ih hs.2 hf
      refine ⟨List.mem_cons_of_mem _ h1, h2, fun e he hpe => ?_⟩
      rcases List.mem_cons.mp he with rfl | he
      · exact absurd hpe hp
      · exact h3 e he hpe

theorem no_holder_of_count_zero {s : WSeatManager} {d : WInputDevice}
    (h : deviceOwnerCount s d = 0) : ∀ e ∈ s.m_seats, e.2.deviceList.contains d = false := by
  unfold deviceOwnerCount at h
  rw [List.countP_eq_zero] at h
  intro e he
  simpa using h e he

theorem findSeatForDevice_unattached (re : RegexEngine) (s : WSeatManager) (d : WInputDevice)
    (h : ∀ e ∈ s.m_seats, e.2.deviceList.contains d = false) :
    s.findSeatForDevice re (some d) =
      match s.m_seats.find? (fun e => !e.2.isFallback && hasMatchingRule re s e.2 d) with
      | some e => some e.2
      | none => s.fallbackSeat := by
  unfold WSeatManager.findSeatForDevice
  have h1 : s.m_seats.find? (fun e => e.2.deviceList.contains d) = none := by
    rw [List.find?_eq_none]
    intro e he
    have := h e he
    simpa using this
  simp only [h1, deviceMatchesSeat_eq]
  cases s.m_seats.find? (fun e => !e.2.isFallback && hasMatchingRule re s e.2 d) with
  | some e => rfl
  | none =>
    simp only
    cases s.fallbackSeat with
    | none => rfl
    | some fb =>
      simp only
      split_ifs <;> rfl

theorem autoAssignDevice_unattached (re : RegexEngine) (s : WSeatManager) (d : WInputDevice)
    (h : ∀ e ∈ s.m_seats, e.2.deviceList.contains d = false) (t : WSeat)
    (ht : s.findSeatForDevice re (some d) = some t) :
    s.autoAssignDevice re (some d) =
      (true,
        { s with m_seats := QMap.modify s.m_seats t.name (fun seat => seat.attachInputDevice d) })
      := by
  unfold WSeatManager.autoAssignDevice
  have h1 : (s.m_seats.any (fun e => e.2.deviceList.contains d)) = false := by
    rw [List.any_eq_false]
    intro e he
    have := h e he
    simpa using this
  simp only [h1, ht, Bool.false_eq_true, ↓reduceIte]

/-- C8: for a device d attached to no seat, if some seat whose fallback flag is false
has a rule that matches d, then findSeatForDevice(d) returns the first such seat in
registry iteration order, which is the one with the smallest name, and
autoAssignDevice(d) returns true and attaches d to that seat and to no other;
nothing is assumed about the rules of the fallback seat or of later seats. -/
theorem findSeatForDevice_first_rule_match (re : RegexEngine) (s : WSeatManager)
    (d : WInputDevice) (hw : WellFormed s) (hfree : deviceOwnerCount s d = 0)
    (e : String × WSeat) (he : e ∈ s.m_seats) (hflag : e.2.isFallback = false)
    (hmatch : hasMatchingRule re s e.2 d = true) :
    ∃ t ∈ s.m_seats,
      s.m_seats.find? (fun e => !e.2.isFallback && hasMatchingRule re s e.2 d) = some t ∧
      (t.2.isFallback = false ∧ hasMatchingRule re s t.2 d = true) ∧
      (∀ e' ∈ s.m_seats, e'.2.isFallback = false → hasMatchingRule re s e'.2 d = true →
        e' = t ∨ QString.lt t.1 e'.1) ∧
      s.findSeatForDevice re (some d) = some t.2 ∧
      (s.autoAssignDevice re (some d)).1 = true ∧
      (∃ seat', QMap.value (s.autoAssignDevice re (some d)).2.m_seats t.1 = some seat' ∧
        d ∈ seat'.deviceList) ∧
      (∀ e' ∈ (s.autoAssignDevice re (some d)).2.m_seats, d ∈ e'.2.deviceList →
        e'.1 = t.1) := by
  have hno := no_holder_of_count_zero hfree
  have hfind := findSeatForDevice_unattached re s d hno
  cases hf : s.m_seats.find? (fun e => !e.2.isFallback && hasMatchingRule re s e.2 d) with
  | none =>
    rw [List.find?_eq_none] at hf
    exact absurd (by simp [hflag, hmatch]) (hf e he)
  | some t =>
    obtain ⟨h1, h2, h3⟩ := find?_pairwise_first hw.1 hf
    simp only [Bool.and_eq_true, Bool.not_eq_true'] at h2
    rw [hf] at hfind
    have hauto := autoAssignDevice_unattached re s d hno t.2 hfind
    have hkey : t.2.name = t.1 := hw.2 t h1
    rw [hkey] at hauto
    have hcont : QMap.contains s.m_seats t.1 = true :=
      (QMap.contains_iff_mem_keys _ _).mpr (List.mem_map_of_mem Prod.fst h1)
    obtain ⟨ha, hb⟩ := attachDevice_at_key s.m_seats t.1 d hno hcont
    refine ⟨t, h1, rfl, h2, ?_, hfind, ?_, ?_, ?_⟩
    · intro e' he' hf' hm'
      exact h3 e' he' (by simp [hf', hm'])
    · rw [hauto]
    · rw [hauto]; exact ha
    · rw [hauto]; exact hb

/-- Witness for C8: in the scenario of the spec (seat0 fallback, seat1 with the rule
"^Logitech.*") the device "Logitech USB Mouse" resolves to seat1 and is attached to
it by autoAssignDevice. -/
theorem findSeatForDevice_first_rule_match_witness :
    (WellFormed demoScenario ∧ deviceOwnerCount demoScenario demoMouse = 0 ∧
      ("seat1", ({ name := "seat1", isFallback := false, deviceList := [], outputs := [] } :
        WSeat)) ∈ demoScenario.m_seats ∧
      hasMatchingRule demoRegex demoScenario
        { name := "seat1", isFallback := false, deviceList := [], outputs := [] } demoMouse
        = true) ∧
    (∃ t ∈ demoScenario.m_seats,
      demoScenario.m_seats.find?
        (fun e => !e.2.isFallback && hasMatchingRule demoRegex demoScenario e.2 demoMouse)
        = some t ∧
      (t.2.isFallback = false ∧ hasMatchingRule demoRegex demoScenario t.2 demoMouse = true) ∧
      (∀ e' ∈ demoScenario.m_seats, e'.2.isFallback = false →
        hasMatchingRule demoRegex demoScenario e'.2 demoMouse = true →
        e' = t ∨ QString.lt t.1 e'.1) ∧
      demoScenario.findSeatForDevice demoRegex (some demoMouse) = some t.2 ∧
      (demoScenario.autoAssignDevice demoRegex (some demoMouse)).1 = true ∧
      (∃ seat', QMap.value (demoScenario.autoAssignDevice demoRegex (some demoMouse)).2.m_seats
        t.1 = some seat' ∧ demoMouse ∈ seat'.deviceList) ∧
      (∀ e' ∈ (demoScenario.autoAssignDevice demoRegex (some demoMouse)).2.m_seats,
        demoMouse ∈ e'.2.deviceList → e'.1 = t.1)) ∧
    demoScenario.findSeatForDevice demoRegex (some demoMouse)
      = some { name := "seat1", isFallback := false, deviceList := [], outputs := [] } ∧
    (demoScenario.autoAssignDevice demoRegex (some demoMouse)).2.m_seats
      = [("seat0", { name := "seat0", isFallback := true, deviceList := [], outputs := [] }),
         ("seat1", { name := "seat1", isFallback := false, deviceList := [demoMouse],
                     outputs := [] })] :=
  ⟨⟨by decide, by decide, by decide, by decide⟩,
    findSeatForDevice_first_rule_match demoRegex demoScenario demoMouse (by decide) (by decide)
      ("seat1", { name := "seat1", isFallback := false, deviceList := [], outputs := [] })
      (by decide) rfl (by decide),
    by decide, by decide⟩

/-- C9: fallback of last resort. In a state that has a fallback seat, for a device d
attached to no seat and matching no rule of any other seat whose flag is false,
findSeatForDevice(d) returns the fallback seat, and it does so for every rule map
that differs from the present one only in the rules stored for the fallback seat:
the result does not depend on the rules of the fallback seat. -/
theorem findSeatForDevice_fallback_of_last_resort (re : RegexEngine) (s : WSeatManager)
    (d : WInputDevice) (fb : WSeat) (hw : WellFormed s) (hfb : s.fallbackSeat = some fb)
    (hfree : deviceOwnerCount s d = 0)
    (hnone : ∀ e ∈ s.m_seats, e.2.isFallback = false → e.1 ≠ s.m_fallbackSeatName →
      hasMatchingRule re s e.2 d = false)
    (rules : List (String × List String))
    (hrules : ∀ n, n ≠ fb.name →
      WSeatManager.deviceRules { s with m_deviceRules := rules } n = s.deviceRules n) :
    WSeatManager.findSeatForDevice re { s with m_deviceRules := rules } (some d) = some fb := by
  have hno := no_holder_of_count_zero hfree
  have hmem : (s.m_fallbackSeatName, fb) ∈ s.m_seats := QMap.value_mem hfb
  have hname : fb.name = s.m_fallbackSeatName := hw.2 _ hmem
  rw [findSeatForDevice_unattached re { s with m_deviceRules := rules } d hno]
  cases hf : List.find? (fun e => !e.2.isFallback &&
      hasMatchingRule re { s with m_deviceRules := rules } e.2 d)
      (WSeatManager.m_seats { s with m_deviceRules := rules }) with
  | none => exact hfb
  | some t =>
    simp only
    have ht := List.find?_some hf
    have htm : t ∈ s.m_seats := List.mem_of_find?_eq_some hf
    simp only [Bool.and_eq_true, Bool.not_eq_true'] at ht
    by_cases hk : t.1 = s.m_fallbackSeatName
    · have := QMap.value_of_mem hw.nodupKeys (show (t.1, t.2) ∈ s.m_seats from htm)
      rw [hk] at this
      rw [WSeatManager.fallbackSeat, this] at hfb
      exact hfb
    · exfalso
      have h1 := hnone t htm ht.1 hk
      have h2 : hasMatchingRule re { s with m_deviceRules := rules } t.2 d
          = hasMatchingRule re s t.2 d := by
        unfold hasMatchingRule
        rw [hrules t.2.name (by rw [hw.2 t htm, hname]; exact hk)]
      rw [h2, h1] at ht
      cases ht.2

/-- Witness for C9: the fallback seat seat0 has the rule "^Never.*", which does not match
"Generic Keyboard", and seat1 has "^Logitech.*"; the keyboard resolves to seat0. -/
theorem findSeatForDevice_fallback_of_last_resort_witness :
    (WellFormed demoScenarioNever ∧
      demoScenarioNever.fallbackSeat
        = some { name := "seat0", isFallback := true, deviceList := [], outputs := [] } ∧
      deviceOwnerCount demoScenarioNever demoKeyboard = 0 ∧
      demoScenarioNever.deviceRules "seat0" = ["^Never.*"] ∧
      hasMatchingRule demoRegex demoScenarioNever
        { name := "seat0", isFallback := true, deviceList := [], outputs := [] } demoKeyboard
        = false) ∧
    WSeatManager.findSeatForDevice demoRegex
      { demoScenarioNever with m_deviceRules := demoScenarioNever.m_deviceRules }
      (some demoKeyboard)
      = some { name := "seat0", isFallback := true, deviceList := [], outputs := [] } :=
  ⟨⟨by decide, by decide, by decide, by decide, by decide⟩,
    findSeatForDevice_fallback_of_last_resort demoRegex demoScenarioNever demoKeyboard
      { name := "seat0", isFallback := true, deviceList := [], outputs := [] }
      (by decide) (by decide) (by decide) (by decide) demoScenarioNever.m_deviceRules
      (fun _ _ => rfl)⟩

/-! ### Automatic assignment is idempotent -/

theorem QMap.modify_of_not_contains {α : Type} (m : List (String × α)) (k : String)
    (f : α → α) (h : QMap.contains m k = false) : QMap.modify m k f = m := by
  induction m with
  | nil => rfl
  | cons e m ih =>
    obtain ⟨k0, v⟩ := e
    have hk : k0 ≠ k := by
      intro hk; simp [QMap.contains, hk] at h
    have hm : QMap.contains m k = false := by simpa [QMap.contains, hk] using h
    rw [QMap.modify_cons, ih hm]
    simp [hk]

theorem autoAssignDevice_attached (re : RegexEngine) (s : WSeatManager) (d : WInputDevice)
    (h : ∃ e ∈ s.m_seats, d ∈ e.2.deviceList) :
    s.autoAssignDevice re (some d) = (true, s) := by
  unfold WSeatManager.autoAssignDevice
  have h1 : (s.m_seats.any (fun e => e.2.deviceList.contains d)) = true := by
    obtain ⟨e, he, hd⟩ := h
    exact List.any_eq_true.mpr ⟨e, he, by simpa using hd⟩
  simp only [h1, if_true]

theorem autoAssignDevice_result (re : RegexEngine) (s : WSeatManager) (d : WInputDevice) :
    s.autoAssignDevice re (some d) = (true, s) ∨
    ((∀ e ∈ s.m_seats, d ∉ e.2.deviceList) ∧ s.autoAssignDevice re (some d) = (false, s)) ∨
    ((∀ e ∈ s.m_seats, d ∉ e.2.deviceList) ∧ ∃ k, s.autoAssignDevice re (some d) =
      (true, { s with m_seats := QMap.modify s.m_seats k (fun seat => seat.attachInputDevice d) }))
    := by
  by_cases h : ∃ e ∈ s.m_seats, d ∈ e.2.deviceList
  · exact Or.inl (autoAssignDevice_attached re s d h)
  · have hno : ∀ e ∈ s.m_seats, d ∉ e.2.deviceList := fun e he hd => h ⟨e, he, hd⟩
    have h1 : (s.m_seats.any (fun e => e.2.deviceList.contains d)) = false := by
      rw [List.any_eq_false]
      intro e he
      simpa using hno e he
    unfold WSeatManager.autoAssignDevice
    simp only [h1, Bool.false_eq_true, ↓reduceIte]
    cases WSeatManager.findSeatForDevice re s (some d) with
    | some t => exact Or.inr (Or.inr ⟨hno, t.name, rfl⟩)
    | none =>
      simp only
      by_cases h2 : s.fallbackSeat.isSome = true
      · simp only [h2, if_true]
        exact Or.inr (Or.inr ⟨hno, s.m_fallbackSeatName, rfl⟩)
      · have h2' : s.fallbackSeat.isSome = false := eq_false_of_ne_true h2
        simp only [h2', Bool.false_eq_true, ↓reduceIte]
        exact Or.inr (Or.inl ⟨hno, trivial⟩)

/-- C10: autoAssignDevice is idempotent. A second call directly after the first leaves
the state produced by the first call unchanged; whenever d is attached to a seat
after the first call, both calls return true; and a device that is attached to a
seat when autoAssignDevice is called stays where it is, whatever the rules say. -/
theorem autoAssignDevice_idempotent (re : RegexEngine) (s : WSeatManager) (d : WInputDevice) :
    ((s.autoAssignDevice re (some d)).2.autoAssignDevice re (some d)).2
      = (s.autoAssignDevice re (some d)).2 ∧
    ((∃ e ∈ (s.autoAssignDevice re (some d)).2.m_seats, d ∈ e.2.deviceList) →
      (s.autoAssignDevice re (some d)).1 = true ∧
      ((s.autoAssignDevice re (some d)).2.autoAssignDevice re (some d)).1 = true) ∧
    ((∃ e ∈ s.m_seats, d ∈ e.2.deviceList) → s.autoAssignDevice re (some d) = (true, s)) := by
  refine ⟨?_, ?_, autoAssignDevice_attached re s d⟩
  · rcases autoAssignDevice_result re s d with h | ⟨_, h⟩ | ⟨hno, k, h⟩
    · rw [h]; simp only; rw [h]
    · rw [h]; simp only; rw [h]
    · by_cases hk : QMap.contains s.m_seats k = true
      · rw [h]
        simp only
        have hno' : ∀ e ∈ s.m_seats, e.2.deviceList.contains d = false := by
          intro e he; simpa using hno e he
        obtain ⟨⟨seat, hseat, hd⟩, _⟩ := attachDevice_at_key s.m_seats k d hno' hk
        rw [autoAssignDevice_attached re _ d ⟨(k, seat), QMap.value_mem hseat, hd⟩]
      · have hm := QMap.modify_of_not_contains s.m_seats k
          (fun seat => seat.attachInputDevice d) (eq_false_of_ne_true hk)
        rw [hm] at h
        have hs : ({ s with m_seats := s.m_seats } : WSeatManager) = s := rfl
        rw [hs] at h
        rw [h]; simp only; rw [h]
  · intro hheld
    have h2 := autoAssignDevice_attached re _ d hheld
    refine ⟨?_, by rw [h2]⟩
    rcases autoAssignDevice_result re s d with h | ⟨hno, h⟩ | ⟨_, k, h⟩
    · rw [h]
    · rw [h] at hheld
      obtain ⟨e, he, hd⟩ := hheld
      exact absurd hd (hno e he)
    · rw [h]

/-- Witness for C10: in the scenario of the spec the first call attaches the mouse to
seat1 and returns true; the second call returns true and changes nothing. -/
theorem autoAssignDevice_idempotent_witness :
    (∃ e ∈ (demoScenario.autoAssignDevice demoRegex (some demoMouse)).2.m_seats,
      demoMouse ∈ e.2.deviceList) ∧
    ((demoScenario.autoAssignDevice demoRegex (some demoMouse)).2.autoAssignDevice demoRegex
      (some demoMouse)).2 = (demoScenario.autoAssignDevice demoRegex (some demoMouse)).2 ∧
    (demoScenario.autoAssignDevice demoRegex (some demoMouse)).1 = true ∧
    ((demoScenario.autoAssignDevice demoRegex (some demoMouse)).2.autoAssignDevice demoRegex
      (some demoMouse)).1 = true :=
  ⟨by decide, (autoAssignDevice_idempotent demoRegex demoScenario demoMouse).1,
    (autoAssignDevice_idempotent demoRegex demoScenario demoMouse).2.1 (by decide)⟩

/-! ### Every reachable state is well-formed -/

theorem wellFormed_iff_nameView (s : WSeatManager) :
    WellFormed s ↔ (nameView s.m_seats).Pairwise (fun a b => QString.lt a.1 b.1) ∧
      ∀ p ∈ nameView s.m_seats, p.2 = p.1 := by
  unfold WellFormed nameView
  rw [List.pairwise_map]
  constructor
  · rintro ⟨h1, h2⟩
    refine ⟨h1, fun p hp => ?_⟩
    obtain ⟨e, he, rfl⟩ := List.mem_map.mp hp
    exact h2 e he
  · rintro ⟨h1, h2⟩
    exact ⟨h1, fun e he => h2 (e.1, e.2.name) (List.mem_map.mpr ⟨e, he, rfl⟩)⟩

theorem wellFormed_of_nameView {s s' : WSeatManager}
    (hv : nameView s'.m_seats = nameView s.m_seats) (h : WellFormed s) : WellFormed s' := by
  rw [wellFormed_iff_nameView] at h ⊢
  rw [hv]; exact h

theorem nameView_modify (m : List (String × WSeat)) (k : String) (f : WSeat → WSeat)
    (hf : ∀ seat, (f seat).name = seat.name) : nameView (QMap.modify m k f) = nameView m := by
  induction m with
  | nil => rfl
  | cons e m ih =>
    obtain ⟨k0, v⟩ := e
    rw [QMap.modify_cons]
    simp only [nameView, List.map_cons] at ih ⊢
    rw [ih]
    split_ifs <;> simp [hf]

theorem WSeat.name_attachInputDevice (seat : WSeat) (d : WInputDevice) :
    (seat.attachInputDevice d).name = seat.name := by
  unfold WSeat.attachInputDevice; split_ifs <;> rfl

theorem WSeat.name_attachOutput (seat : WSeat) (o : WOutput) :
    (seat.attachOutput o).name = seat.name := by
  unfold WSeat.attachOutput; split_ifs <;> rfl

theorem nameView_detachDeviceLoop (d : WInputDevice) (seatName : String)
    (m m' : List (String × WSeat))
    (h : WSeatManager.detachDeviceLoop d seatName m = some m') : nameView m' = nameView m := by
  induction m generalizing m' with
  | nil =>
    simp [WSeatManager.detachDeviceLoop] at h; subst h; rfl
  | cons e m ih =>
    obtain ⟨k, seat⟩ := e
    unfold WSeatManager.detachDeviceLoop at h
    split_ifs at h with h1 h2
    · cases h; simp [nameView, WSeat.detachInputDevice]
    · cases hr : WSeatManager.detachDeviceLoop d seatName m with
      | none => simp [hr] at h
      | some r =>
        simp [hr] at h; subst h
        have := ih r hr
        simp only [nameView, List.map_cons] at this ⊢
        rw [this]

theorem nameView_detachOutputLoop (o : WOutput) (seatName : String)
    (m m' : List (String × WSeat))
    (h : WSeatManager.detachOutputLoop o seatName m = some m') : nameView m' = nameView m := by
  induction m generalizing m' with
  | nil =>
    simp [WSeatManager.detachOutputLoop] at h; subst h; rfl
  | cons e m ih =>
    obtain ⟨k, seat⟩ := e
    unfold WSeatManager.detachOutputLoop at h
    split_ifs at h with h1 h2
    · cases h; simp [nameView, WSeat.detachOutput]
    · cases hr : WSeatManager.detachOutputLoop o seatName m with
      | none => simp [hr] at h
      | some r =>
        simp [hr] at h; subst h
        have := ih r hr
        simp only [nameView, List.map_cons] at this ⊢
        rw [this]

theorem autoAssignDevice_nameView (re : RegexEngine) (s : WSeatManager)
    (device : Option WInputDevice) :
    nameView (s.autoAssignDevice re device).2.m_seats = nameView s.m_seats := by
  cases device with
  | none => simp [WSeatManager.autoAssignDevice]
  | some d =>
    rcases autoAssignDevice_cases re s d with h | ⟨_, k, h⟩
    · rw [h]
    · rw [h]
      exact nameView_modify _ _ _ (fun seat => seat.name_attachInputDevice d)

theorem assignDeviceToSeat_nameView (s : WSeatManager) (device : Option WInputDevice)
    (seatName : String) :
    nameView (s.assignDeviceToSeat device seatName).m_seats = nameView s.m_seats := by
  unfold WSeatManager.assignDeviceToSeat
  cases device with
  | none => rfl
  | some d =>
    simp only
    cases hl : WSeatManager.detachDeviceLoop d seatName s.m_seats with
    | none => rfl
    | some m =>
      have hm := nameView_detachDeviceLoop d seatName _ _ hl
      simp only
      split_ifs
      · exact (nameView_modify _ _ _ (fun seat => seat.name_attachInputDevice d)).trans hm
      · exact (nameView_modify _ _ _ (fun seat => seat.name_attachInputDevice d)).trans hm
      · exact hm

theorem assignOutputToSeat_nameView (s : WSeatManager) (output : Option WOutput)
    (seatName : String) :
    nameView (s.assignOutputToSeat output seatName).m_seats = nameView s.m_seats := by
  unfold WSeatManager.assignOutputToSeat
  cases output with
  | none => rfl
  | some o =>
    simp only
    cases hl : WSeatManager.detachOutputLoop o seatName s.m_seats with
    | none => rfl
    | some m =>
      have hm := nameView_detachOutputLoop o seatName _ _ hl
      simp only
      split_ifs
      · exact (nameView_modify _ _ _ (fun seat => seat.name_attachOutput o)).trans hm
      · exact (nameView_modify _ _ _ (fun seat => seat.name_attachOutput o)).trans hm
      · exact hm

theorem foldl_deviceStep_nameView (re : RegexEngine) (ds : List WInputDevice)
    (st : WSeatManager) :
    nameView (ds.foldl (WSeatManager.removeSeatDeviceStep re) st).m_seats
      = nameView st.m_seats := by
  induction ds generalizing st with
  | nil => rfl
  | cons d ds ih =>
    refine (ih _).trans ?_
    unfold WSeatManager.removeSeatDeviceStep
    split_ifs
    · exact autoAssignDevice_nameView re st (some d)
    · rfl

theorem foldl_outputStep_nameView (os : List WOutput) (st : WSeatManager) :
    nameView (os.foldl WSeatManager.removeSeatOutputStep st).m_seats = nameView st.m_seats := by
  induction os generalizing st with
  | nil => rfl
  | cons o os ih =>
    refine (ih _).trans ?_
    unfold WSeatManager.removeSeatOutputStep
    split_ifs
    · exact nameView_modify _ _ _ (fun seat => seat.name_attachOutput o)
    · rfl

theorem promoteFirst_nameView (s : WSeatManager) :
    nameView s.promoteFirst.m_seats = nameView s.m_seats := by
  unfold WSeatManager.promoteFirst
  cases hm : s.m_seats with
  | nil => simp [hm]
  | cons e rest => simp [nameView, WSeat.setIsFallback]

theorem demoteOthers_nameView (m : List (String × WSeat)) (name : String) :
    nameView (WSeatManager.demoteOthers m name) = nameView m := by
  induction m with
  | nil => rfl
  | cons e m ih =>
    simp only [nameView, WSeatManager.demoteOthers, List.map_cons] at ih ⊢
    rw [ih]
    split_ifs <;> simp [WSeat.setIsFallback]

theorem QMap.mem_insert {α : Type} {m : List (String × α)} {k : String} {v : α}
    {e : String × α} (h : e ∈ QMap.insert m k v) : e = (k, v) ∨ e ∈ m := by
  induction m with
  | nil => simpa [QMap.insert] using h
  | cons a m ih =>
    obtain ⟨k', v'⟩ := a
    unfold QMap.insert at h
    split_ifs at h with h1 h2
    · rcases List.mem_cons.mp h with h | h
      · exact Or.inl h
      · exact Or.inr h
    · rcases List.mem_cons.mp h with h | h
      · exact Or.inl h
      · exact Or.inr (List.mem_cons_of_mem _ h)
    · rcases List.mem_cons.mp h with h | h
      · exact Or.inr (h ▸ List.mem_cons_self _ _)
      · rcases ih h with h | h
        · exact Or.inl h
        · exact Or.inr (List.mem_cons_of_mem _ h)

theorem QMap.pairwise_insert {α : Type} {m : List (String × α)}
    (h : m.Pairwise (fun a b => QString.lt a.1 b.1)) (k : String) (v : α) :
    (QMap.insert m k v).Pairwise (fun a b => QString.lt a.1 b.1) := by
  induction m with
  | nil => simp [QMap.insert]
  | cons a m ih =>
    obtain ⟨k', v'⟩ := a
    rw [List.pairwise_cons] at h
    unfold QMap.insert
    split_ifs with h1 h2
    · rw [List.pairwise_cons]
      refine ⟨fun e he => ?_, List.pairwise_cons.mpr h⟩
      rcases List.mem_cons.mp he with rfl | he
      · exact h1
      · exact QString.lt_of_lt_of_lt h1 (h.1 e he)
    · rw [List.pairwise_cons]
      exact ⟨fun e he => by rw [h2]; exact h.1 e he, h.2⟩
    · rw [List.pairwise_cons]
      refine ⟨fun e he => ?_, ih h.2⟩
      rcases QMap.mem_insert he with rfl | he
      · rcases QString.lt_or_eq_or_gt k k' with h3 | h3 | h3
        · exact absurd h3 h1
        · exact absurd h3 h2
        · exact h3
      · exact h.1 e he

theorem createSeat_wellFormed (s : WSeatManager) (name : String) (isFallback : Bool)
    (h : WellFormed s) : WellFormed (s.createSeat name isFallback).2 := by
  unfold WSeatManager.createSeat
  by_cases hc : QMap.contains s.m_seats name = true
  · simp only [hc, if_true]; exact h
  · have hc' : QMap.contains s.m_seats name = false := eq_false_of_ne_true hc
    simp only [hc', Bool.false_eq_true, ↓reduceIte]
    have h1 : WellFormed
        { s with m_seats := QMap.insert s.m_seats name ((WSeat.create name).setIsFallback isFallback) }
        := by
      refine ⟨QMap.pairwise_insert h.1 _ _, fun e he => ?_⟩
      rcases QMap.mem_insert he with rfl | he
      · rfl
      · exact h.2 e he
    cases isFallback with
    | true =>
      simp only [↓reduceIte]
      exact wellFormed_of_nameView (demoteOthers_nameView _ _) h1
    | false =>
      simp only [Bool.false_eq_true, ↓reduceIte]
      exact h1

theorem healFallback_wellFormed (s : WSeatManager) (h : WellFormed s) :
    WellFormed (if s.fallbackSeat.isNone && !s.m_seats.isEmpty then s.promoteFirst else s) := by
  split_ifs
  · exact wellFormed_of_nameView (promoteFirst_nameView s) h
  · exact h

theorem removeSeat_wellFormed (re : RegexEngine) (s : WSeatManager) (name : String)
    (h : WellFormed s) : WellFormed (s.removeSeat re name) := by
  unfold WSeatManager.removeSeat
  cases hv : QMap.value s.m_seats name with
  | none => exact h
  | some seat =>
    simp only
    have h1 : WellFormed { s with m_seats := QMap.remove s.m_seats name } :=
      ⟨h.1.sublist (QMap.remove_sublist _ _),
        fun e he => h.2 e ((QMap.remove_sublist _ _).subset he)⟩
    refine wellFormed_of_nameView
      ((foldl_outputStep_nameView _ _).trans (foldl_deviceStep_nameView re _ _)) ?_
    split_ifs
    · exact wellFormed_of_nameView (promoteFirst_nameView _) h1
    · exact h1

theorem Call.apply_wellFormed (re : RegexEngine) (s : WSeatManager) (c : Call)
    (h : WellFormed s) : WellFormed (c.apply re s) := by
  cases c with
  | createSeat name isFallback => exact createSeat_wellFormed s name isFallback h
  | removeSeat name => exact removeSeat_wellFormed re s name h
  | removeSeatPtr seat =>
    simp only [Call.apply, WSeatManager.removeSeatPtr]
    cases seat with
    | null => exact h
    | owned key =>
      simp only
      split_ifs
      · exact removeSeat_wellFormed re s _ h
      · exact h
    | foreign =>
      simp only
      split_ifs
      · exact removeSeat_wellFormed re s _ h
      · exact h
  | assignDeviceToSeat device seatName =>
    exact wellFormed_of_nameView (assignDeviceToSeat_nameView s device seatName) h
  | autoAssignDevice device =>
    exact wellFormed_of_nameView (autoAssignDevice_nameView re s device) h
  | assignOutputToSeat output seatName =>
    exact wellFormed_of_nameView (assignOutputToSeat_nameView s output seatName) h
  | addDeviceRule seatName rule =>
    exact wellFormed_of_nameView
      (by rw [Call.apply, (addDeviceRule_seats re s seatName rule).1]) h
  | removeDeviceRule seatName rule =>
    exact wellFormed_of_nameView
      (by rw [Call.apply, (removeDeviceRule_seats re s seatName rule).1]) h
  | loadConfig config =>
    simp only [Call.apply, WSeatManager.loadConfig]
    apply healFallback_wellFormed
    have h0 : WellFormed { s with m_seats := [], m_deviceRules := [] } := by
      simp [WellFormed]
    have h1 : ∀ (vs : List QJsonValue) (st : WSeatManager), WellFormed st →
        WellFormed (vs.foldl (WSeatManager.loadSeatEntry re) st) := by
      intro vs
      induction vs with
      | nil => exact fun _ hst => hst
      | cons v vs ih =>
        intro st hst
        refine ih _ ?_
        unfold WSeatManager.loadSeatEntry
        simp only
        exact wellFormed_of_nameView (by rw [(foldl_addDeviceRule_seats re _ _ _).1])
          (createSeat_wellFormed st _ _ hst)
    split_ifs
    · exact createSeat_wellFormed _ _ _ (h1 _ _ h0)
    · exact h1 _ _ h0
  | create server =>
    cases server with
    | none => exact h
    | some _ => exact healFallback_wellFormed s h
  | destroy server => simp [Call.apply, WSeatManager.destroy, WellFormed]

/-- Every state that a sequence of calls produces from a freshly constructed manager is
well-formed, so that the well-formedness assumed of "every state" below holds of
every state the manager can be in. -/
theorem runCalls_wellFormed (re : RegexEngine) (calls : List Call) (s : WSeatManager)
    (h : WellFormed s) : WellFormed (runCalls re s calls) := by
  induction calls generalizing s with
  | nil => exact h
  | cons c cs ih => exact ih _ (Call.apply_wellFormed re s c h)

theorem init_wellFormed : WellFormed WSeatManager.init := by
  simp [WellFormed, WSeatManager.init]

/-! ### When automatic assignment fails -/

theorem autoAssignDevice_no_target (re : RegexEngine) (s : WSeatManager) (d : WInputDevice)
    (h : ∀ e ∈ s.m_seats, e.2.deviceList.contains d = false)
    (ht : s.findSeatForDevice re (some d) = none) (hf : s.fallbackSeat = none) :
    s.autoAssignDevice re (some d) = (false, s) := by
  unfold WSeatManager.autoAssignDevice
  have h1 : (s.m_seats.any (fun e => e.2.deviceList.contains d)) = false := by
    rw [List.any_eq_false]
    intro e he
    have := h e he
    simpa using this
  simp only [h1, ht, hf, Option.isSome_none, Bool.false_eq_true, ↓reduceIte]

/-- C11: autoAssignDevice(d) returns false exactly when d is null, or d is attached to no
seat, no seat whose fallback flag is false has a rule matching d, and fallbackSeat()
is none; when it returns false the manager state is unchanged, and when it returns
true d is attached to a seat afterwards. -/
theorem autoAssignDevice_false_iff (re : RegexEngine) (s : WSeatManager)
    (device : Option WInputDevice) (hw : WellFormed s) :
    ((s.autoAssignDevice re device).1 = false ↔
      device = none ∨
      ∃ d, device = some d ∧ deviceOwnerCount s d = 0 ∧
        (∀ e ∈ s.m_seats, e.2.isFallback = false → hasMatchingRule re s e.2 d = false) ∧
        s.fallbackSeat = none) ∧
    ((s.autoAssignDevice re device).1 = false → (s.autoAssignDevice re device).2 = s) ∧
    (∀ d, device = some d → (s.autoAssignDevice re device).1 = true →
      ∃ e ∈ (s.autoAssignDevice re device).2.m_seats, d ∈ e.2.deviceList) := by
  cases device with
  | none =>
    refine ⟨?_, fun _ => rfl, fun d hd => ?_⟩
    · simp [WSeatManager.autoAssignDevice]
    · cases hd
  | some d =>
    by_cases hatt : ∃ e ∈ s.m_seats, d ∈ e.2.deviceList
    · rw [autoAssignDevice_attached re s d hatt]
      refine ⟨⟨fun h => ?_, ?_⟩, fun _ => rfl, fun d' hd' _ => ?_⟩
      · cases h
      · rintro (h | ⟨d', hd', hc, _⟩)
        · cases h
        · cases hd'
          obtain ⟨e, he, hd⟩ := hatt
          have := no_holder_of_count_zero hc e he
          simp [hd] at this
      · cases hd'; exact hatt
    · have hno : ∀ e ∈ s.m_seats, e.2.deviceList.contains d = false := by
        intro e he
        by_contra hc
        exact hatt ⟨e, he, by simpa using hc⟩
      have hcount : deviceOwnerCount s d = 0 := by
        unfold deviceOwnerCount
        rw [List.countP_eq_zero]
        intro e he
        have := hno e he
        simpa using this
      have hfind := findSeatForDevice_unattached re s d hno
      have hattach : ∀ t : WSeat, s.findSeatForDevice re (some d) = some t →
          QMap.contains s.m_seats t.name = true →
          ((s.autoAssignDevice re (some d)).1 = true ∧
            ∃ e ∈ (s.autoAssignDevice re (some d)).2.m_seats, d ∈ e.2.deviceList) := by
        intro t ht hc
        rw [autoAssignDevice_unattached re s d hno t ht]
        obtain ⟨⟨seat, hseat, hd⟩, _⟩ := attachDevice_at_key s.m_seats t.name d hno hc
        exact ⟨rfl, (t.name, seat), QMap.value_mem hseat, hd⟩
      have hpos : ∀ t : WSeat, s.findSeatForDevice re (some d) = some t →
          QMap.contains s.m_seats t.name = true →
          ¬ ((∀ e ∈ s.m_seats, e.2.isFallback = false → hasMatchingRule re s e.2 d = false) ∧
            s.fallbackSeat = none) →
          ((s.autoAssignDevice re (some d)).1 = false ↔
            some d = none ∨
            ∃ d', some d = some d' ∧ deviceOwnerCount s d' = 0 ∧
              (∀ e ∈ s.m_seats, e.2.isFallback = false → hasMatchingRule re s e.2 d' = false) ∧
              s.fallbackSeat = none) ∧
          ((s.autoAssignDevice re (some d)).1 = false → (s.autoAssignDevice re (some d)).2 = s) ∧
          (∀ d', some d = some d' → (s.autoAssignDevice re (some d)).1 = true →
            ∃ e ∈ (s.autoAssignDevice re (some d)).2.m_seats, d' ∈ e.2.deviceList) := by
        intro t ht hc hnot
        obtain ⟨h1, h2⟩ := hattach t ht hc
        refine ⟨⟨fun h => ?_, ?_⟩, fun h => ?_, fun d' hd' _ => ?_⟩
        · rw [h1] at h; cases h
        · rintro (h | ⟨d', hd', _, hall, hnone⟩)
          · cases h
          · cases hd'
            exact absurd ⟨hall, hnone⟩ hnot
        · rw [h1] at h; cases h
        · cases hd'; exact h2
      cases hf : s.m_seats.find? (fun e => !e.2.isFallback && hasMatchingRule re s e.2 d) with
      | some t =>
        rw [hf] at hfind
        have htm : t ∈ s.m_seats := List.mem_of_find?_eq_some hf
        have htp := List.find?_some hf
        simp only [Bool.and_eq_true, Bool.not_eq_true'] at htp
        have hc : QMap.contains s.m_seats t.2.name = true := by
          rw [hw.2 t htm]
          exact (QMap.contains_iff_mem_keys _ _).mpr (List.mem_map_of_mem Prod.fst htm)
        refine hpos t.2 hfind hc ?_
        rintro ⟨hall, _⟩
        have := hall t htm htp.1
        rw [htp.2] at this; cases this
      | none =>
        rw [hf] at hfind
        simp only at hfind
        cases hfb : s.fallbackSeat with
        | some fb =>
          rw [hfb] at hfind
          have hmem : (s.m_fallbackSeatName, fb) ∈ s.m_seats := QMap.value_mem hfb
          have hc : QMap.contains s.m_seats fb.name = true := by
            rw [hw.2 _ hmem]
            exact (QMap.contains_iff_mem_keys _ _).mpr (List.mem_map_of_mem Prod.fst hmem)
          have := hpos fb hfind hc
          rw [hfb] at this
          refine this ?_
          rintro ⟨_, hnone⟩
          cases hnone
        | none =>
          rw [hfb] at hfind
          rw [autoAssignDevice_no_target re s d hno hfind hfb]
          refine ⟨⟨fun _ => Or.inr ⟨d, rfl, hcount, ?_, rfl⟩, fun _ => rfl⟩, fun _ => rfl,
            fun d' _ h => ?_⟩
          · intro e he hflag
            rw [List.find?_eq_none] at hf
            have := hf e he
            simpa [hflag] using this
          · cases h

/-- Witness for C11: seat1 is the only seat, is not fallback and has no rule; the
keyboard cannot be assigned, the call returns false and changes nothing. -/
theorem autoAssignDevice_false_iff_witness :
    WellFormed demoNoFallback ∧
    (demoNoFallback.autoAssignDevice demoRegex (some demoKeyboard)).1 = false ∧
    (demoNoFallback.autoAssignDevice demoRegex (some demoKeyboard)).2 = demoNoFallback :=
  ⟨by decide, by decide,
    (autoAssignDevice_false_iff demoRegex demoNoFallback (some demoKeyboard) (by decide)).2.1
      (by decide)⟩

/-! ### Removing the fallback seat -/

theorem removeSeat_eq_folds (re : RegexEngine) (s : WSeatManager) (name : String)
    (seat : WSeat) (hv : QMap.value s.m_seats name = some seat) :
    s.removeSeat re name = seat.outputs.foldl WSeatManager.removeSeatOutputStep
      (seat.deviceList.foldl (WSeatManager.removeSeatDeviceStep re)
        (s.removeSeatTaken name)) := by
  unfold WSeatManager.removeSeat WSeatManager.removeSeatTaken
  simp only [hv]

theorem removeSeat_views (re : RegexEngine) (s : WSeatManager) (name : String) :
    flagView (s.removeSeat re name).m_seats = flagView (s.removeSeatTaken name).m_seats ∧
    (s.removeSeat re name).m_fallbackSeatName = (s.removeSeatTaken name).m_fallbackSeatName ∧
    (s.removeSeat re name).m_deviceRules = s.m_deviceRules := by
  cases hv : QMap.value s.m_seats name with
  | none => simp [WSeatManager.removeSeat, WSeatManager.removeSeatTaken, hv]
  | some seat =>
    rw [removeSeat_eq_folds re s name seat hv]
    obtain ⟨a1, a2, a3⟩ := foldl_deviceStep_flagView re seat.deviceList (s.removeSeatTaken name)
    obtain ⟨b1, b2, b3⟩ := foldl_outputStep_flagView seat.outputs
      (seat.deviceList.foldl (WSeatManager.removeSeatDeviceStep re) (s.removeSeatTaken name))
    refine ⟨b1.trans a1, b2.trans a2, (b3.trans a3).trans ?_⟩
    unfold WSeatManager.removeSeatTaken
    simp only [hv]
    split_ifs
    · unfold WSeatManager.promoteFirst
      cases QMap.remove s.m_seats name <;> rfl
    · rfl

theorem removeSeatTaken_promoted (s : WSeatManager) (name : String) (seat : WSeat)
    (hv : QMap.value s.m_seats name = some seat) (hflag : seat.isFallback = true)
    (k1 : String) (seat1 : WSeat) (rest : List (String × WSeat))
    (hrem : QMap.remove s.m_seats name = (k1, seat1) :: rest) :
    s.removeSeatTaken name =
      { s with m_seats := (k1, seat1.setIsFallback true) :: rest, m_fallbackSeatName := k1 } := by
  unfold WSeatManager.removeSeatTaken
  simp only [hv, hflag, hrem, List.isEmpty_cons, Bool.not_false, Bool.and_self, if_true]
  rfl

/-- C12: when the seat registered under name is flagged fallback and other seats exist,
after removeSeat(name) the first remaining seat in registry iteration order, which
has the smallest remaining name, has its fallback flag set, is the only flagged
seat, and is the seat returned by fallbackSeat(). -/
theorem removeSeat_promotes_first_remaining (re : RegexEngine) (s : WSeatManager)
    (name : String) (seat : WSeat) (hw : WellFormed s) (hone : fallbackCount s ≤ 1)
    (hv : QMap.value s.m_seats name = some seat) (hflag : seat.isFallback = true)
    (k1 : String) (seat1 : WSeat) (rest : List (String × WSeat))
    (hrem : QMap.remove s.m_seats name = (k1, seat1) :: rest) :
    (s.removeSeat re name).m_seats.map Prod.fst = k1 :: rest.map Prod.fst ∧
    (∀ e ∈ (s.removeSeat re name).m_seats, e.1 = k1 ∨ QString.lt k1 e.1) ∧
    (∀ e ∈ (s.removeSeat re name).m_seats, e.2.isFallback = true ↔ e.1 = k1) ∧
    fallbackCount (s.removeSeat re name) = 1 ∧
    ∃ seat', (s.removeSeat re name).fallbackSeat = some seat' ∧
      (k1, seat') ∈ (s.removeSeat re name).m_seats ∧ seat'.isFallback = true ∧
      seat'.name = k1 := by
  obtain ⟨hfv, hfb, _⟩ := removeSeat_views re s name
  rw [removeSeatTaken_promoted s name seat hv hflag k1 seat1 rest hrem] at hfv hfb
  simp only at hfv hfb
  have hw' := removeSeat_wellFormed re s name hw
  have hn' := hw'.nodupKeys
  have hmem := QMap.value_mem hv
  have hkeys : (s.removeSeat re name).m_seats.map Prod.fst = k1 :: rest.map Prod.fst := by
    rw [← flagView_keys, hfv, flagView_keys]; rfl
  have hsub : ((k1, seat1) :: rest).Sublist s.m_seats := hrem ▸ QMap.remove_sublist _ _
  have hrest : ∀ e ∈ rest, e.2.isFallback = false := by
    intro e he
    by_contra hc
    have hes : e ∈ s.m_seats := hsub.subset (List.mem_cons_of_mem _ he)
    have hne : e.1 ≠ name := by
      have : e ∈ QMap.remove s.m_seats name := by rw [hrem]; exact List.mem_cons_of_mem _ he
      have := (List.mem_filter.mp this).2
      simpa using this
    have hone' : s.m_seats.countP (fun e => e.2.isFallback) ≤ 1 := by
      rw [List.countP_eq_length_filter]; exact hone
    have := countP_le_one_unique hone' hes hmem (by simpa using hc) hflag
    exact hne (by rw [this])
  have hsorted : ∀ e ∈ rest, QString.lt k1 e.1 := by
    have := hw.1.sublist hsub
    rw [List.pairwise_cons] at this
    exact this.1
  have hview : ∀ e ∈ (s.removeSeat re name).m_seats,
      (e.1 = k1 ∧ e.2.isFallback = true) ∨
      (QString.lt k1 e.1 ∧ e.2.isFallback = false) := by
    intro e he
    have : (e.1, e.2.isFallback) ∈ flagView (s.removeSeat re name).m_seats :=
      List.mem_map.mpr ⟨e, he, rfl⟩
    rw [hfv] at this
    simp only [flagView, List.map_cons, List.mem_cons, Prod.mk.injEq, List.mem_map] at this
    rcases this with ⟨h1, h2⟩ | ⟨e0, he0, h1, h2⟩
    · exact Or.inl ⟨h1, by simpa [WSeat.setIsFallback] using h2⟩
    · right
      rw [← h1, ← h2]
      exact ⟨hsorted e0 he0, hrest e0 he0⟩
  have hhead : ∃ e ∈ (s.removeSeat re name).m_seats, e.1 = k1 ∧ e.2.isFallback = true := by
    have : (k1, true) ∈ flagView (s.removeSeat re name).m_seats := by
      rw [hfv]; simp [flagView, WSeat.setIsFallback]
    obtain ⟨e, he, heq⟩ := List.mem_map.mp this
    simp only [Prod.mk.injEq] at heq
    exact ⟨e, he, heq.1, heq.2⟩
  have hiff : ∀ e ∈ (s.removeSeat re name).m_seats, e.2.isFallback = true ↔ e.1 = k1 := by
    intro e he
    rcases hview e he with ⟨h1, h2⟩ | ⟨h1, h2⟩
    · exact ⟨fun _ => h1, fun _ => h2⟩
    · constructor
      · intro h; rw [h2] at h; cases h
      · intro h; rw [h] at h1; exact absurd h1 (QString.not_lt_self _)
  refine ⟨hkeys, fun e he => ?_, hiff, ?_, ?_⟩
  · rcases hview e he with ⟨h1, _⟩ | ⟨h1, _⟩
    · exact Or.inl h1
    · exact Or.inr h1
  · refine fallbackCount_eq_one ⟨hn', fun e he hf => ?_⟩ ?_
    · rw [hfb]; exact (hiff e he).mp hf
    · obtain ⟨e, he, _, hf⟩ := hhead
      exact ⟨e, he, hf⟩
  · obtain ⟨e, he, hk, hf⟩ := hhead
    refine ⟨e.2, ?_, ?_, hf, ?_⟩
    · rw [WSeatManager.fallbackSeat, hfb, ← hk]
      exact QMap.value_of_mem hn' he
    · rw [← hk]; exact he
    · rw [hw'.2 e he, hk]

/-- Witness for C12: seat1 is the fallback seat and seat0 remains; after
`removeSeat("seat1")` seat0 is flagged and is the seat `fallbackSeat()` returns. -/
theorem removeSeat_promotes_first_remaining_witness :
    (WellFormed demoFallbackLast ∧ fallbackCount demoFallbackLast ≤ 1 ∧
      QMap.value demoFallbackLast.m_seats "seat1"
        = some { name := "seat1", isFallback := true, deviceList := [], outputs := [] } ∧
      QMap.remove demoFallbackLast.m_seats "seat1"
        = [("seat0", { name := "seat0", isFallback := false, deviceList := [],
                       outputs := [] })]) ∧
    fallbackCount (demoFallbackLast.removeSeat demoRegex "seat1") = 1 ∧
    (demoFallbackLast.removeSeat demoRegex "seat1").fallbackSeat
      = some { name := "seat0", isFallback := true, deviceList := [], outputs := [] } :=
  ⟨⟨by decide, by decide, by decide, by decide⟩,
    (removeSeat_promotes_first_remaining demoRegex demoFallbackLast "seat1"
      { name := "seat1", isFallback := true, deviceList := [], outputs := [] }
      (by decide) (by decide) (by decide) rfl "seat0"
      { name := "seat0", isFallback := false, deviceList := [], outputs := [] } []
      (by decide)).2.2.2.1,
    by decide⟩

/-! ### removeSeat by seat object -/

/-- C15: the code at the failing input. The seat created by `createSeat("", false)` is
held by the registry under the empty name; `removeSeat(seat)` with that seat object
leaves the state unchanged, whereas `removeSeat("")` removes the seat. -/
theorem removeSeatPtr_empty_name_not_removed :
    demoEmptyName.m_seats
      = [("", { name := "", isFallback := false, deviceList := [], outputs := [] })] ∧
    demoEmptyName.removeSeatPtr demoRegex (SeatPtr.owned "") = demoEmptyName ∧
    (demoEmptyName.removeSeat demoRegex "").m_seats = [] := by
  decide

theorem removeSeatPtr_named (re : RegexEngine) (s : WSeatManager) (key : String)
    (hk : key ∈ s.m_seats.map Prod.fst) (hne : key ≠ "") :
    s.removeSeatPtr re (SeatPtr.owned key) = s.removeSeat re key := by
  have hc : QMap.contains s.m_seats key = true := (QMap.contains_iff_mem_keys _ _).mpr hk
  have he : key.isEmpty = false := by
    rw [Bool.eq_false_iff]
    intro h
    exact hne ((String.isEmpty_iff key).mp h)
  simp [WSeatManager.removeSeatPtr, WSeatManager.seatNameOf, hc, he]

theorem removeSeatPtr_unmanaged (re : RegexEngine) (s : WSeatManager) :
    s.removeSeatPtr re SeatPtr.null = s ∧ s.removeSeatPtr re SeatPtr.foreign = s := by
  constructor
  · rfl
  · have he : ("" : String).isEmpty = true := by decide
    simp [WSeatManager.removeSeatPtr, WSeatManager.seatNameOf, he]

/-! ### Rule management -/

theorem QMap.value_insert_other {α : Type} (m : List (String × α)) (k k' : String) (v : α)
    (h : k' ≠ k) : QMap.value (QMap.insert m k v) k' = QMap.value m k' := by
  induction m with
  | nil => simp [QMap.insert, QMap.value, Ne.symm h]
  | cons e m ih =>
    obtain ⟨k0, v0⟩ := e
    unfold QMap.insert
    split_ifs with h1 h2
    · simp [QMap.value, Ne.symm h]
    · subst h2
      simp [QMap.value, Ne.symm h]
    · by_cases h0 : k0 = k' <;> simp [QMap.value, h0, ih]

theorem deviceRules_eq_value (s : WSeatManager) (n : String) :
    s.deviceRules n = (QMap.value s.m_deviceRules n).getD [] := by
  unfold WSeatManager.deviceRules
  rw [QMap.contains_eq_isSome]
  cases QMap.value s.m_deviceRules n <;> simp

theorem addDeviceRule_accepted (re : RegexEngine) (s : WSeatManager) (seatName rule : String)
    (h : addDeviceRuleRejected re s seatName rule = false) :
    s.addDeviceRule re seatName rule =
      { s with m_deviceRules := QMap.modify (if !QMap.contains s.m_deviceRules seatName then QMap.insert s.m_deviceRules seatName [] else s.m_deviceRules) seatName (fun rules => rules ++ [rule]) }
      := by
  simp only [addDeviceRuleRejected, Bool.or_eq_false_iff, Bool.not_eq_false',
    Bool.not_eq_eq_eq_not, Bool.not_true] at h
  obtain ⟨⟨⟨h1, h2⟩, h3⟩, h4⟩ := h
  unfold WSeatManager.addDeviceRule
  simp [h1, h2, h3, h4]

theorem addDeviceRule_rejected (re : RegexEngine) (s : WSeatManager) (seatName rule : String)
    (h : addDeviceRuleRejected re s seatName rule = true) :
    s.addDeviceRule re seatName rule = s := by
  unfold WSeatManager.addDeviceRule
  simp only [addDeviceRuleRejected, Bool.or_eq_true, Bool.not_eq_true'] at h
  rcases h with ((h | h) | h) | h <;> simp [h]

theorem deviceRules_addDeviceRule (re : RegexEngine) (s : WSeatManager)
    (seatName rule : String) (h : addDeviceRuleRejected re s seatName rule = false) (n : String) :
    (s.addDeviceRule re seatName rule).deviceRules n =
      if n = seatName then s.deviceRules n ++ [rule] else s.deviceRules n := by
  rw [addDeviceRule_accepted re s seatName rule h, deviceRules_eq_value, deviceRules_eq_value]
  simp only
  rw [QMap.value_modify]
  by_cases hn : n = seatName
  · subst hn
    simp only [if_true]
    by_cases hc : QMap.contains s.m_deviceRules n = true
    · simp only [hc, Bool.not_true, Bool.false_eq_true, if_false]
      rw [QMap.contains_eq_isSome] at hc
      obtain ⟨l, hl⟩ := Option.isSome_iff_exists.mp hc
      simp [hl]
    · have hc' : QMap.contains s.m_deviceRules n = false := eq_false_of_ne_true hc
      simp only [hc', Bool.not_false, if_true, QMap.value_insert_self]
      rw [QMap.contains_eq_isSome] at hc'
      cases hv : QMap.value s.m_deviceRules n with
      | none => simp
      | some l => simp [hv] at hc'
  · simp only [hn, if_false]
    have : QMap.value (if (!QMap.contains s.m_deviceRules seatName) = true
        then QMap.insert s.m_deviceRules seatName [] else s.m_deviceRules) n
        = QMap.value s.m_deviceRules n := by
      split_ifs
      · exact QMap.value_insert_other _ _ _ _ hn
      · rfl
    rw [this]
    cases QMap.value s.m_deviceRules n <;> simp

/-- C16: addDeviceRule(seatName, pattern) is rejected and leaves the whole manager state
unchanged when seatName is empty, seatName names no seat of the registry, pattern
is empty, or pattern does not compile; in every other case it is accepted: the
pattern is added to the rules of seatName and the state changes. -/
theorem addDeviceRule_rejected_iff (re : RegexEngine) (s : WSeatManager)
    (seatName rule : String) :
    (addDeviceRuleRejected re s seatName rule = true → s.addDeviceRule re seatName rule = s) ∧
    (addDeviceRuleRejected re s seatName rule = false →
      (s.addDeviceRule re seatName rule).deviceRules seatName
        = s.deviceRules seatName ++ [rule] ∧
      s.addDeviceRule re seatName rule ≠ s) := by
  refine ⟨addDeviceRule_rejected re s seatName rule, fun h => ?_⟩
  have h1 := deviceRules_addDeviceRule re s seatName rule h seatName
  simp only [if_true] at h1
  refine ⟨h1, fun heq => ?_⟩
  rw [heq] at h1
  have := congrArg List.length h1
  simp at this

/-- Witness for C16: in the scenario of the spec a rule for the unknown seat "seat9" is
rejected, and the rule "^Wacom.*" for seat1 is accepted. -/
theorem addDeviceRule_rejected_iff_witness :
    (addDeviceRuleRejected demoRegex demoScenario "seat9" "^Wacom.*" = true ∧
      demoScenario.addDeviceRule demoRegex "seat9" "^Wacom.*" = demoScenario) ∧
    (addDeviceRuleRejected demoRegex demoScenario "seat1" "^Wacom.*" = false ∧
      (demoScenario.addDeviceRule demoRegex "seat1" "^Wacom.*").deviceRules "seat1"
        = demoScenario.deviceRules "seat1" ++ ["^Wacom.*"]) :=
  ⟨⟨by decide,
      (addDeviceRule_rejected_iff demoRegex demoScenario "seat9" "^Wacom.*").1 (by decide)⟩,
    ⟨by decide,
      ((addDeviceRule_rejected_iff demoRegex demoScenario "seat1" "^Wacom.*").2 (by decide)).1⟩⟩

/-- C17: for an existing seat name s (non-empty) and a non-empty valid pattern p, after
addDeviceRule(s, p) the list deviceRules(s) is the previous list with p appended at
the end, whether or not p occurs in it already, so its length grows by one; the
rules of every other seat name are unchanged. -/
theorem addDeviceRule_appends (re : RegexEngine) (s : WSeatManager) (seatName rule : String)
    (hs : seatName ∈ s.m_seats.map Prod.fst) (hne : seatName ≠ "") (hr : rule ≠ "")
    (hvalid : re.isValid rule = true) :
    (s.addDeviceRule re seatName rule).deviceRules seatName
      = s.deviceRules seatName ++ [rule] ∧
    ((s.addDeviceRule re seatName rule).deviceRules seatName).length
      = (s.deviceRules seatName).length + 1 ∧
    (∀ n, n ≠ seatName → (s.addDeviceRule re seatName rule).deviceRules n = s.deviceRules n) ∧
    (s.addDeviceRule re seatName rule).m_seats = s.m_seats ∧
    (s.addDeviceRule re seatName rule).m_fallbackSeatName = s.m_fallbackSeatName := by
  have h : addDeviceRuleRejected re s seatName rule = false := by
    have h1 : seatName.isEmpty = false := by
      rw [Bool.eq_false_iff]; exact fun h => hne ((String.isEmpty_iff seatName).mp h)
    have h2 : rule.isEmpty = false := by
      rw [Bool.eq_false_iff]; exact fun h => hr ((String.isEmpty_iff rule).mp h)
    have h3 : QMap.contains s.m_seats seatName = true :=
      (QMap.contains_iff_mem_keys _ _).mpr hs
    simp [addDeviceRuleRejected, h1, h2, h3, hvalid]
  have h1 := deviceRules_addDeviceRule re s seatName rule h
  have h2 := h1 seatName
  simp only [if_true] at h2
  refine ⟨h2, by rw [h2]; simp, fun n hn => ?_, (addDeviceRule_seats re s seatName rule).1,
    (addDeviceRule_seats re s seatName rule).2⟩
  rw [h1 n]; simp [hn]

/-- Witness for C17: seat1 has the rule "^Logitech.*"; adding the same pattern again
gives the list with the pattern twice. -/
theorem addDeviceRule_appends_witness :
    ("seat1" ∈ demoScenario.m_seats.map Prod.fst ∧ demoRegex.isValid "^Logitech.*" = true) ∧
    (demoScenario.addDeviceRule demoRegex "seat1" "^Logitech.*").deviceRules "seat1"
      = demoScenario.deviceRules "seat1" ++ ["^Logitech.*"] ∧
    (demoScenario.addDeviceRule demoRegex "seat1" "^Logitech.*").deviceRules "seat1"
      = ["^Logitech.*", "^Logitech.*"] :=
  ⟨⟨by decide, by decide⟩,
    (addDeviceRule_appends demoRegex demoScenario "seat1" "^Logitech.*" (by decide) (by decide)
      (by decide) (by decide)).1,
    by decide⟩

theorem QMap.value_remove_self {α : Type} (m : List (String × α)) (k : String) :
    QMap.value (QMap.remove m k) k = none := by
  rw [QMap.value_eq_none_iff]
  intro h
  obtain ⟨e, he, hk⟩ := List.mem_map.mp h
  have := (List.mem_filter.mp he).2
  simp [hk] at this

theorem QMap.value_remove_other {α : Type} (m : List (String × α)) (k n : String)
    (h : n ≠ k) : QMap.value (QMap.remove m k) n = QMap.value m n := by
  induction m with
  | nil => rfl
  | cons e m ih =>
    obtain ⟨k0, v⟩ := e
    unfold QMap.remove at ih ⊢
    rw [List.filter_cons]
    by_cases h0 : k0 = k
    · subst h0
      simp [QMap.value, Ne.symm h, ih]
    · by_cases h1 : k0 = n
      · subst h1
        simp [QMap.value, h]
      · simp [QMap.value, h0, h1, ih]

theorem QMap.modify_eq_self {α : Type} (m : List (String × α)) (k : String) (f : α → α)
    (h : ∀ e ∈ m, e.1 = k → f e.2 = e.2) : QMap.modify m k f = m := by
  induction m with
  | nil => rfl
  | cons e m ih =>
    obtain ⟨k0, v⟩ := e
    rw [QMap.modify_cons, ih (fun e he => h e (List.mem_cons_of_mem _ he))]
    by_cases hk : k0 = k
    · have := h (k0, v) (List.mem_cons_self _ _) hk
      simp only at this
      simp [hk, this]
    · simp [hk]

theorem removeDeviceRule_noop (re : RegexEngine) (s : WSeatManager) (seatName rule : String)
    (h : QMap.contains s.m_deviceRules seatName = false ∨ re.isValid rule = false) :
    s.removeDeviceRule re seatName rule = s := by
  unfold WSeatManager.removeDeviceRule
  rcases h with h | h <;> simp [h]

theorem removeDeviceRule_valid (re : RegexEngine) (s : WSeatManager) (seatName rule : String)
    (hc : QMap.contains s.m_deviceRules seatName = true) (hv : re.isValid rule = true) :
    (s.removeDeviceRule re seatName rule).m_deviceRules =
      if ((s.deviceRules seatName).erase rule).isEmpty
      then QMap.remove s.m_deviceRules seatName
      else QMap.modify s.m_deviceRules seatName (fun _ => (s.deviceRules seatName).erase rule)
    := by
  rw [deviceRules_eq_value]
  unfold WSeatManager.removeDeviceRule
  simp only [hc, hv, Bool.not_true, Bool.false_eq_true, if_false]
  split_ifs <;> rfl

theorem deviceRules_removeDeviceRule (re : RegexEngine) (s : WSeatManager)
    (seatName rule : String) (hv : re.isValid rule = true) (n : String) :
    (s.removeDeviceRule re seatName rule).deviceRules n =
      if n = seatName then (s.deviceRules n).erase rule else s.deviceRules n := by
  by_cases hc : QMap.contains s.m_deviceRules seatName = true
  · rw [deviceRules_eq_value, removeDeviceRule_valid re s seatName rule hc hv]
    by_cases hn : n = seatName
    · subst hn
      simp only [if_true]
      split_ifs with he
      · rw [QMap.value_remove_self]
        simp only [Option.getD_none]
        exact (List.isEmpty_iff.mp he).symm
      · rw [QMap.value_modify]
        rw [QMap.contains_eq_isSome] at hc
        obtain ⟨l, hl⟩ := Option.isSome_iff_exists.mp hc
        simp [hl]
    · simp only [hn, if_false]
      rw [deviceRules_eq_value s n]
      split_ifs
      · rw [QMap.value_remove_other _ _ _ hn]
      · rw [QMap.value_modify]
        cases QMap.value s.m_deviceRules n <;> simp [hn]
  · have hc' : QMap.contains s.m_deviceRules seatName = false := eq_false_of_ne_true hc
    rw [removeDeviceRule_noop re s seatName rule (Or.inl hc')]
    by_cases hn : n = seatName
    · subst hn
      have : s.deviceRules n = [] := by
        unfold WSeatManager.deviceRules; simp [hc']
      simp [this]
    · simp [hn]
theorem rulesWellFormed_nodupKeys {s : WSeatManager} (h : RulesWellFormed s) :
    NodupKeys s.m_deviceRules := by
  unfold NodupKeys List.Nodup
  rw [List.pairwise_map]
  refine h.1.imp ?_
  intro a b hab heq
  rw [heq] at hab
  exact QString.not_lt_self _ hab

theorem QMap.pairwise_modify {α : Type} {m : List (String × α)}
    (h : m.Pairwise (fun a b => QString.lt a.1 b.1)) (k : String) (f : α → α) :
    (QMap.modify m k f).Pairwise (fun a b => QString.lt a.1 b.1) := by
  have h1 : (m.map Prod.fst).Pairwise QString.lt := List.pairwise_map.mpr h
  rw [← QMap.keys_modify m k f] at h1
  exact List.pairwise_map.mp h1

theorem removeDeviceRule_rulesWellFormed (re : RegexEngine) (s : WSeatManager)
    (seatName rule : String) (h : RulesWellFormed s) :
    RulesWellFormed (s.removeDeviceRule re seatName rule) := by
  by_cases hc : QMap.contains s.m_deviceRules seatName = true
  · by_cases hv : re.isValid rule = true
    · unfold RulesWellFormed
      rw [removeDeviceRule_valid re s seatName rule hc hv]
      split_ifs with he
      · exact ⟨h.1.sublist (QMap.remove_sublist _ _),
          fun e hmem => h.2 e ((QMap.remove_sublist _ _).subset hmem)⟩
      · refine ⟨QMap.pairwise_modify h.1 _ _, fun e hmem => ?_⟩
        obtain ⟨e0, he0, rfl⟩ := List.mem_map.mp hmem
        split_ifs
        · simp only
          intro hnil
          exact he (by rw [hnil]; rfl)
        · exact h.2 e0 he0
    · rw [removeDeviceRule_noop re s seatName rule (Or.inr (eq_false_of_ne_true hv))]
      exact h
  · rw [removeDeviceRule_noop re s seatName rule (Or.inl (eq_false_of_ne_true hc))]
    exact h

/-- C18: for a valid pattern p, after removeDeviceRule(s, p) the list deviceRules(s) is
the previous list with only the first occurrence of p erased, and the rules of every
other name are unchanged; if p does not occur, p is invalid, or s has no rules, the
state is unchanged; when the list becomes empty the entry for s is removed from
the rule map, and the rule map again holds no name with an empty rule list. -/
theorem removeDeviceRule_erases_first (re : RegexEngine) (s : WSeatManager)
    (seatName rule : String) (hwf : RulesWellFormed s) :
    (re.isValid rule = true →
      (s.removeDeviceRule re seatName rule).deviceRules seatName
        = (s.deviceRules seatName).erase rule ∧
      ∀ n, n ≠ seatName → (s.removeDeviceRule re seatName rule).deviceRules n
        = s.deviceRules n) ∧
    ((rule ∉ s.deviceRules seatName ∨ re.isValid rule = false ∨ s.deviceRules seatName = []) →
      s.removeDeviceRule re seatName rule = s) ∧
    (re.isValid rule = true → (s.deviceRules seatName).erase rule = [] →
      QMap.contains (s.removeDeviceRule re seatName rule).m_deviceRules seatName = false) ∧
    RulesWellFormed (s.removeDeviceRule re seatName rule) := by
  refine ⟨fun hv => ⟨?_, fun n hn => ?_⟩, ?_, ?_, removeDeviceRule_rulesWellFormed re s _ _ hwf⟩
  · have := deviceRules_removeDeviceRule re s seatName rule hv seatName
    simpa using this
  · have := deviceRules_removeDeviceRule re s seatName rule hv n
    simpa [hn] using this
  · intro hcases
    by_cases hc : QMap.contains s.m_deviceRules seatName = true
    · by_cases hv : re.isValid rule = true
      · have hcv := hc
        rw [QMap.contains_eq_isSome] at hcv
        obtain ⟨l, hl⟩ := Option.isSome_iff_exists.mp hcv
        have hmem := QMap.value_mem hl
        have hlne : l ≠ [] := hwf.2 _ hmem
        have hdr : s.deviceRules seatName = l := by rw [deviceRules_eq_value, hl]; rfl
        have hnot : rule ∉ l := by
          rcases hcases with h | h | h
          · rw [hdr] at h; exact h
          · rw [hv] at h; cases h
          · rw [hdr] at h; exact absurd h hlne
        have hrules := removeDeviceRule_valid re s seatName rule hc hv
        rw [hdr, List.erase_of_not_mem hnot] at hrules
        have hne : l.isEmpty = false := by
          cases l with
          | nil => exact absurd rfl hlne
          | cons _ _ => rfl
        simp only [hne, Bool.false_eq_true, if_false] at hrules
        rw [QMap.modify_eq_self] at hrules
        · have hs := (removeDeviceRule_seats re s seatName rule)
          cases hres : s.removeDeviceRule re seatName rule with
          | mk a b c =>
            rw [hres] at hrules hs
            simp only at hrules hs
            cases s
            simp only at hrules hs
            rw [hrules, hs.1, hs.2]
        · intro e he hk
          have := NodupKeys.eq_of_mem (rulesWellFormed_nodupKeys hwf) he hmem hk
          rw [this]
      · exact removeDeviceRule_noop re s seatName rule (Or.inr (eq_false_of_ne_true hv))
    · exact removeDeviceRule_noop re s seatName rule (Or.inl (eq_false_of_ne_true hc))
  · intro hv he
    by_cases hc : QMap.contains s.m_deviceRules seatName = true
    · rw [removeDeviceRule_valid re s seatName rule hc hv, he]
      simp only [List.isEmpty_nil, if_true]
      rw [QMap.contains_eq_isSome, QMap.value_remove_self]; rfl
    · rw [removeDeviceRule_noop re s seatName rule (Or.inl (eq_false_of_ne_true hc))]
      exact eq_false_of_ne_true hc

/-- Witness for C18: seat1 has the rules "^Logitech.*", "^Wacom.*", "^Logitech.*";
removing "^Logitech.*" erases the first one only. -/
theorem removeDeviceRule_erases_first_witness :
    (RulesWellFormed demoRepeatedRule ∧ demoRegex.isValid "^Logitech.*" = true ∧
      demoRepeatedRule.deviceRules "seat1" = ["^Logitech.*", "^Wacom.*", "^Logitech.*"]) ∧
    (demoRepeatedRule.removeDeviceRule demoRegex "seat1" "^Logitech.*").deviceRules "seat1"
      = (demoRepeatedRule.deviceRules "seat1").erase "^Logitech.*" ∧
    (demoRepeatedRule.removeDeviceRule demoRegex "seat1" "^Logitech.*").deviceRules "seat1"
      = ["^Wacom.*", "^Logitech.*"] :=
  ⟨⟨by decide, by decide, by decide⟩,
    ((removeDeviceRule_erases_first demoRegex demoRepeatedRule "seat1" "^Logitech.*"
      (by decide)).1 (by decide)).1,
    by decide⟩
theorem rulesWellFormed_of_rules {s s' : WSeatManager}
    (h : s'.m_deviceRules = s.m_deviceRules) (hw : RulesWellFormed s) : RulesWellFormed s' := by
  unfold RulesWellFormed at *
  rw [h]; exact hw

theorem addDeviceRule_rulesWellFormed (re : RegexEngine) (s : WSeatManager)
    (seatName rule : String) (h : RulesWellFormed s) :
    RulesWellFormed (s.addDeviceRule re seatName rule) := by
  by_cases hr : addDeviceRuleRejected re s seatName rule = true
  · rw [addDeviceRule_rejected re s seatName rule hr]; exact h
  · rw [addDeviceRule_accepted re s seatName rule (eq_false_of_ne_true hr)]
    have h0 : (if (!QMap.contains s.m_deviceRules seatName) = true
        then QMap.insert s.m_deviceRules seatName [] else s.m_deviceRules).Pairwise
          (fun a b => QString.lt a.1 b.1) ∧
        ∀ e ∈ (if (!QMap.contains s.m_deviceRules seatName) = true
          then QMap.insert s.m_deviceRules seatName [] else s.m_deviceRules),
          e.1 ≠ seatName → e.2 ≠ [] := by
      split_ifs
      · refine ⟨QMap.pairwise_insert h.1 _ _, fun e he hk => ?_⟩
        rcases QMap.mem_insert he with rfl | he
        · exact absurd rfl hk
        · exact h.2 e he
      · exact ⟨h.1, fun e he _ => h.2 e he⟩
    refine ⟨QMap.pairwise_modify h0.1 seatName (fun rules => rules ++ [rule]),
      fun e hmem => ?_⟩
    obtain ⟨e0, he0, rfl⟩ := List.mem_map.mp hmem
    split_ifs with hk
    · simp
    · exact h0.2 e0 he0 hk

theorem createSeat_rules (s : WSeatManager) (name : String) (isFallback : Bool) :
    (s.createSeat name isFallback).2.m_deviceRules = s.m_deviceRules := by
  unfold WSeatManager.createSeat
  split_ifs <;> rfl

theorem promoteFirst_rules (s : WSeatManager) :
    s.promoteFirst.m_deviceRules = s.m_deviceRules := by
  unfold WSeatManager.promoteFirst
  cases s.m_seats <;> rfl

theorem healFallback_rules (s : WSeatManager) :
    (if s.fallbackSeat.isNone && !s.m_seats.isEmpty then s.promoteFirst else s).m_deviceRules
      = s.m_deviceRules := by
  split_ifs
  · exact promoteFirst_rules s
  · rfl

theorem loadConfig_rulesWellFormed (re : RegexEngine) (s : WSeatManager)
    (config : List (String × QJsonValue)) : RulesWellFormed (s.loadConfig re config) := by
  unfold WSeatManager.loadConfig
  simp only
  refine rulesWellFormed_of_rules (healFallback_rules _) ?_
  have h0 : RulesWellFormed { s with m_seats := [], m_deviceRules := [] } := by
    simp [RulesWellFormed]
  have hrules : ∀ (name : String) (rs : List QJsonValue) (st : WSeatManager),
      RulesWellFormed st → RulesWellFormed
        (rs.foldl (fun acc ruleValue => acc.addDeviceRule re name ruleValue.toString) st) := by
    intro name rs
    induction rs with
    | nil => exact fun _ h => h
    | cons r rs ih => exact fun st h => ih _ (addDeviceRule_rulesWellFormed re st _ _ h)
  have hseats : ∀ (vs : List QJsonValue) (st : WSeatManager), RulesWellFormed st →
      RulesWellFormed (vs.foldl (WSeatManager.loadSeatEntry re) st) := by
    intro vs
    induction vs with
    | nil => exact fun _ h => h
    | cons v vs ih =>
      intro st h
      refine ih _ ?_
      unfold WSeatManager.loadSeatEntry
      simp only
      exact hrules _ _ _ (rulesWellFormed_of_rules (createSeat_rules st _ _) h)
  split_ifs
  · exact rulesWellFormed_of_rules (createSeat_rules _ _ _) (hseats _ _ h0)
  · exact hseats _ _ h0

theorem Call.apply_rulesWellFormed (re : RegexEngine) (s : WSeatManager) (c : Call)
    (h : RulesWellFormed s) : RulesWellFormed (c.apply re s) := by
  cases c with
  | createSeat name isFallback => exact rulesWellFormed_of_rules (createSeat_rules s _ _) h
  | removeSeat name => exact rulesWellFormed_of_rules (removeSeat_views re s name).2.2 h
  | removeSeatPtr seat =>
    simp only [Call.apply, WSeatManager.removeSeatPtr]
    cases seat with
    | null => exact h
    | owned key =>
      simp only
      split_ifs
      · exact rulesWellFormed_of_rules (removeSeat_views re s _).2.2 h
      · exact h
    | foreign =>
      simp only
      split_ifs
      · exact rulesWellFormed_of_rules (removeSeat_views re s _).2.2 h
      · exact h
  | assignDeviceToSeat device seatName =>
    exact rulesWellFormed_of_rules (assignDeviceToSeat_flagView s device seatName).2.2 h
  | autoAssignDevice device =>
    exact rulesWellFormed_of_rules (autoAssignDevice_flagView re s device).2.2 h
  | assignOutputToSeat output seatName =>
    exact rulesWellFormed_of_rules (assignOutputToSeat_flagView s output seatName).2.2 h
  | addDeviceRule seatName rule => exact addDeviceRule_rulesWellFormed re s seatName rule h
  | removeDeviceRule seatName rule =>
    exact removeDeviceRule_rulesWellFormed re s seatName rule h
  | loadConfig config => exact loadConfig_rulesWellFormed re s config
  | create server =>
    cases server with
    | none => exact h
    | some _ => exact rulesWellFormed_of_rules (healFallback_rules s) h
  | destroy server => simp [Call.apply, WSeatManager.destroy, RulesWellFormed]

/-- In every state that a sequence of calls produces from a freshly constructed manager
the rule map has ascending keys and holds no seat name with an empty rule list. -/
theorem runCalls_rulesWellFormed (re : RegexEngine) (calls : List Call) :
    RulesWellFormed (runCalls re WSeatManager.init calls) := by
  have h : ∀ (cs : List Call) (s : WSeatManager), RulesWellFormed s →
      RulesWellFormed (runCalls re s cs) := by
    intro cs
    induction cs with
    | nil => exact fun _ h => h
    | cons c cs ih => exact fun s h => ih _ (Call.apply_rulesWellFormed re s c h)
  exact h calls _ (by simp [RulesWellFormed, WSeatManager.init])
/-- C19, as stated, fails: seat1 has the rule "^Logitech.*" already; after
`addDeviceRule("seat1", "^Logitech.*")` followed by
`removeDeviceRule("seat1", "^Logitech.*")` the list deviceRules("seat1") still
contains the pattern. -/
theorem add_then_remove_keeps_earlier_rule :
    "seat1" ∈ demoScenario.m_seats.map Prod.fst ∧
    addDeviceRuleRejected demoRegex demoScenario "seat1" "^Logitech.*" = false ∧
    "^Logitech.*" ∈
      ((demoScenario.addDeviceRule demoRegex "seat1" "^Logitech.*").removeDeviceRule demoRegex
        "seat1" "^Logitech.*").deviceRules "seat1" := by
  decide

/-- C19, amended: for an existing seat name s and a pattern p accepted by addDeviceRule
that does not occur in deviceRules(s), after addDeviceRule(s, p) followed by
removeDeviceRule(s, p) the list deviceRules(s) is what it was before the two calls
and so does not contain p; and if s had no rule before, deviceRules(s) is empty and
the rule map has no entry for s at all. -/
theorem add_then_remove_new_rule (re : RegexEngine) (s : WSeatManager)
    (seatName rule : String) (hacc : addDeviceRuleRejected re s seatName rule = false)
    (hnew : rule ∉ s.deviceRules seatName) :
    ((s.addDeviceRule re seatName rule).removeDeviceRule re seatName rule).deviceRules seatName
      = s.deviceRules seatName ∧
    rule ∉ ((s.addDeviceRule re seatName rule).removeDeviceRule re seatName rule).deviceRules
      seatName ∧
    (s.deviceRules seatName = [] →
      ((s.addDeviceRule re seatName rule).removeDeviceRule re seatName rule).deviceRules
        seatName = [] ∧
      QMap.contains
        ((s.addDeviceRule re seatName rule).removeDeviceRule re seatName rule).m_deviceRules
        seatName = false) := by
  have hv : re.isValid rule = true := by
    simp only [addDeviceRuleRejected, Bool.or_eq_false_iff, Bool.not_eq_false',
      Bool.not_eq_eq_eq_not, Bool.not_true] at hacc
    simpa using hacc.2
  have hadd := deviceRules_addDeviceRule re s seatName rule hacc seatName
  simp only [if_true] at hadd
  have hrem := deviceRules_removeDeviceRule re (s.addDeviceRule re seatName rule) seatName rule
    hv seatName
  simp only [if_true] at hrem
  have herase : (s.deviceRules seatName ++ [rule]).erase rule = s.deviceRules seatName := by
    rw [List.erase_append_right _ hnew]
    simp
  rw [hadd, herase] at hrem
  refine ⟨hrem, by rw [hrem]; exact hnew, fun hempty => ⟨by rw [hrem]; exact hempty, ?_⟩⟩
  have hc : QMap.contains (s.addDeviceRule re seatName rule).m_deviceRules seatName = true := by
    by_contra hc
    have : (s.addDeviceRule re seatName rule).deviceRules seatName = [] := by
      unfold WSeatManager.deviceRules
      simp [eq_false_of_ne_true hc]
    rw [hadd] at this
    simp at this
  rw [removeDeviceRule_valid re _ seatName rule hc hv, hadd, herase, hempty]
  simp only [List.isEmpty_nil, if_true]
  rw [QMap.contains_eq_isSome, QMap.value_remove_self]; rfl

/-- Witness for C19 (amended): seat0 of the scenario of the spec has no rule; adding and
removing "^Never.*" leaves it without a rule and without an entry in the rule map. -/
theorem add_then_remove_new_rule_witness :
    (addDeviceRuleRejected demoRegex demoScenario "seat0" "^Never.*" = false ∧
      "^Never.*" ∉ demoScenario.deviceRules "seat0" ∧ demoScenario.deviceRules "seat0" = []) ∧
    ((demoScenario.addDeviceRule demoRegex "seat0" "^Never.*").removeDeviceRule demoRegex
      "seat0" "^Never.*").deviceRules "seat0" = [] ∧
    QMap.contains
      ((demoScenario.addDeviceRule demoRegex "seat0" "^Never.*").removeDeviceRule demoRegex
        "seat0" "^Never.*").m_deviceRules "seat0" = false :=
  ⟨⟨by decide, by decide, by decide⟩,
    (add_then_remove_new_rule demoRegex demoScenario "seat0" "^Never.*" (by decide)
      (by decide)).2.2 (by decide)⟩

/-! ### Output assignment mirrors device assignment -/

theorem WOutput.asDevice_injective : Function.Injective WOutput.asDevice := by
  intro a b h
  cases a; cases b
  simp only [WOutput.asDevice, WInputDevice.mk.injEq] at h
  simp [h.1, h.2]

theorem WSeat.swapped_contains (seat : WSeat) (o : WOutput) :
    seat.swapped.deviceList.contains o.asDevice = seat.outputs.contains o := by
  have h : o.asDevice ∈ seat.outputs.map WOutput.asDevice ↔ o ∈ seat.outputs := by
    rw [List.mem_map]
    constructor
    · rintro ⟨x, hx, hxo⟩
      rw [← WOutput.asDevice_injective hxo]; exact hx
    · exact fun h => ⟨o, h, rfl⟩
  rw [Bool.eq_iff_iff]
  simpa [WSeat.swapped] using h

theorem WSeat.swapped_attachOutput (seat : WSeat) (o : WOutput) :
    (seat.attachOutput o).swapped = seat.swapped.attachInputDevice o.asDevice := by
  unfold WSeat.attachOutput WSeat.attachInputDevice
  rw [WSeat.swapped_contains]
  split_ifs
  · rfl
  · simp [WSeat.swapped]

theorem WSeat.swapped_detachOutput (seat : WSeat) (o : WOutput) :
    (seat.detachOutput o).swapped = seat.swapped.detachInputDevice o.asDevice := by
  simp only [WSeat.detachOutput, WSeat.detachInputDevice, WSeat.swapped, List.filter_map,
    WSeat.mk.injEq, true_and, and_true]
  congr 1
  apply List.filter_congr
  intro x _
  simp only [Function.comp, Bool.not_eq_eq_eq_not, Bool.not_not, decide_eq_decide]
  exact ⟨fun h => by rw [h], fun h => WOutput.asDevice_injective h⟩

theorem swapped_detachLoop (o : WOutput) (seatName : String) (m : List (String × WSeat)) :
    WSeatManager.detachDeviceLoop o.asDevice seatName (m.map (fun e => (e.1, e.2.swapped)))
      = (WSeatManager.detachOutputLoop o seatName m).map
          (fun r => r.map (fun e => (e.1, e.2.swapped))) := by
  induction m with
  | nil => rfl
  | cons e m ih =>
    obtain ⟨k, seat⟩ := e
    simp only [List.map_cons]
    unfold WSeatManager.detachDeviceLoop WSeatManager.detachOutputLoop
    rw [WSeat.swapped_contains]
    have hname : seat.swapped.name = seat.name := rfl
    rw [hname]
    split_ifs
    · rfl
    · simp [WSeat.swapped_detachOutput]
    · rw [ih]
      cases WSeatManager.detachOutputLoop o seatName m <;> rfl

theorem swapped_modify (m : List (String × WSeat)) (k : String) (f g : WSeat → WSeat)
    (h : ∀ seat, (f seat).swapped = g seat.swapped) :
    (QMap.modify m k f).map (fun e => (e.1, e.2.swapped))
      = QMap.modify (m.map (fun e => (e.1, e.2.swapped))) k g := by
  induction m with
  | nil => rfl
  | cons e m ih =>
    obtain ⟨k0, seat⟩ := e
    rw [QMap.modify_cons, List.map_cons, List.map_cons, QMap.modify_cons, ih]
    split_ifs <;> simp [h]

theorem swapped_keys (m : List (String × WSeat)) :
    (m.map (fun e => (e.1, e.2.swapped))).map Prod.fst = m.map Prod.fst := by
  simp [List.map_map, Function.comp_def]

/-- C20: assignOutputToSeat mirrors assignDeviceToSeat. Under the correspondence that
swaps the device list and the output list of every seat, the state after
assignOutputToSeat(o, s) corresponds to the state after assignDeviceToSeat(o, s) on
the corresponding state; a null output changes nothing; and the rule map is neither
changed nor consulted: the call commutes with every replacement of the rule map. -/
theorem assignOutputToSeat_mirrors_assignDeviceToSeat (s : WSeatManager) (o : WOutput)
    (seatName : String) :
    (s.assignOutputToSeat (some o) seatName).swapped
      = s.swapped.assignDeviceToSeat (some o.asDevice) seatName ∧
    s.assignOutputToSeat none seatName = s ∧
    (s.assignOutputToSeat (some o) seatName).m_deviceRules = s.m_deviceRules ∧
    (∀ rules : List (String × List String),
      WSeatManager.assignOutputToSeat { s with m_deviceRules := rules } (some o) seatName
        = { s.assignOutputToSeat (some o) seatName with m_deviceRules := rules }) := by
  refine ⟨?_, rfl, (assignOutputToSeat_flagView s (some o) seatName).2.2, fun rules => ?_⟩
  · unfold WSeatManager.assignOutputToSeat WSeatManager.assignDeviceToSeat
    simp only [WSeatManager.swapped]
    rw [swapped_detachLoop]
    cases hl : WSeatManager.detachOutputLoop o seatName s.m_seats with
    | none => rfl
    | some m =>
      simp only [Option.map_some']
      have hc : ∀ k, QMap.contains (m.map (fun e => (e.1, e.2.swapped))) k
          = QMap.contains m k := fun k => QMap.contains_congr_keys (swapped_keys m) k
      have hf : (WSeatManager.fallbackSeat
          { s with m_seats := m.map (fun e => (e.1, e.2.swapped)) }).isSome
          = (WSeatManager.fallbackSeat { s with m_seats := m }).isSome := by
        simp only [WSeatManager.fallbackSeat]
        rw [← QMap.contains_eq_isSome, ← QMap.contains_eq_isSome]
        exact hc _
      rw [hc, hf]
      split_ifs
      · simp only [WSeatManager.mk.injEq, and_true, true_and]
        exact swapped_modify _ _ _ _ (fun seat => seat.swapped_attachOutput o)
      · simp only [WSeatManager.mk.injEq, and_true, true_and]
        exact swapped_modify _ _ _ _ (fun seat => seat.swapped_attachOutput o)
      · rfl
  · unfold WSeatManager.assignOutputToSeat
    simp only
    cases WSeatManager.detachOutputLoop o seatName s.m_seats with
    | none => rfl
    | some m =>
      simp only [WSeatManager.fallbackSeat]
      split_ifs <;> rfl

/-! ### Redistribution of the devices of a removed seat -/

theorem hasMatchingRule_congr (re : RegexEngine) {s s' : WSeatManager}
    (h : s'.m_deviceRules = s.m_deviceRules) (seat : WSeat) (d : WInputDevice) :
    hasMatchingRule re s' seat d = hasMatchingRule re s seat d := by
  unfold hasMatchingRule WSeatManager.deviceRules
  rw [h]

theorem find?_congr_flagView (Q : Bool → String → Bool) (m m' : List (String × WSeat))
    (hv : flagView m' = flagView m) (hn : ∀ e ∈ m, e.2.name = e.1)
    (hn' : ∀ e ∈ m', e.2.name = e.1) :
    (m'.find? (fun e => Q e.2.isFallback e.2.name)).map (fun e => e.2.name)
      = (m.find? (fun e => Q e.2.isFallback e.2.name)).map (fun e => e.2.name) := by
  induction m generalizing m' with
  | nil =>
    cases m' with
    | nil => rfl
    | cons b m1 => simp [flagView] at hv
  | cons a m1 ih =>
    cases m' with
    | nil => simp [flagView] at hv
    | cons b m1' =>
      simp only [flagView, List.map_cons, List.cons.injEq, Prod.mk.injEq] at hv
      obtain ⟨⟨hk, hf⟩, hrest⟩ := hv
      have hna := hn a (List.mem_cons_self _ _)
      have hnb := hn' b (List.mem_cons_self _ _)
      have hname : b.2.name = a.2.name := by rw [hna, hnb, hk]
      rw [List.find?_cons, List.find?_cons, hf, hname]
      cases Q a.2.isFallback a.2.name with
      | true => simp [hname]
      | false =>
        exact ih m1' hrest (fun e he => hn e (List.mem_cons_of_mem _ he))
          (fun e he => hn' e (List.mem_cons_of_mem _ he))

theorem fallbackSeat_map_name (s : WSeatManager) (hw : WellFormed s) :
    s.fallbackSeat.map WSeat.name =
      if QMap.contains s.m_seats s.m_fallbackSeatName then some s.m_fallbackSeatName
      else none := by
  rw [QMap.contains_eq_isSome]
  unfold WSeatManager.fallbackSeat
  cases hv : QMap.value s.m_seats s.m_fallbackSeatName with
  | none => rfl
  | some fb =>
    have := hw.2 _ (QMap.value_mem hv)
    simp only at this
    simp [this]

theorem flagView_contains {m m' : List (String × WSeat)} (hv : flagView m' = flagView m)
    (k : String) : QMap.contains m' k = QMap.contains m k :=
  QMap.contains_congr_keys (by rw [← flagView_keys, hv, flagView_keys]) k

/-- The seat that findSeatForDevice selects for an unattached device depends, by name,
only on keys, flags, rules and the recorded fallback name. -/
theorem findSeatForDevice_name_congr (re : RegexEngine) (s s' : WSeatManager)
    (d : WInputDevice) (hw : WellFormed s) (hw' : WellFormed s')
    (hv : flagView s'.m_seats = flagView s.m_seats)
    (hr : s'.m_deviceRules = s.m_deviceRules)
    (hf : s'.m_fallbackSeatName = s.m_fallbackSeatName)
    (hno : ∀ e ∈ s.m_seats, e.2.deviceList.contains d = false)
    (hno' : ∀ e ∈ s'.m_seats, e.2.deviceList.contains d = false) :
    (s'.findSeatForDevice re (some d)).map WSeat.name
      = (s.findSeatForDevice re (some d)).map WSeat.name := by
  rw [findSeatForDevice_unattached re s d hno, findSeatForDevice_unattached re s' d hno']
  have hP : (fun e : String × WSeat => !e.2.isFallback && hasMatchingRule re s' e.2 d)
      = (fun e : String × WSeat => !e.2.isFallback && hasMatchingRule re s e.2 d) := by
    funext e
    rw [hasMatchingRule_congr re hr]
  rw [hP]
  have hfind := find?_congr_flagView
    (fun flag n => !flag && (s.deviceRules n).any (fun p => re.hasMatch p d.name))
    s.m_seats s'.m_seats hv hw.2 hw'.2
  have hfb : s'.fallbackSeat.map WSeat.name = s.fallbackSeat.map WSeat.name := by
    rw [fallbackSeat_map_name s hw, fallbackSeat_map_name s' hw', hf, flagView_contains hv]
  change (s'.m_seats.find? (fun e => !e.2.isFallback && hasMatchingRule re s e.2 d)).map
      (fun e => e.2.name)
    = (s.m_seats.find? (fun e => !e.2.isFallback && hasMatchingRule re s e.2 d)).map
      (fun e => e.2.name) at hfind
  cases h1 : s.m_seats.find? (fun e => !e.2.isFallback && hasMatchingRule re s e.2 d) with
  | some e =>
    rw [h1] at hfind
    cases h2 : s'.m_seats.find? (fun e => !e.2.isFallback && hasMatchingRule re s e.2 d) with
    | some e' =>
      rw [h2] at hfind
      simpa using hfind
    | none => rw [h2] at hfind; simp at hfind
  | none =>
    rw [h1] at hfind
    cases h2 : s'.m_seats.find? (fun e => !e.2.isFallback && hasMatchingRule re s e.2 d) with
    | some e' => rw [h2] at hfind; simp at hfind
    | none => exact hfb
theorem findSeatForDevice_none_fallback (re : RegexEngine) (s : WSeatManager) (d : WInputDevice)
    (hno : ∀ e ∈ s.m_seats, e.2.deviceList.contains d = false)
    (h : s.findSeatForDevice re (some d) = none) : s.fallbackSeat = none := by
  rw [findSeatForDevice_unattached re s d hno] at h
  cases hf : s.m_seats.find? (fun e => !e.2.isFallback && hasMatchingRule re s e.2 d) with
  | some e => rw [hf] at h; cases h
  | none => rw [hf] at h; exact h

theorem removeSeatDeviceStep_cases (re : RegexEngine) (st : WSeatManager) (x : WInputDevice) :
    WSeatManager.removeSeatDeviceStep re st x = st ∨
    ∃ k, WSeatManager.removeSeatDeviceStep re st x =
      { st with m_seats := QMap.modify st.m_seats k (fun seat => seat.attachInputDevice x) } := by
  unfold WSeatManager.removeSeatDeviceStep
  split_ifs
  · rcases autoAssignDevice_cases re st x with h | ⟨_, k, h⟩
    · exact Or.inl h
    · exact Or.inr ⟨k, h⟩
  · exact Or.inl rfl

theorem removeSeatDeviceStep_unattached (re : RegexEngine) (st : WSeatManager)
    (d : WInputDevice) (hno : ∀ e ∈ st.m_seats, e.2.deviceList.contains d = false) :
    WSeatManager.removeSeatDeviceStep re st d =
      match st.findSeatForDevice re (some d) with
      | some t =>
        { st with m_seats := QMap.modify st.m_seats t.name (fun seat => seat.attachInputDevice d) }
      | none => st := by
  unfold WSeatManager.removeSeatDeviceStep
  cases hm : st.m_seats with
  | nil =>
    have : st.findSeatForDevice re (some d) = none := by
      rw [findSeatForDevice_unattached re st d hno]
      simp [hm, WSeatManager.fallbackSeat, QMap.value]
    simp [this]
  | cons a m =>
    simp only [List.isEmpty_cons, Bool.not_false, if_true]
    cases hf : st.findSeatForDevice re (some d) with
    | some t => rw [autoAssignDevice_unattached re st d hno t hf, hm]
    | none =>
      rw [autoAssignDevice_no_target re st d hno hf
        (findSeatForDevice_none_fallback re st d hno hf)]

theorem removeSeatDeviceStep_attached (re : RegexEngine) (st : WSeatManager)
    (d : WInputDevice) (h : ∃ e ∈ st.m_seats, d ∈ e.2.deviceList) :
    WSeatManager.removeSeatDeviceStep re st d = st := by
  unfold WSeatManager.removeSeatDeviceStep
  split_ifs
  · rw [autoAssignDevice_attached re st d h]
  · rfl

theorem modify_attach_holders (m : List (String × WSeat)) (k : String) (x d : WInputDevice)
    (e' : String × WSeat)
    (he' : e' ∈ QMap.modify m k (fun seat => seat.attachInputDevice x)) :
    ∃ e ∈ m, e'.1 = e.1 ∧
      (d ∈ e'.2.deviceList ↔ d ∈ e.2.deviceList ∨ (d = x ∧ e.1 = k)) := by
  obtain ⟨e, he, rfl⟩ := List.mem_map.mp he'
  refine ⟨e, he, ?_⟩
  split_ifs with hk
  · refine ⟨rfl, ?_⟩
    simp only [WSeat.mem_attachInputDevice]
    constructor
    · rintro (h | h)
      · exact Or.inl h
      · exact Or.inr ⟨h, hk⟩
    · rintro (h | ⟨h, _⟩)
      · exact Or.inl h
      · exact Or.inr h
  · refine ⟨rfl, ?_⟩
    constructor
    · exact Or.inl
    · rintro (h | ⟨_, h⟩)
      · exact h
      · exact absurd h hk

theorem removeSeatDeviceStep_holders_other (re : RegexEngine) (st : WSeatManager)
    (x d : WInputDevice) (hne : x ≠ d)
    (e' : String × WSeat) (he' : e' ∈ (WSeatManager.removeSeatDeviceStep re st x).m_seats) :
    ∃ e ∈ st.m_seats, e'.1 = e.1 ∧ (d ∈ e'.2.deviceList ↔ d ∈ e.2.deviceList) := by
  rcases removeSeatDeviceStep_cases re st x with h | ⟨k, h⟩
  · rw [h] at he'
    exact ⟨e', he', rfl, Iff.rfl⟩
  · rw [h] at he'
    obtain ⟨e, he, hk, hiff⟩ := modify_attach_holders st.m_seats k x d e' he'
    refine ⟨e, he, hk, hiff.trans ?_⟩
    constructor
    · rintro (h1 | ⟨h1, _⟩)
      · exact h1
      · exact absurd h1.symm hne
    · exact Or.inl
theorem removeSeatDeviceStep_heldExactlyAt (re : RegexEngine) (s2 st : WSeatManager)
    (x d : WInputDevice) (hw2 : WellFormed s2) (hw : WellFormed st)
    (hv : flagView st.m_seats = flagView s2.m_seats)
    (hr : st.m_deviceRules = s2.m_deviceRules)
    (hf : st.m_fallbackSeatName = s2.m_fallbackSeatName)
    (hno2 : ∀ e ∈ s2.m_seats, e.2.deviceList.contains d = false) :
    (HeldExactlyAt st d ((s2.findSeatForDevice re (some d)).map WSeat.name) →
      HeldExactlyAt (WSeatManager.removeSeatDeviceStep re st x) d
        ((s2.findSeatForDevice re (some d)).map WSeat.name)) ∧
    ((∀ e ∈ st.m_seats, e.2.deviceList.contains d = false) → x ≠ d →
      ∀ e ∈ (WSeatManager.removeSeatDeviceStep re st x).m_seats,
        e.2.deviceList.contains d = false) ∧
    ((∀ e ∈ st.m_seats, e.2.deviceList.contains d = false) → x = d →
      HeldExactlyAt (WSeatManager.removeSeatDeviceStep re st x) d
        ((s2.findSeatForDevice re (some d)).map WSeat.name)) := by
  have hself : (∀ e ∈ st.m_seats, e.2.deviceList.contains d = false) →
      HeldExactlyAt (WSeatManager.removeSeatDeviceStep re st d) d
        ((s2.findSeatForDevice re (some d)).map WSeat.name) := by
    intro hno
    rw [← findSeatForDevice_name_congr re s2 st d hw2 hw hv hr hf hno2 hno,
      removeSeatDeviceStep_unattached re st d hno]
    cases hfind : st.findSeatForDevice re (some d) with
    | none =>
      intro e he
      have := hno e he
      simp only [Option.map_none']
      constructor
      · intro hd; simp [hd] at this
      · intro h; cases h
    | some t =>
      intro e' he'
      obtain ⟨e, he, hk, hiff⟩ := modify_attach_holders st.m_seats t.name d d e' he'
      have := hno e he
      simp only [Option.map_some']
      rw [hiff, hk]
      constructor
      · rintro (h | ⟨_, h⟩)
        · simp [h] at this
        · rw [h]
      · intro h
        exact Or.inr ⟨rfl, (Option.some.inj h).symm⟩
  refine ⟨fun hgood => ?_, fun hno hne e' he' => ?_, fun hno hx => hx ▸ hself hno⟩
  · by_cases hx : x = d
    · subst hx
      by_cases hatt : ∃ e ∈ st.m_seats, x ∈ e.2.deviceList
      · rw [removeSeatDeviceStep_attached re st x hatt]; exact hgood
      · refine hself (fun e he => ?_)
        by_contra hc
        exact hatt ⟨e, he, by simpa using hc⟩
    · intro e' he'
      obtain ⟨e, he, hk, hiff⟩ := removeSeatDeviceStep_holders_other re st x d hx e' he'
      rw [hiff, hk]
      exact hgood e he
  · obtain ⟨e, he, _, hiff⟩ := removeSeatDeviceStep_holders_other re st x d hne e' he'
    have := hno e he
    by_contra hc
    have hd : d ∈ e'.2.deviceList := by simpa using hc
    rw [hiff] at hd
    simp [hd] at this

theorem foldl_deviceStep_heldExactlyAt (re : RegexEngine) (s2 : WSeatManager)
    (d : WInputDevice) (hw2 : WellFormed s2)
    (hno2 : ∀ e ∈ s2.m_seats, e.2.deviceList.contains d = false)
    (ds : List WInputDevice) (st : WSeatManager) (hw : WellFormed st)
    (hv : flagView st.m_seats = flagView s2.m_seats)
    (hr : st.m_deviceRules = s2.m_deviceRules)
    (hf : st.m_fallbackSeatName = s2.m_fallbackSeatName) :
    (HeldExactlyAt st d ((s2.findSeatForDevice re (some d)).map WSeat.name) →
      HeldExactlyAt (ds.foldl (WSeatManager.removeSeatDeviceStep re) st) d
        ((s2.findSeatForDevice re (some d)).map WSeat.name)) ∧
    ((∀ e ∈ st.m_seats, e.2.deviceList.contains d = false) → d ∈ ds →
      HeldExactlyAt (ds.foldl (WSeatManager.removeSeatDeviceStep re) st) d
        ((s2.findSeatForDevice re (some d)).map WSeat.name)) := by
  induction ds generalizing st with
  | nil => exact ⟨fun h => h, fun _ hd => by cases hd⟩
  | cons x ds ih =>
    obtain ⟨s1, s2', s3⟩ := removeSeatDeviceStep_heldExactlyAt re s2 st x d hw2 hw hv hr hf hno2
    obtain ⟨v1, v2, v3⟩ := removeSeatDeviceStep_flagView re st x
    have hw1 : WellFormed (WSeatManager.removeSeatDeviceStep re st x) :=
      wellFormed_of_nameView (foldl_deviceStep_nameView re [x] st) hw
    obtain ⟨i1, i2⟩ := ih (WSeatManager.removeSeatDeviceStep re st x) hw1 (v1.trans hv)
      (v3.trans hr) (v2.trans hf)
    refine ⟨fun hgood => i1 (s1 hgood), fun hno hd => ?_⟩
    by_cases hx : x = d
    · exact i1 (s3 hno hx)
    · refine i2 (s2' hno hx) ?_
      rcases List.mem_cons.mp hd with h | h
      · exact absurd h.symm hx
      · exact h
theorem devView_modify (m : List (String × WSeat)) (k : String) (f : WSeat → WSeat)
    (hf : ∀ seat, (f seat).deviceList = seat.deviceList) :
    devView (QMap.modify m k f) = devView m := by
  induction m with
  | nil => rfl
  | cons e m ih =>
    obtain ⟨k0, v⟩ := e
    rw [QMap.modify_cons]
    simp only [devView, List.map_cons] at ih ⊢
    rw [ih]
    split_ifs <;> simp [hf]

theorem foldl_outputStep_devView (os : List WOutput) (st : WSeatManager) :
    devView (os.foldl WSeatManager.removeSeatOutputStep st).m_seats = devView st.m_seats := by
  induction os generalizing st with
  | nil => rfl
  | cons o os ih =>
    refine (ih _).trans ?_
    unfold WSeatManager.removeSeatOutputStep
    split_ifs
    · exact devView_modify _ _ _ (fun seat => seat.deviceList_attachOutput o)
    · rfl

theorem mem_of_devView {m m' : List (String × WSeat)} (hv : devView m' = devView m)
    {e' : String × WSeat} (he' : e' ∈ m') :
    ∃ e ∈ m, e'.1 = e.1 ∧ e'.2.deviceList = e.2.deviceList := by
  have : (e'.1, e'.2.deviceList) ∈ devView m' := List.mem_map.mpr ⟨e', he', rfl⟩
  rw [hv] at this
  obtain ⟨e, he, heq⟩ := List.mem_map.mp this
  simp only [Prod.mk.injEq] at heq
  exact ⟨e, he, heq.1.symm, heq.2.symm⟩

theorem heldExactlyAt_of_devView {s s' : WSeatManager}
    (hv : devView s'.m_seats = devView s.m_seats) (d : WInputDevice) (r : Option String)
    (h : HeldExactlyAt s d r) : HeldExactlyAt s' d r := by
  intro e' he'
  obtain ⟨e, he, hk, hd⟩ := mem_of_devView hv he'
  rw [hd, hk]
  exact h e he

theorem promoteFirst_devView (s : WSeatManager) :
    devView s.promoteFirst.m_seats = devView s.m_seats := by
  unfold WSeatManager.promoteFirst
  cases hm : s.m_seats with
  | nil => simp [hm]
  | cons e rest => simp [devView, WSeat.setIsFallback]

theorem removeSeatTaken_devView (s : WSeatManager) (name : String) (seat : WSeat)
    (hv : QMap.value s.m_seats name = some seat) :
    devView (s.removeSeatTaken name).m_seats = devView (QMap.remove s.m_seats name) := by
  unfold WSeatManager.removeSeatTaken
  simp only [hv]
  split_ifs
  · exact promoteFirst_devView _
  · rfl

theorem removeSeatTaken_wellFormed (s : WSeatManager) (name : String) (h : WellFormed s) :
    WellFormed (s.removeSeatTaken name) := by
  unfold WSeatManager.removeSeatTaken
  cases hv : QMap.value s.m_seats name with
  | none => exact h
  | some seat =>
    simp only
    have h1 : WellFormed { s with m_seats := QMap.remove s.m_seats name } :=
      ⟨h.1.sublist (QMap.remove_sublist _ _),
        fun e he => h.2 e ((QMap.remove_sublist _ _).subset he)⟩
    split_ifs
    · exact wellFormed_of_nameView (promoteFirst_nameView _) h1
    · exact h1

theorem removeSeatTaken_unattached (s : WSeatManager) (name : String) (seat : WSeat)
    (hex : ∀ d, deviceOwnerCount s d ≤ 1) (hv : QMap.value s.m_seats name = some seat)
    (d : WInputDevice) (hd : d ∈ seat.deviceList) :
    ∀ e ∈ (s.removeSeatTaken name).m_seats, e.2.deviceList.contains d = false := by
  intro e' he'
  obtain ⟨e, he, _, hdev⟩ := mem_of_devView (removeSeatTaken_devView s name seat hv) he'
  have hes : e ∈ s.m_seats ∧ e.1 ≠ name := by
    simpa [QMap.remove, List.mem_filter] using he
  rw [hdev]
  by_contra hc
  have heq := countP_le_one_unique (hex d) hes.1 (QMap.value_mem hv) (by simpa using hc)
    (by simpa using hd)
  exact hes.2 (by rw [heq])

theorem foldl_deviceStep_keeps (re : RegexEngine) (ds : List WInputDevice) (st : WSeatManager)
    (e : String × WSeat) (he : e ∈ st.m_seats) (d : WInputDevice) (hd : d ∈ e.2.deviceList) :
    ∃ e' ∈ (ds.foldl (WSeatManager.removeSeatDeviceStep re) st).m_seats,
      e'.1 = e.1 ∧ d ∈ e'.2.deviceList := by
  induction ds generalizing st e with
  | nil => exact ⟨e, he, rfl, hd⟩
  | cons x ds ih =>
    have hstep : ∃ e1 ∈ (WSeatManager.removeSeatDeviceStep re st x).m_seats,
        e1.1 = e.1 ∧ d ∈ e1.2.deviceList := by
      rcases removeSeatDeviceStep_cases re st x with h | ⟨k, h⟩
      · rw [h]; exact ⟨e, he, rfl, hd⟩
      · rw [h]
        refine ⟨_, List.mem_map.mpr ⟨e, he, rfl⟩, ?_⟩
        split_ifs
        · exact ⟨rfl, (WSeat.mem_attachInputDevice _ _ _).mpr (Or.inl hd)⟩
        · exact ⟨rfl, hd⟩
    obtain ⟨e1, he1, hk1, hd1⟩ := hstep
    obtain ⟨e', he', hk', hd'⟩ := ih _ e1 he1 hd1
    exact ⟨e', he', hk'.trans hk1, hd'⟩

theorem findSeatForDevice_mem (re : RegexEngine) (s : WSeatManager) (d : WInputDevice)
    (hno : ∀ e ∈ s.m_seats, e.2.deviceList.contains d = false) (t : WSeat)
    (h : s.findSeatForDevice re (some d) = some t) : ∃ e ∈ s.m_seats, e.2 = t := by
  rw [findSeatForDevice_unattached re s d hno] at h
  cases hf : s.m_seats.find? (fun e => !e.2.isFallback && hasMatchingRule re s e.2 d) with
  | some e =>
    rw [hf] at h
    exact ⟨e, List.mem_of_find?_eq_some hf, Option.some.inj h⟩
  | none =>
    rw [hf] at h
    exact ⟨_, QMap.value_mem h, rfl⟩

/-- What the device loop of `removeSeat(name)` does in a state with exclusive device
ownership: each device that was attached to the removed seat ends attached to exactly
the seat that `findSeatForDevice` selects for it in the remaining registry (after any
fallback promotion), which is the first remaining seat whose flag is false and that
has a matching rule, else the seat `fallbackSeat()` returns, whether that seat is
flagged or not, else no seat; and every device of another seat is still attached to
that seat. -/
theorem removeSeat_redistributes_devices (re : RegexEngine) (s : WSeatManager)
    (name : String) (seat : WSeat) (hw : WellFormed s) (hex : ∀ d, deviceOwnerCount s d ≤ 1)
    (hv : QMap.value s.m_seats name = some seat) :
    (∀ d ∈ seat.deviceList,
      HeldExactlyAt (s.removeSeat re name) d
        ((WSeatManager.findSeatForDevice re (s.removeSeatTaken name) (some d)).map WSeat.name) ∧
      (∀ k, (WSeatManager.findSeatForDevice re (s.removeSeatTaken name) (some d)).map WSeat.name
          = some k →
        ∃ e ∈ (s.removeSeat re name).m_seats, e.1 = k ∧ d ∈ e.2.deviceList) ∧
      WSeatManager.findSeatForDevice re (s.removeSeatTaken name) (some d) =
        match (s.removeSeatTaken name).m_seats.find?
          (fun e => !e.2.isFallback && hasMatchingRule re (s.removeSeatTaken name) e.2 d) with
        | some e => some e.2
        | none => (s.removeSeatTaken name).fallbackSeat) ∧
    (∀ e ∈ s.m_seats, e.1 ≠ name → ∀ d ∈ e.2.deviceList,
      ∃ e' ∈ (s.removeSeat re name).m_seats, e'.1 = e.1 ∧ d ∈ e'.2.deviceList) := by
  have hw2 := removeSeatTaken_wellFormed s name hw
  have hfolds := removeSeat_eq_folds re s name seat hv
  have hdv : devView (s.removeSeat re name).m_seats
      = devView (seat.deviceList.foldl (WSeatManager.removeSeatDeviceStep re)
          (s.removeSeatTaken name)).m_seats := by
    rw [hfolds]; exact foldl_outputStep_devView _ _
  constructor
  · intro d hd
    have hno2 := removeSeatTaken_unattached s name seat hex hv d hd
    have hheld : HeldExactlyAt (s.removeSeat re name) d
        ((WSeatManager.findSeatForDevice re (s.removeSeatTaken name) (some d)).map WSeat.name) :=
      heldExactlyAt_of_devView hdv d _
        ((foldl_deviceStep_heldExactlyAt re (s.removeSeatTaken name) d hw2 hno2
          seat.deviceList (s.removeSeatTaken name) hw2 rfl rfl rfl).2 hno2 hd)
    refine ⟨hheld, fun k hk => ?_, findSeatForDevice_unattached re _ d hno2⟩
    cases hfind : WSeatManager.findSeatForDevice re (s.removeSeatTaken name) (some d) with
    | none => rw [hfind] at hk; cases hk
    | some t =>
      rw [hfind] at hk
      simp only [Option.map_some', Option.some.injEq] at hk
      obtain ⟨e2, he2, het⟩ := findSeatForDevice_mem re _ d hno2 t hfind
      have hkey : e2.1 = k := by rw [← hw2.2 e2 he2, het, hk]
      have hmemk : k ∈ (s.removeSeat re name).m_seats.map Prod.fst := by
        rw [← flagView_keys, (removeSeat_views re s name).1, flagView_keys, ← hkey]
        exact List.mem_map_of_mem Prod.fst he2
      obtain ⟨e', he', hk'⟩ := List.mem_map.mp hmemk
      refine ⟨e', he', hk', (hheld e' he').mpr ?_⟩
      rw [hfind, hk']
      simp [hk]
  · intro e he hne d hd
    have hrem : e ∈ QMap.remove s.m_seats name := by
      simp [QMap.remove, List.mem_filter, he, hne]
    have h1 : (e.1, e.2.deviceList) ∈ devView (s.removeSeatTaken name).m_seats := by
      rw [removeSeatTaken_devView s name seat hv]
      exact List.mem_map.mpr ⟨e, hrem, rfl⟩
    obtain ⟨e2, he2, heq⟩ := List.mem_map.mp h1
    simp only [Prod.mk.injEq] at heq
    obtain ⟨e3, he3, hk3, hd3⟩ := foldl_deviceStep_keeps re seat.deviceList
      (s.removeSeatTaken name) e2 he2 d (by rw [heq.2]; exact hd)
    have h4 : (e3.1, e3.2.deviceList) ∈ devView (s.removeSeat re name).m_seats := by
      rw [hdv]; exact List.mem_map.mpr ⟨e3, he3, rfl⟩
    obtain ⟨e4, he4, heq4⟩ := List.mem_map.mp h4
    simp only [Prod.mk.injEq] at heq4
    exact ⟨e4, he4, by rw [heq4.1, hk3, heq.1], by rw [heq4.2]; exact hd3⟩

theorem demoRemoval_devices_exclusive : ∀ d, deviceOwnerCount demoRemoval d ≤ 1 := by
  intro d
  simp only [deviceOwnerCount, demoRemoval, List.countP_cons, List.countP_nil]
  split_ifs <;> simp_all

/-- At the concrete registry seat1 holds the mouse and the keyboard; after
`removeSeat("seat1")` the mouse is on seat2, whose rule matches it, and the keyboard on
the fallback seat seat0. -/
theorem removeSeat_redistributes_devices_witness :
    (WellFormed demoRemoval ∧ (∀ d, deviceOwnerCount demoRemoval d ≤ 1) ∧
      QMap.value demoRemoval.m_seats "seat1"
        = some { name := "seat1", isFallback := false,
                 deviceList := [demoMouse, demoKeyboard], outputs := [demoScreen] }) ∧
    HeldExactlyAt (demoRemoval.removeSeat demoRegex "seat1") demoMouse
      ((WSeatManager.findSeatForDevice demoRegex (demoRemoval.removeSeatTaken "seat1")
        (some demoMouse)).map WSeat.name) ∧
    (WSeatManager.findSeatForDevice demoRegex (demoRemoval.removeSeatTaken "seat1")
      (some demoMouse)).map WSeat.name = some "seat2" ∧
    (WSeatManager.findSeatForDevice demoRegex (demoRemoval.removeSeatTaken "seat1")
      (some demoKeyboard)).map WSeat.name = some "seat0" ∧
    (demoRemoval.removeSeat demoRegex "seat1").m_seats.map (fun e => (e.1, e.2.deviceList))
      = [("seat0", [demoKeyboard]), ("seat2", [demoMouse])] :=
  ⟨⟨by decide, demoRemoval_devices_exclusive, by decide⟩,
    ((removeSeat_redistributes_devices demoRegex demoRemoval "seat1"
      { name := "seat1", isFallback := false, deviceList := [demoMouse, demoKeyboard],
        outputs := [demoScreen] }
      (by decide) demoRemoval_devices_exclusive (by decide)).1 demoMouse (by decide)).1,
    by decide, by decide, by decide⟩

/-! ### Transfer of the outputs of a removed seat -/

theorem promoteFirst_outView (s : WSeatManager) :
    outView s.promoteFirst.m_seats = outView s.m_seats := by
  unfold WSeatManager.promoteFirst
  cases hm : s.m_seats with
  | nil => simp [hm]
  | cons e rest => simp [outView, WSeat.setIsFallback]

theorem removeSeatTaken_outView (s : WSeatManager) (name : String) (seat : WSeat)
    (hv : QMap.value s.m_seats name = some seat) :
    outView (s.removeSeatTaken name).m_seats = outView (QMap.remove s.m_seats name) := by
  unfold WSeatManager.removeSeatTaken
  simp only [hv]
  split_ifs
  · exact promoteFirst_outView _
  · rfl

theorem outView_keys (m : List (String × WSeat)) :
    (outView m).map Prod.fst = m.map Prod.fst := by
  simp [outView, List.map_map, Function.comp_def]

theorem mem_of_outView {m m' : List (String × WSeat)} (hv : outView m' = outView m)
    {e' : String × WSeat} (he' : e' ∈ m') :
    ∃ e ∈ m, e'.1 = e.1 ∧ e'.2.outputs = e.2.outputs := by
  have : (e'.1, e'.2.outputs) ∈ outView m' := List.mem_map.mpr ⟨e', he', rfl⟩
  rw [hv] at this
  obtain ⟨e, he, heq⟩ := List.mem_map.mp this
  simp only [Prod.mk.injEq] at heq
  exact ⟨e, he, heq.1.symm, heq.2.symm⟩

theorem WSeat.nodup_attachInputDevice (seat : WSeat) (d : WInputDevice)
    (h : seat.deviceList.Nodup ∧ seat.outputs.Nodup) :
    (seat.attachInputDevice d).deviceList.Nodup ∧ (seat.attachInputDevice d).outputs.Nodup := by
  unfold WSeat.attachInputDevice
  split_ifs with hc
  · exact h
  · refine ⟨?_, h.2⟩
    have hd : d ∉ seat.deviceList := by simpa using hc
    simp only
    rw [List.nodup_append]
    exact ⟨h.1, List.nodup_singleton d,
      fun a ha hb => hd (by rw [List.mem_singleton] at hb; rw [← hb]; exact ha)⟩

theorem WSeat.nodup_attachOutput (seat : WSeat) (o : WOutput)
    (h : seat.deviceList.Nodup ∧ seat.outputs.Nodup) :
    (seat.attachOutput o).deviceList.Nodup ∧ (seat.attachOutput o).outputs.Nodup := by
  unfold WSeat.attachOutput
  split_ifs with hc
  · exact h
  · refine ⟨h.1, ?_⟩
    have hd : o ∉ seat.outputs := by simpa using hc
    simp only
    rw [List.nodup_append]
    exact ⟨h.2, List.nodup_singleton o,
      fun a ha hb => hd (by rw [List.mem_singleton] at hb; rw [← hb]; exact ha)⟩

theorem listsNodup_modify (s : WSeatManager) (k : String) (f : WSeat → WSeat)
    (hf : ∀ seat : WSeat, seat.deviceList.Nodup ∧ seat.outputs.Nodup →
      (f seat).deviceList.Nodup ∧ (f seat).outputs.Nodup)
    (h : ListsNodup s) : ListsNodup { s with m_seats := QMap.modify s.m_seats k f } := by
  intro e' he'
  obtain ⟨e, he, rfl⟩ := List.mem_map.mp he'
  split_ifs
  · exact hf _ (h e he)
  · exact h e he

theorem listsNodup_detachDeviceLoop (d : WInputDevice) (seatName : String)
    (m m' : List (String × WSeat))
    (hl : WSeatManager.detachDeviceLoop d seatName m = some m')
    (h : ∀ e ∈ m, e.2.deviceList.Nodup ∧ e.2.outputs.Nodup) :
    ∀ e ∈ m', e.2.deviceList.Nodup ∧ e.2.outputs.Nodup := by
  induction m generalizing m' with
  | nil => simp [WSeatManager.detachDeviceLoop] at hl; subst hl; exact h
  | cons a m ih =>
    obtain ⟨k, seat⟩ := a
    unfold WSeatManager.detachDeviceLoop at hl
    have ha := h (k, seat) (List.mem_cons_self _ _)
    have hrest : ∀ e ∈ m, e.2.deviceList.Nodup ∧ e.2.outputs.Nodup :=
      fun e he => h e (List.mem_cons_of_mem _ he)
    split_ifs at hl with h1 h2
    · cases hl
      intro e he
      rcases List.mem_cons.mp he with rfl | he
      · exact ⟨ha.1.filter _, ha.2⟩
      · exact hrest e he
    · cases hr : WSeatManager.detachDeviceLoop d seatName m with
      | none => simp [hr] at hl
      | some r =>
        simp [hr] at hl; subst hl
        intro e he
        rcases List.mem_cons.mp he with rfl | he
        · exact ha
        · exact ih r hr hrest e he

theorem listsNodup_detachOutputLoop (o : WOutput) (seatName : String)
    (m m' : List (String × WSeat))
    (hl : WSeatManager.detachOutputLoop o seatName m = some m')
    (h : ∀ e ∈ m, e.2.deviceList.Nodup ∧ e.2.outputs.Nodup) :
    ∀ e ∈ m', e.2.deviceList.Nodup ∧ e.2.outputs.Nodup := by
  induction m generalizing m' with
  | nil => simp [WSeatManager.detachOutputLoop] at hl; subst hl; exact h
  | cons a m ih =>
    obtain ⟨k, seat⟩ := a
    unfold WSeatManager.detachOutputLoop at hl
    have ha := h (k, seat) (List.mem_cons_self _ _)
    have hrest : ∀ e ∈ m, e.2.deviceList.Nodup ∧ e.2.outputs.Nodup :=
      fun e he => h e (List.mem_cons_of_mem _ he)
    split_ifs at hl with h1 h2
    · cases hl
      intro e he
      rcases List.mem_cons.mp he with rfl | he
      · exact ⟨ha.1, ha.2.filter _⟩
      · exact hrest e he
    · cases hr : WSeatManager.detachOutputLoop o seatName m with
      | none => simp [hr] at hl
      | some r =>
        simp [hr] at hl; subst hl
        intro e he
        rcases List.mem_cons.mp he with rfl | he
        · exact ha
        · exact ih r hr hrest e he

theorem listsNodup_of_views {s s' : WSeatManager}
    (hd : devView s'.m_seats = devView s.m_seats) (ho : outView s'.m_seats = outView s.m_seats)
    (h : ListsNodup s) : ListsNodup s' := by
  intro e' he'
  obtain ⟨e1, he1, _, hd1⟩ := mem_of_devView hd he'
  obtain ⟨e2, he2, _, ho2⟩ := mem_of_outView ho he'
  rw [hd1, ho2]
  exact ⟨(h e1 he1).1, (h e2 he2).2⟩

theorem removeSeat_listsNodup (re : RegexEngine) (s : WSeatManager) (name : String)
    (h : ListsNodup s) : ListsNodup (s.removeSeat re name) := by
  cases hv : QMap.value s.m_seats name with
  | none => simpa [WSeatManager.removeSeat, hv] using h
  | some seat =>
    rw [removeSeat_eq_folds re s name seat hv]
    have h2 : ListsNodup (s.removeSeatTaken name) := by
      refine listsNodup_of_views (s := { s with m_seats := QMap.remove s.m_seats name })
        (removeSeatTaken_devView s name seat hv) (removeSeatTaken_outView s name seat hv) ?_
      exact fun e he => h e ((QMap.remove_sublist _ _).subset he)
    have h3 : ∀ (ds : List WInputDevice) (st : WSeatManager), ListsNodup st →
        ListsNodup (ds.foldl (WSeatManager.removeSeatDeviceStep re) st) := by
      intro ds
      induction ds with
      | nil => exact fun _ hst => hst
      | cons x ds ih =>
        intro st hst
        refine ih _ ?_
        rcases removeSeatDeviceStep_cases re st x with hc | ⟨k, hc⟩
        · rw [hc]; exact hst
        · rw [hc]
          exact listsNodup_modify st k _ (fun seat hs => seat.nodup_attachInputDevice x hs) hst
    have h4 : ∀ (os : List WOutput) (st : WSeatManager), ListsNodup st →
        ListsNodup (os.foldl WSeatManager.removeSeatOutputStep st) := by
      intro os
      induction os with
      | nil => exact fun _ hst => hst
      | cons o os ih =>
        intro st hst
        refine ih _ ?_
        unfold WSeatManager.removeSeatOutputStep
        split_ifs
        · exact listsNodup_modify st _ _ (fun seat hs => seat.nodup_attachOutput o hs) hst
        · exact hst
    exact h4 _ _ (h3 _ _ h2)

theorem Call.apply_listsNodup (re : RegexEngine) (s : WSeatManager) (c : Call)
    (h : ListsNodup s) : ListsNodup (c.apply re s) := by
  cases c with
  | createSeat name isFallback =>
    simp only [Call.apply, WSeatManager.createSeat]
    split_ifs with hc hf
    · exact h
    · intro e he
      obtain ⟨e0, he0, _, h2, h3, _⟩ := mem_demoteOthers he
      rw [h2, h3]
      rcases QMap.mem_insert he0 with rfl | he0
      · exact ⟨List.nodup_nil, List.nodup_nil⟩
      · exact h e0 he0
    · intro e he
      rcases QMap.mem_insert he with rfl | he
      · exact ⟨List.nodup_nil, List.nodup_nil⟩
      · exact h e he
  | removeSeat name => exact removeSeat_listsNodup re s name h
  | removeSeatPtr seat =>
    simp only [Call.apply, WSeatManager.removeSeatPtr]
    cases seat with
    | null => exact h
    | owned key =>
      simp only
      split_ifs
      · exact removeSeat_listsNodup re s _ h
      · exact h
    | foreign =>
      simp only
      split_ifs
      · exact removeSeat_listsNodup re s _ h
      · exact h
  | assignDeviceToSeat device seatName =>
    simp only [Call.apply, WSeatManager.assignDeviceToSeat]
    cases device with
    | none => exact h
    | some d =>
      simp only
      cases hl : WSeatManager.detachDeviceLoop d seatName s.m_seats with
      | none => exact h
      | some m =>
        have h1 : ListsNodup { s with m_seats := m } :=
          listsNodup_detachDeviceLoop d seatName _ _ hl h
        simp only
        split_ifs
        · exact listsNodup_modify _ _ _ (fun seat hs => seat.nodup_attachInputDevice d hs) h1
        · exact listsNodup_modify _ _ _ (fun seat hs => seat.nodup_attachInputDevice d hs) h1
        · exact h1
  | autoAssignDevice device =>
    cases device with
    | none => exact h
    | some d =>
      rcases autoAssignDevice_cases re s d with hc | ⟨_, k, hc⟩
      · simp only [Call.apply]; rw [hc]; exact h
      · simp only [Call.apply]; rw [hc]
        exact listsNodup_modify s k _ (fun seat hs => seat.nodup_attachInputDevice d hs) h
  | assignOutputToSeat output seatName =>
    simp only [Call.apply, WSeatManager.assignOutputToSeat]
    cases output with
    | none => exact h
    | some o =>
      simp only
      cases hl : WSeatManager.detachOutputLoop o seatName s.m_seats with
      | none => exact h
      | some m =>
        have h1 : ListsNodup { s with m_seats := m } :=
          listsNodup_detachOutputLoop o seatName _ _ hl h
        simp only
        split_ifs
        · exact listsNodup_modify _ _ _ (fun seat hs => seat.nodup_attachOutput o hs) h1
        · exact listsNodup_modify _ _ _ (fun seat hs => seat.nodup_attachOutput o hs) h1
        · exact h1
  | addDeviceRule seatName rule =>
    intro e he
    rw [Call.apply, (addDeviceRule_seats re s seatName rule).1] at he
    exact h e he
  | removeDeviceRule seatName rule =>
    intro e he
    rw [Call.apply, (removeDeviceRule_seats re s seatName rule).1] at he
    exact h e he
  | loadConfig config =>
    intro e he
    have := loadConfig_all_empty re s config e he
    rw [this.1, this.2]
    exact ⟨List.nodup_nil, List.nodup_nil⟩
  | create server =>
    cases server with
    | none => exact h
    | some _ =>
      simp only [Call.apply, WSeatManager.create]
      split_ifs
      · exact listsNodup_of_views (promoteFirst_devView s) (promoteFirst_outView s) h
      · exact h
  | destroy server => simp [Call.apply, WSeatManager.destroy, ListsNodup]

theorem Call.apply_exclusive (re : RegexEngine) (s : WSeatManager) (c : Call)
    (hn : NodupKeys s.m_seats) (hex : ExclusiveOwnership s) :
    ExclusiveOwnership (c.apply re s) := by
  cases c with
  | createSeat name isFallback => exact createSeat_exclusive s name isFallback hex
  | removeSeat name => exact removeSeat_exclusive re s name hn hex
  | removeSeatPtr seat => exact removeSeatPtr_exclusive re s seat hn hex
  | assignDeviceToSeat device seatName =>
    exact assignDeviceToSeat_exclusive s device seatName hn hex
  | autoAssignDevice device => exact autoAssignDevice_exclusive re s device hn hex
  | assignOutputToSeat output seatName =>
    exact assignOutputToSeat_exclusive s output seatName hn hex
  | addDeviceRule seatName rule =>
    have h := (addDeviceRule_seats re s seatName rule).1
    exact ⟨fun d => by simpa [Call.apply, deviceOwnerCount, h] using hex.1 d,
      fun o => by simpa [Call.apply, outputOwnerCount, h] using hex.2 o⟩
  | removeDeviceRule seatName rule =>
    have h := (removeDeviceRule_seats re s seatName rule).1
    exact ⟨fun d => by simpa [Call.apply, deviceOwnerCount, h] using hex.1 d,
      fun o => by simpa [Call.apply, outputOwnerCount, h] using hex.2 o⟩
  | loadConfig config => exact exclusive_of_all_empty _ (loadConfig_all_empty re s config)
  | create server =>
    cases server with
    | none => exact hex
    | some _ =>
      simp only [Call.apply, WSeatManager.create]
      split_ifs
      · exact promoteFirst_exclusive s hex
      · exact hex
  | destroy server => exact exclusive_of_all_empty _ (by simp [Call.apply, WSeatManager.destroy])

/-- Every state that a sequence of calls produces from a freshly constructed manager is
well-formed, has exclusive ownership of devices and outputs, holds the devices and
outputs of every seat without repetition, and has at most one flagged seat: the
assumptions made of "every state" in the theorems on removeSeat hold of every state
the manager can be in. -/
theorem runCalls_state_invariants (re : RegexEngine) (calls : List Call) :
    WellFormed (runCalls re WSeatManager.init calls) ∧
    ExclusiveOwnership (runCalls re WSeatManager.init calls) ∧
    ListsNodup (runCalls re WSeatManager.init calls) ∧
    FlagInv (runCalls re WSeatManager.init calls) := by
  have h : ∀ (cs : List Call) (s : WSeatManager),
      WellFormed s ∧ ExclusiveOwnership s ∧ ListsNodup s →
      WellFormed (runCalls re s cs) ∧ ExclusiveOwnership (runCalls re s cs) ∧
        ListsNodup (runCalls re s cs) := by
    intro cs
    induction cs with
    | nil => exact fun _ h => h
    | cons c cs ih =>
      intro s ⟨h1, h2, h3⟩
      exact ih _ ⟨Call.apply_wellFormed re s c h1,
        Call.apply_exclusive re s c h1.nodupKeys h2, Call.apply_listsNodup re s c h3⟩
  obtain ⟨h1, h2, h3⟩ := h calls WSeatManager.init
    ⟨init_wellFormed, exclusive_of_all_empty _ (by simp [WSeatManager.init]),
      by simp [ListsNodup, WSeatManager.init]⟩
  exact ⟨h1, h2, h3, runCalls_flagInv re calls _ FlagInv.init⟩

/-! ### Invalid arguments -/

/-- C25, as stated, fails for four calls: an empty seat name is no invalid argument
of `createSeat`, `removeSeat`, `assignDeviceToSeat` and `assignOutputToSeat`.
`createSeat("", false)` on a fresh manager registers a seat under the empty name,
`removeSeat("")` removes that seat again, and with the empty name as target
`assignDeviceToSeat` and `assignOutputToSeat` attach the keyboard and a second screen
to the fallback seat seat0. -/
theorem empty_seat_name_changes_state :
    (WSeatManager.init.createSeat "" false).2 ≠ WSeatManager.init ∧
    demoEmptyName.removeSeat demoRegex "" ≠ demoEmptyName ∧
    demoManager.assignDeviceToSeat (some demoKeyboard) "" ≠ demoManager ∧
    demoManager.assignOutputToSeat (some { id := 2, name := "DP-1" }) "" ≠ demoManager := by
  decide

/-- C25, amended: a null device (`assignDeviceToSeat`, `autoAssignDevice`), a null
output (`assignOutputToSeat`), an empty seat name passed to `addDeviceRule` and an
empty pattern passed to `addDeviceRule` leave the manager state unchanged, whatever
the other argument is; `autoAssignDevice` returns false then. -/
theorem invalid_argument_is_noop (re : RegexEngine) (s : WSeatManager)
    (seatName rule : String) :
    s.assignDeviceToSeat none seatName = s ∧
    s.autoAssignDevice re none = (false, s) ∧
    s.assignOutputToSeat none seatName = s ∧
    s.addDeviceRule re "" rule = s ∧
    s.addDeviceRule re seatName "" = s := by
  refine ⟨rfl, rfl, rfl, ?_, ?_⟩
  · have he : "".isEmpty = true := by decide
    simp [WSeatManager.addDeviceRule, he]
  · have he : "".isEmpty = true := by decide
    simp [WSeatManager.addDeviceRule, he]

/-! ### removeSeat and the rule map -/

theorem removeSeatTaken_not_contains (s : WSeatManager) (name : String) :
    QMap.value s.m_seats name ≠ none →
    QMap.contains (s.removeSeatTaken name).m_seats name = false := by
  intro h
  unfold WSeatManager.removeSeatTaken
  rcases Option.eq_none_or_eq_some (QMap.value s.m_seats name) with hv | ⟨seat, hv⟩
  · exact absurd hv h
  · simp only [hv]
    have hrem : QMap.contains (QMap.remove s.m_seats name) name = false := by
      rw [QMap.contains_eq_isSome, QMap.value_remove_self]; rfl
    split_ifs
    · rw [QMap.contains_congr_keys (promoteFirst_flagView_keys _) name]
      exact hrem
    · exact hrem

theorem removeSeat_not_contains (re : RegexEngine) (s : WSeatManager) (name : String) :
    QMap.contains s.m_seats name = true →
    QMap.contains (s.removeSeat re name).m_seats name = false := by
  intro h
  rw [flagView_contains (removeSeat_views re s name).1 name]
  apply removeSeatTaken_not_contains
  rw [QMap.contains_eq_isSome] at h
  intro hn
  rw [hn] at h
  cases h

/-- C26: `removeSeat(name)` leaves the rule map as it is. `deviceRules(n)` is the same
before and after the call for every `n`, `name` included, although no seat is stored
under `name` afterwards; a seat created later under that name finds the same rules,
and `deviceMatchesSeat` decides with them as it did before the removal. -/
theorem removeSeat_keeps_rule_map (re : RegexEngine) (s : WSeatManager) (name : String) :
    (s.removeSeat re name).m_deviceRules = s.m_deviceRules ∧
    (∀ n, (s.removeSeat re name).deviceRules n = s.deviceRules n) ∧
    (QMap.contains s.m_seats name = true →
      QMap.contains (s.removeSeat re name).m_seats name = false) ∧
    (∀ isFallback n,
      ((s.removeSeat re name).createSeat name isFallback).2.deviceRules n = s.deviceRules n) ∧
    (∀ isFallback device seat,
      ((s.removeSeat re name).createSeat name isFallback).2.deviceMatchesSeat re device seat
        = s.deviceMatchesSeat re device seat) := by
  have hr := (removeSeat_views re s name).2.2
  have hc : ∀ isFallback,
      ((s.removeSeat re name).createSeat name isFallback).2.m_deviceRules = s.m_deviceRules := by
    intro b
    rw [createSeat_rules, hr]
  refine ⟨hr, ?_, removeSeat_not_contains re s name, ?_, ?_⟩
  · intro n
    simp only [WSeatManager.deviceRules, hr]
  · intro b n
    simp only [WSeatManager.deviceRules, hc b]
  · intro b device seat
    simp only [WSeatManager.deviceMatchesSeat, hc b]

/-- C26 at the scenario of the spec: after `removeSeat("seat1")` no seat is stored
under "seat1" and `deviceRules("seat1")` still returns "^Logitech.*". -/
theorem removeSeat_keeps_rule_map_witness :
    QMap.contains (demoScenario.removeSeat demoRegex "seat1").m_seats "seat1" = false ∧
    (demoScenario.removeSeat demoRegex "seat1").deviceRules "seat1" = ["^Logitech.*"] :=
  ⟨(removeSeat_keeps_rule_map demoRegex demoScenario "seat1").2.2.1 (by decide),
   ((removeSeat_keeps_rule_map demoRegex demoScenario "seat1").2.1 "seat1").trans (by decide)⟩

/-! ### The fallback branch of autoAssignDevice -/

/-- C27: for a device attached to no seat, `autoAssignDevice(d)` returns and leaves
what attaching `d` to `findSeatForDevice(d)` does when that is a seat, and returns
false without a change otherwise; `findSeatForDevice(d)` is none only when
`fallbackSeat()` is none, so the branch of lines 163-165 is never taken. -/
theorem autoAssignDevice_fallback_branch_unreachable (re : RegexEngine) (s : WSeatManager)
    (d : WInputDevice) (h : ∀ e ∈ s.m_seats, e.2.deviceList.contains d = false) :
    s.autoAssignDevice re (some d) = attachToResolvedSeat re s d ∧
    (s.findSeatForDevice re (some d) = none → s.fallbackSeat = none) := by
  refine ⟨?_, findSeatForDevice_none_fallback re s d h⟩
  unfold attachToResolvedSeat
  rcases Option.eq_none_or_eq_some (s.findSeatForDevice re (some d)) with ht | ⟨t, ht⟩
  · rw [ht]
    exact autoAssignDevice_no_target re s d h ht (findSeatForDevice_none_fallback re s d h ht)
  · rw [ht]
    exact autoAssignDevice_unattached re s d h t ht

/-- C27 at the scenario of the spec: the keyboard is attached to no seat, and
`autoAssignDevice` does what attaching it to the resolved seat does. -/
theorem autoAssignDevice_fallback_branch_unreachable_witness :
    (∀ e ∈ demoScenario.m_seats, e.2.deviceList.contains demoKeyboard = false) ∧
    demoScenario.autoAssignDevice demoRegex (some demoKeyboard)
      = attachToResolvedSeat demoRegex demoScenario demoKeyboard ∧
    (demoScenario.findSeatForDevice demoRegex (some demoKeyboard) = none →
      demoScenario.fallbackSeat = none) :=
  ⟨by decide, autoAssignDevice_fallback_branch_unreachable demoRegex demoScenario demoKeyboard
    (by decide)⟩

/-! ### The document written by saveConfig -/

theorem saveSeatEntry_eq (s : WSeatManager) (e : String × WSeat) :
    s.saveSeatEntry e = QJsonValue.object
      [("deviceRules", QJsonValue.array ((s.deviceRules e.1).map (fun rule => QJsonValue.string rule))),
       ("fallback", QJsonValue.bool e.2.isFallback),
       ("name", QJsonValue.string e.1),
       ("outputs", QJsonValue.array (e.2.outputs.map (fun output => QJsonValue.string output.name)))]
    := by
  have h1 : QString.lt "fallback" "name" := by decide
  have h2 : QString.lt "deviceRules" "fallback" := by decide
  have h3 : ¬ QString.lt "outputs" "deviceRules" := by decide
  have h4 : ¬ QString.lt "outputs" "fallback" := by decide
  have h5 : ¬ QString.lt "outputs" "name" := by decide
  have h6 : ¬ "outputs" = "deviceRules" := by decide
  have h7 : ¬ "outputs" = "fallback" := by decide
  have h8 : ¬ "outputs" = "name" := by decide
  simp only [WSeatManager.saveSeatEntry, QMap.insert, h1, h2, h3, h4, h5, h6, h7, h8, if_true,
    if_false]

theorem seatEntries_saveConfig (s : WSeatManager) :
    seatEntries s.saveConfig = s.m_seats.map s.saveSeatEntry := by
  simp [seatEntries, WSeatManager.saveConfig, QMap.insert, QJsonObject.get, QJsonValue.toArray]

theorem entryName_saveSeatEntry (s : WSeatManager) (e : String × WSeat) :
    entryName (s.saveSeatEntry e) = e.1 := by
  have h1 : ¬ "deviceRules" = "name" := by decide
  have h2 : ¬ "fallback" = "name" := by decide
  simp [entryName, saveSeatEntry_eq, QJsonValue.toObject, QJsonObject.get, h1, h2,
    QJsonValue.toString]

theorem entryFallback_saveSeatEntry (s : WSeatManager) (e : String × WSeat) :
    entryFallback (s.saveSeatEntry e) = e.2.isFallback := by
  have h1 : ¬ "deviceRules" = "fallback" := by decide
  simp [entryFallback, saveSeatEntry_eq, QJsonValue.toObject, QJsonObject.get, h1,
    QJsonValue.toBool]

theorem entryRules_saveSeatEntry (s : WSeatManager) (e : String × WSeat) :
    entryRules (s.saveSeatEntry e) = s.deviceRules e.1 := by
  simp [entryRules, saveSeatEntry_eq, QJsonValue.toObject, QJsonObject.get,
    QJsonValue.toArray, Function.comp_def, QJsonValue.toString]

theorem entryOutputs_saveSeatEntry (s : WSeatManager) (e : String × WSeat) :
    entryOutputs (s.saveSeatEntry e) = e.2.outputs.map (fun o => o.name) := by
  have h1 : ¬ "deviceRules" = "outputs" := by decide
  have h2 : ¬ "fallback" = "outputs" := by decide
  have h3 : ¬ "name" = "outputs" := by decide
  simp [entryOutputs, saveSeatEntry_eq, QJsonValue.toObject, QJsonObject.get, h1, h2, h3,
    QJsonValue.toArray, Function.comp_def, QJsonValue.toString]
theorem saveSeatEntry_holds (s : WSeatManager) (e : String × WSeat) (hn : e.2.name = e.1) :
    entryHoldsSeat s e (s.saveSeatEntry e) := by
  have h1 : ¬ "deviceRules" = "name" := by decide
  have h2 : ¬ "fallback" = "name" := by decide
  have h3 : ¬ "deviceRules" = "fallback" := by decide
  have h4 : ¬ "deviceRules" = "outputs" := by decide
  have h5 : ¬ "fallback" = "outputs" := by decide
  have h6 : ¬ "name" = "outputs" := by decide
  unfold entryHoldsSeat
  rw [saveSeatEntry_eq, hn]
  simp [QJsonValue.toObject, QJsonObject.get, h1, h2, h3, h4, h5, h6]

theorem saveSeatEntry_congr (s s' : WSeatManager) (e : String × WSeat)
    (h : s'.deviceRules e.1 = s.deviceRules e.1) : s'.saveSeatEntry e = s.saveSeatEntry e := by
  rw [saveSeatEntry_eq, saveSeatEntry_eq, h]

theorem forall2_map_of_forall {α β : Type} (R : α → β → Prop) (f : α → β) (l : List α)
    (h : ∀ a ∈ l, R a (f a)) : List.Forall₂ R l (l.map f) := by
  induction l with
  | nil => exact List.Forall₂.nil
  | cons a l ih =>
    exact List.Forall₂.cons (h a (List.mem_cons_self a l))
      (ih (fun b hb => h b (List.mem_cons_of_mem a hb)))

/-- C24: in a state whose registry is well-formed (ascending keys, every seat stored
under its own name), the "seats" array of the document `saveConfig` returns has one
entry per registered seat, in registry order; the entry of a seat holds its name, its
fallback flag, the patterns `deviceRules` returns for it and the names of its outputs in
list order. The names of the entries ascend, every entry names a registered seat, and
the rules stored under other names have no influence on the document. `saveConfig` is
a function of the state alone (a const member), it returns no new state. -/
theorem saveConfig_document (s : WSeatManager) (h : WellFormed s) :
    List.Forall₂ (entryHoldsSeat s) s.m_seats (seatEntries s.saveConfig) ∧
    ((seatEntries s.saveConfig).map entryName).Pairwise QString.lt ∧
    (∀ v ∈ seatEntries s.saveConfig, QMap.contains s.m_seats (entryName v) = true) ∧
    (∀ s2 : WSeatManager, s2.m_seats = s.m_seats →
      (∀ n, QMap.contains s.m_seats n = true → s2.deviceRules n = s.deviceRules n) →
      s2.saveConfig = s.saveConfig) := by
  have hnames : (seatEntries s.saveConfig).map entryName = s.m_seats.map Prod.fst := by
    rw [seatEntries_saveConfig, List.map_map]
    apply List.map_congr_left
    intro e _
    exact entryName_saveSeatEntry s e
  refine ⟨?_, ?_, ?_, ?_⟩
  · rw [seatEntries_saveConfig]
    exact forall2_map_of_forall _ _ _ (fun e he => saveSeatEntry_holds s e (h.2 e he))
  · rw [hnames, List.pairwise_map]
    exact h.1
  · intro v hv
    rw [QMap.contains_iff_mem_keys, ← hnames]
    exact List.mem_map_of_mem entryName hv
  · intro s2 hs hr
    unfold WSeatManager.saveConfig
    rw [hs]
    have : s.m_seats.map s2.saveSeatEntry = s.m_seats.map s.saveSeatEntry := by
      apply List.map_congr_left
      intro e he
      apply saveSeatEntry_congr
      apply hr
      rw [QMap.contains_iff_mem_keys]
      exact List.mem_map_of_mem Prod.fst he
    simp only [this]

/-- C24 at the concrete registry: the document of `demoManager` has the entries of
seat0 and seat1 in this order. -/
theorem saveConfig_document_witness :
    WellFormed demoManager ∧
    List.Forall₂ (entryHoldsSeat demoManager) demoManager.m_seats
      (seatEntries demoManager.saveConfig) ∧
    ((seatEntries demoManager.saveConfig).map entryName).Pairwise QString.lt :=
  ⟨by decide, (saveConfig_document demoManager (by decide)).1,
    (saveConfig_document demoManager (by decide)).2.1⟩

/-! ### What loadConfig builds from a document -/

theorem loadSeatEntry_eq (re : RegexEngine) (st : WSeatManager) (v : QJsonValue) :
    WSeatManager.loadSeatEntry re st v =
      (entryRules v).foldl (fun acc r => acc.addDeviceRule re (entryName v) r)
        (st.createSeat (entryName v) (entryFallback v)).2 := by
  simp only [WSeatManager.loadSeatEntry, entryRules, entryName, entryFallback, List.foldl_map]

theorem loadConfig_eq (re : RegexEngine) (s : WSeatManager)
    (config : List (String × QJsonValue)) :
    s.loadConfig re config =
      (fun s2 : WSeatManager =>
        if s2.fallbackSeat.isNone && !s2.m_seats.isEmpty then s2.promoteFirst else s2)
      ((fun s1 : WSeatManager =>
        if s1.m_seats.isEmpty then (s1.createSeat "seat0" true).2 else s1)
      ((seatEntries config).foldl (WSeatManager.loadSeatEntry re)
        { s with m_seats := [], m_deviceRules := [] })) := rfl

theorem foldl_addRule_seats (re : RegexEngine) (name : String) (rs : List String)
    (st : WSeatManager) :
    (rs.foldl (fun acc r => acc.addDeviceRule re name r) st).m_seats = st.m_seats ∧
    (rs.foldl (fun acc r => acc.addDeviceRule re name r) st).m_fallbackSeatName
      = st.m_fallbackSeatName := by
  induction rs generalizing st with
  | nil => exact ⟨rfl, rfl⟩
  | cons r rs ih =>
    simp only [List.foldl_cons]
    have h := addDeviceRule_seats re st name r
    exact ⟨(ih _).1.trans h.1, (ih _).2.trans h.2⟩

theorem foldl_addRule_empty_name (re : RegexEngine) (rs : List String) (st : WSeatManager) :
    rs.foldl (fun acc r => acc.addDeviceRule re "" r) st = st := by
  have he : "".isEmpty = true := by decide
  induction rs generalizing st with
  | nil => rfl
  | cons r rs ih =>
    simp only [List.foldl_cons]
    have : st.addDeviceRule re "" r = st := by simp [WSeatManager.addDeviceRule, he]
    rw [this]
    exact ih st

theorem deviceRules_foldl_addRule (re : RegexEngine) (name : String) (hne : name ≠ "")
    (rs : List String) (st : WSeatManager) (hc : QMap.contains st.m_seats name = true)
    (n : String) :
    (rs.foldl (fun acc r => acc.addDeviceRule re name r) st).deviceRules n =
      if n = name then st.deviceRules n ++ acceptedRules re rs else st.deviceRules n := by
  have hne2 : name.isEmpty = false := by
    cases h : name.isEmpty
    · rfl
    · exact absurd ((String.isEmpty_iff name).mp h) hne
  induction rs generalizing st with
  | nil => simp [acceptedRules]
  | cons r rs ih =>
    simp only [List.foldl_cons]
    have hc2 : QMap.contains (st.addDeviceRule re name r).m_seats name = true := by
      rw [(addDeviceRule_seats re st name r).1]; exact hc
    rw [ih _ hc2]
    by_cases hacc : (!r.isEmpty && re.isValid r) = true
    · have hrej : addDeviceRuleRejected re st name r = false := by
        simp only [Bool.and_eq_true, Bool.not_eq_true'] at hacc
        simp [addDeviceRuleRejected, hne2, hc, hacc.1, hacc.2]
      have hf : acceptedRules re (r :: rs) = r :: acceptedRules re rs := by
        simp only [acceptedRules, List.filter_cons, hacc, if_true]
      rw [deviceRules_addDeviceRule re st name r hrej, hf]
      by_cases hn : n = name
      · simp [hn]
      · simp [hn]
    · have hrej : addDeviceRuleRejected re st name r = true := by
        simp only [Bool.and_eq_true, Bool.not_eq_true', not_and, Bool.not_eq_true] at hacc
        cases he : r.isEmpty
        · simp [addDeviceRuleRejected, hacc he]
        · simp [addDeviceRuleRejected, he]
      have hf : acceptedRules re (r :: rs) = acceptedRules re rs := by
        simp only [acceptedRules, List.filter_cons, eq_false_of_ne_true hacc,
          Bool.false_eq_true, if_false]
      rw [addDeviceRule_rejected re st name r hrej, hf]
theorem QMap.contains_insert {α : Type} (m : List (String × α)) (k : String) (v : α)
    (n : String) :
    QMap.contains (QMap.insert m k v) n = true ↔ (QMap.contains m n = true ∨ n = k) := by
  rw [QMap.contains_eq_isSome, QMap.contains_eq_isSome]
  by_cases h : n = k
  · subst h
    simp [QMap.value_insert_self]
  · rw [QMap.value_insert_other m k n v h]
    simp [h]

theorem contains_createSeat (s : WSeatManager) (name : String) (isFallback : Bool)
    (n : String) :
    QMap.contains (s.createSeat name isFallback).2.m_seats n = true ↔
      (QMap.contains s.m_seats n = true ∨ n = name) := by
  unfold WSeatManager.createSeat
  by_cases hc : QMap.contains s.m_seats name = true
  · simp only [hc, if_true]
    constructor
    · exact Or.inl
    · rintro (h | h)
      · exact h
      · rw [h]; exact hc
  · simp only [hc, if_false, Bool.false_eq_true]
    cases isFallback
    · simp only [Bool.false_eq_true, if_false]
      exact QMap.contains_insert _ _ _ _
    · simp only [if_true]
      rw [QMap.contains_congr_keys (keys_demoteOthers _ name) n]
      exact QMap.contains_insert _ _ _ _

theorem deviceRules_congr {s s' : WSeatManager} (h : s'.m_deviceRules = s.m_deviceRules)
    (n : String) : s'.deviceRules n = s.deviceRules n := by
  simp only [WSeatManager.deviceRules, h]

theorem deviceRules_loadSeatEntry (re : RegexEngine) (st : WSeatManager) (v : QJsonValue)
    (n : String) :
    (WSeatManager.loadSeatEntry re st v).deviceRules n =
      st.deviceRules n ++
        (if n = "" then [] else
          if entryName v = n then acceptedRules re (entryRules v) else []) := by
  rw [loadSeatEntry_eq]
  have hcr := deviceRules_congr (createSeat_rules st (entryName v) (entryFallback v)) n
  by_cases he : entryName v = ""
  · have hfold : ∀ st1 : WSeatManager,
        (entryRules v).foldl (fun acc r => acc.addDeviceRule re (entryName v) r) st1 = st1 := by
      intro st1
      rw [he]
      exact foldl_addRule_empty_name re _ st1
    rw [hfold, hcr]
    by_cases hn : n = ""
    · simp only [hn, if_true, List.append_nil]
    · have : ¬ entryName v = n := fun h => hn (h ▸ he)
      simp only [hn, this, if_false, List.append_nil]
  · rw [deviceRules_foldl_addRule re (entryName v) he _ _
      ((contains_createSeat st _ _ _).mpr (Or.inr rfl)), hcr]
    by_cases hn : n = entryName v
    · have hn2 : ¬ n = "" := fun h => he (hn ▸ h)
      simp [hn, hn2, he]
    · have : ¬ entryName v = n := fun h => hn h.symm
      simp [hn, this]

theorem deviceRules_foldl_loadSeatEntry (re : RegexEngine) (vs : List QJsonValue)
    (st : WSeatManager) (n : String) :
    (vs.foldl (WSeatManager.loadSeatEntry re) st).deviceRules n =
      st.deviceRules n ++ (if n = "" then [] else documentRules re vs n) := by
  induction vs generalizing st with
  | nil => simp [documentRules]
  | cons v vs ih =>
    simp only [List.foldl_cons]
    rw [ih, deviceRules_loadSeatEntry]
    by_cases hn : n = ""
    · simp [hn]
    · simp [hn, documentRules]

theorem deviceRules_loadConfig (re : RegexEngine) (s : WSeatManager)
    (config : List (String × QJsonValue)) (n : String) :
    (s.loadConfig re config).deviceRules n =
      if n = "" then [] else documentRules re (seatEntries config) n := by
  rw [loadConfig_eq]
  simp only []
  rw [deviceRules_congr (healFallback_rules _) n]
  have h2 : ∀ s1 : WSeatManager,
      (if s1.m_seats.isEmpty then (s1.createSeat "seat0" true).2 else s1).deviceRules n
        = s1.deviceRules n := by
    intro s1
    split_ifs
    · exact deviceRules_congr (createSeat_rules s1 "seat0" true) n
    · rfl
  rw [h2, deviceRules_foldl_loadSeatEntry]
  have h0 : ({ s with m_seats := [], m_deviceRules := [] } : WSeatManager).deviceRules n = [] := by
    simp [WSeatManager.deviceRules, QMap.contains]
  rw [h0]
  simp

theorem contains_foldl_loadSeatEntry (re : RegexEngine) (vs : List QJsonValue)
    (st : WSeatManager) (n : String) :
    QMap.contains (vs.foldl (WSeatManager.loadSeatEntry re) st).m_seats n = true ↔
      (QMap.contains st.m_seats n = true ∨ n ∈ vs.map entryName) := by
  induction vs generalizing st with
  | nil => simp
  | cons v vs ih =>
    simp only [List.foldl_cons]
    rw [ih, loadSeatEntry_eq, (foldl_addRule_seats re _ _ _).1, contains_createSeat]
    simp only [List.map_cons, List.mem_cons]
    tauto

theorem isEmpty_eq_false_of_contains {α : Type} {m : List (String × α)} {n : String}
    (h : QMap.contains m n = true) : m.isEmpty = false := by
  cases m with
  | nil => simp [QMap.contains] at h
  | cons e m => rfl

theorem contains_healFallback (s : WSeatManager) (n : String) :
    QMap.contains (if s.fallbackSeat.isNone && !s.m_seats.isEmpty then s.promoteFirst
      else s).m_seats n = QMap.contains s.m_seats n := by
  split_ifs
  · exact QMap.contains_congr_keys (promoteFirst_flagView_keys s) n
  · rfl

theorem contains_loadConfig (re : RegexEngine) (s : WSeatManager)
    (config : List (String × QJsonValue)) (h : seatEntries config ≠ []) (n : String) :
    QMap.contains (s.loadConfig re config).m_seats n = true ↔
      n ∈ (seatEntries config).map entryName := by
  rw [loadConfig_eq]
  simp only []
  rw [contains_healFallback]
  obtain ⟨v, vs, hv⟩ := List.exists_cons_of_ne_nil h
  have hne : ((seatEntries config).foldl (WSeatManager.loadSeatEntry re)
      { s with m_seats := [], m_deviceRules := [] }).m_seats.isEmpty = false := by
    apply isEmpty_eq_false_of_contains
    rw [contains_foldl_loadSeatEntry]
    right
    rw [hv]
    exact List.mem_map_of_mem entryName (List.mem_cons_self v vs)
  simp only [hne, Bool.false_eq_true, if_false]
  rw [contains_foldl_loadSeatEntry]
  simp [QMap.contains]
/-- C23, as stated, fails: the document has one entry with the empty
name and the rule "^Logitech.*". `loadConfig` registers a seat under the empty name,
the pattern is a non-empty valid pattern of that name in the document, and
`deviceRules("")` is empty, because `addDeviceRule` rejects the empty seat name. -/
theorem loadConfig_unnamed_entry_drops_rules :
    QMap.contains (WSeatManager.init.loadConfig demoRegex demoUnnamedEntry).m_seats "" = true ∧
    documentRules demoRegex (seatEntries demoUnnamedEntry) "" = ["^Logitech.*"] ∧
    (WSeatManager.init.loadConfig demoRegex demoUnnamedEntry).deviceRules "" = [] := by
  decide

/-- C23, amended: for every prior state and every document with at least one seat
entry, after `loadConfig` the registered names are exactly the names of the entries,
every seat has no device and no output, and `deviceRules(n)` is, for a non-empty name
`n`, the list of the non-empty valid patterns the entries of that name hold, in
document order, and is empty for the empty name. Nothing of the prior state enters. -/
theorem loadConfig_replaces_registry (re : RegexEngine) (s : WSeatManager)
    (config : List (String × QJsonValue)) (h : seatEntries config ≠ []) :
    (∀ n, QMap.contains (s.loadConfig re config).m_seats n = true ↔
      n ∈ (seatEntries config).map entryName) ∧
    (∀ e ∈ (s.loadConfig re config).m_seats, e.2.deviceList = [] ∧ e.2.outputs = []) ∧
    (∀ n, (s.loadConfig re config).deviceRules n =
      if n = "" then [] else documentRules re (seatEntries config) n) :=
  ⟨contains_loadConfig re s config h, loadConfig_all_empty re s config,
    deviceRules_loadConfig re s config⟩

/-- C23 at a concrete document loaded over the registry of the scenarios: seat1 gets
the rules "^Logitech.*" and "^Wacom.*", the rule of the prior state is gone. -/
theorem loadConfig_replaces_registry_witness :
    seatEntries demoDocument ≠ [] ∧
    (demoManager.loadConfig demoRegex demoDocument).deviceRules "seat1"
      = ["^Logitech.*", "^Wacom.*"] ∧
    (∀ e ∈ (demoManager.loadConfig demoRegex demoDocument).m_seats,
      e.2.deviceList = [] ∧ e.2.outputs = []) :=
  ⟨by simp [seatEntries, demoDocument, QJsonObject.get, QJsonValue.toArray],
    ((loadConfig_replaces_registry demoRegex demoManager demoDocument
      (by simp [seatEntries, demoDocument, QJsonObject.get, QJsonValue.toArray])).2.2
        "seat1").trans (by decide),
    (loadConfig_replaces_registry demoRegex demoManager demoDocument
      (by simp [seatEntries, demoDocument, QJsonObject.get, QJsonValue.toArray])).2.1⟩

/-! ### The fallback seat after loadConfig -/

theorem createSeat_quiet (s : WSeatManager) (name : String) (isFallback : Bool)
    (h : isFallback = false ∨ QMap.contains s.m_seats name = true) :
    (s.createSeat name isFallback).2.m_fallbackSeatName = s.m_fallbackSeatName ∧
    (∀ k, QMap.contains s.m_seats k = true →
      QMap.value (s.createSeat name isFallback).2.m_seats k = QMap.value s.m_seats k) ∧
    (∀ k seat, QMap.contains s.m_seats k = false →
      QMap.value (s.createSeat name isFallback).2.m_seats k = some seat →
      seat.isFallback = false) := by
  by_cases hc : QMap.contains s.m_seats name = true
  · have he : s.createSeat name isFallback = (QMap.value s.m_seats name, s) := by
      unfold WSeatManager.createSeat
      rw [if_pos hc]
    rw [he]
    refine ⟨rfl, fun _ _ => rfl, ?_⟩
    intro k seat hk hv
    rw [QMap.contains_eq_isSome, hv] at hk
    cases hk
  · have hb : isFallback = false := by
      rcases h with h | h
      · exact h
      · exact absurd h hc
    subst hb
    have he : s.createSeat name false = (some ((WSeat.create name).setIsFallback false),
        { s with m_seats := QMap.insert s.m_seats name ((WSeat.create name).setIsFallback false) })
        := by
      unfold WSeatManager.createSeat
      rw [if_neg hc]
      rfl
    rw [he]
    refine ⟨rfl, ?_, ?_⟩
    · intro k hk
      have hne : k ≠ name := fun e => hc (e ▸ hk)
      exact QMap.value_insert_other _ _ _ _ hne
    · intro k seat hk hv
      by_cases hkn : k = name
      · subst hkn
        rw [QMap.value_insert_self] at hv
        cases hv
        rfl
      · rw [QMap.value_insert_other _ _ _ _ hkn] at hv
        rw [QMap.contains_eq_isSome, hv] at hk
        cases hk

theorem createSeat_loud (s : WSeatManager) (name : String)
    (hc : QMap.contains s.m_seats name = false) :
    (s.createSeat name true).2.m_fallbackSeatName = name ∧
    ∃ seat, QMap.value (s.createSeat name true).2.m_seats name = some seat ∧
      seat.isFallback = true := by
  have he : s.createSeat name true = (some ((WSeat.create name).setIsFallback true),
      { s with m_fallbackSeatName := name, m_seats := WSeatManager.demoteOthers (QMap.insert s.m_seats name ((WSeat.create name).setIsFallback true)) name })
      := by
    unfold WSeatManager.createSeat
    rw [if_neg (by rw [hc]; exact Bool.false_ne_true)]
    rfl
  rw [he]
  refine ⟨rfl, (WSeat.create name).setIsFallback true, ?_, rfl⟩
  show QMap.value (WSeatManager.demoteOthers _ name) name = _
  rw [value_demoteOthers_self, QMap.value_insert_self]

theorem loadSeatEntry_seats (re : RegexEngine) (st : WSeatManager) (v : QJsonValue) :
    (WSeatManager.loadSeatEntry re st v).m_seats
      = (st.createSeat (entryName v) (entryFallback v)).2.m_seats ∧
    (WSeatManager.loadSeatEntry re st v).m_fallbackSeatName
      = (st.createSeat (entryName v) (entryFallback v)).2.m_fallbackSeatName := by
  rw [loadSeatEntry_eq]
  exact foldl_addRule_seats re _ _ _

theorem contains_loadSeatEntry (re : RegexEngine) (st : WSeatManager) (v : QJsonValue)
    (n : String) :
    QMap.contains (WSeatManager.loadSeatEntry re st v).m_seats n = true ↔
      (QMap.contains st.m_seats n = true ∨ n = entryName v) := by
  rw [(loadSeatEntry_seats re st v).1]
  exact contains_createSeat st _ _ n

theorem seen_loadSeatEntry (re : RegexEngine) (st : WSeatManager) (v : QJsonValue)
    (seen : List String) (hseen : ∀ k, QMap.contains st.m_seats k = true ↔ k ∈ seen) :
    ∀ k, QMap.contains (WSeatManager.loadSeatEntry re st v).m_seats k = true ↔
      k ∈ entryName v :: seen := by
  intro k
  rw [contains_loadSeatEntry, hseen k, List.mem_cons]
  tauto

theorem foldl_loadSeatEntry_quiet (re : RegexEngine) (vs : List QJsonValue)
    (st : WSeatManager) (seen : List String)
    (hseen : ∀ k, QMap.contains st.m_seats k = true ↔ k ∈ seen)
    (hq : creatingFallbackNamesFrom seen vs = []) :
    (vs.foldl (WSeatManager.loadSeatEntry re) st).m_fallbackSeatName = st.m_fallbackSeatName ∧
    (∀ k, QMap.contains st.m_seats k = true →
      QMap.value (vs.foldl (WSeatManager.loadSeatEntry re) st).m_seats k
        = QMap.value st.m_seats k) ∧
    (∀ k seat, QMap.contains st.m_seats k = false →
      QMap.value (vs.foldl (WSeatManager.loadSeatEntry re) st).m_seats k = some seat →
      seat.isFallback = false) := by
  induction vs generalizing st seen with
  | nil =>
    refine ⟨rfl, fun _ _ => rfl, ?_⟩
    intro k seat hk hv
    rw [QMap.contains_eq_isSome] at hk
    simp only [List.foldl_nil] at hv
    rw [hv] at hk
    cases hk
  | cons v vs ih =>
    simp only [creatingFallbackNamesFrom, List.append_eq_nil] at hq
    obtain ⟨hq1, hq2⟩ := hq
    have hquiet : entryFallback v = false ∨ QMap.contains st.m_seats (entryName v) = true := by
      cases hf : entryFallback v
      · exact Or.inl rfl
      · right
        rw [hseen]
        by_contra hmem
        have hcf : seen.contains (entryName v) = false := by
          simpa using hmem
        simp only [hf, hcf, Bool.not_false, Bool.and_self, if_true] at hq1
        cases hq1
    obtain ⟨c1, c2, c3⟩ := createSeat_quiet st (entryName v) (entryFallback v) hquiet
    obtain ⟨e1, e2⟩ := loadSeatEntry_seats re st v
    obtain ⟨i1, i2, i3⟩ := ih (WSeatManager.loadSeatEntry re st v) (entryName v :: seen)
      (seen_loadSeatEntry re st v seen hseen) hq2
    simp only [List.foldl_cons]
    refine ⟨?_, ?_, ?_⟩
    · rw [i1, e2, c1]
    · intro k hk
      rw [i2 k ((contains_loadSeatEntry re st v k).mpr (Or.inl hk)), e1, c2 k hk]
    · intro k seat hk hv
      by_cases hk' : QMap.contains (WSeatManager.loadSeatEntry re st v).m_seats k = true
      · rw [i2 k hk', e1] at hv
        exact c3 k seat hk hv
      · exact i3 k seat (by simpa using hk') hv

theorem foldl_loadSeatEntry_last (re : RegexEngine) (vs : List QJsonValue)
    (st : WSeatManager) (seen : List String)
    (hseen : ∀ k, QMap.contains st.m_seats k = true ↔ k ∈ seen) (n : String)
    (hl : (creatingFallbackNamesFrom seen vs).getLast? = some n) :
    (vs.foldl (WSeatManager.loadSeatEntry re) st).m_fallbackSeatName = n ∧
    ∃ seat, QMap.value (vs.foldl (WSeatManager.loadSeatEntry re) st).m_seats n = some seat ∧
      seat.isFallback = true := by
  induction vs generalizing st seen with
  | nil => simp [creatingFallbackNamesFrom] at hl
  | cons v vs ih =>
    simp only [List.foldl_cons]
    have hseen' := seen_loadSeatEntry re st v seen hseen
    by_cases htl : creatingFallbackNamesFrom (entryName v :: seen) vs = []
    · simp only [creatingFallbackNamesFrom, htl, List.append_nil] at hl
      by_cases hcond : (entryFallback v && !seen.contains (entryName v)) = true
      · simp only [hcond, if_true, List.getLast?_singleton, Option.some.injEq] at hl
        simp only [Bool.and_eq_true, Bool.not_eq_true'] at hcond
        have hnc : QMap.contains st.m_seats (entryName v) = false := by
          cases hc : QMap.contains st.m_seats (entryName v)
          · rfl
          · have := (hseen _).mp hc
            have h2 : seen.contains (entryName v) = true := by simpa using this
            rw [h2] at hcond
            exact absurd hcond.2 (by simp)
        obtain ⟨l1, seat, l2, l3⟩ := createSeat_loud st (entryName v) hnc
        obtain ⟨e1, e2⟩ := loadSeatEntry_seats re st v
        rw [hcond.1] at e1 e2
        obtain ⟨q1, q2, _⟩ := foldl_loadSeatEntry_quiet re vs
          (WSeatManager.loadSeatEntry re st v) (entryName v :: seen) hseen' htl
        have hcn : QMap.contains (WSeatManager.loadSeatEntry re st v).m_seats n = true :=
          (hseen' n).mpr (by rw [← hl]; exact List.mem_cons_self _ _)
        refine ⟨by rw [q1, e2, l1, hl], seat, ?_, l3⟩
        rw [q2 n hcn, e1, ← hl, l2]
      · simp only [eq_false_of_ne_true hcond, Bool.false_eq_true, if_false] at hl
        cases hl
    · have hl' : (creatingFallbackNamesFrom (entryName v :: seen) vs).getLast? = some n := by
        simp only [creatingFallbackNamesFrom] at hl
        rw [List.getLast?_append_of_ne_nil _ htl] at hl
        exact hl
      exact ih _ _ hseen' hl'
theorem loadConfig_wellFormed (re : RegexEngine) (s : WSeatManager)
    (config : List (String × QJsonValue)) : WellFormed (s.loadConfig re config) := by
  have h0 : WellFormed { s with m_seats := [], m_deviceRules := [] } := by
    simp [WellFormed]
  have h := Call.apply_wellFormed re { s with m_seats := [], m_deviceRules := [] }
    (Call.loadConfig config) h0
  exact h

theorem loadConfig_eq_fold (re : RegexEngine) (s : WSeatManager)
    (config : List (String × QJsonValue)) (seat : WSeat)
    (h : QMap.value ((seatEntries config).foldl (WSeatManager.loadSeatEntry re)
        { s with m_seats := [], m_deviceRules := [] }).m_seats
      ((seatEntries config).foldl (WSeatManager.loadSeatEntry re)
        { s with m_seats := [], m_deviceRules := [] }).m_fallbackSeatName = some seat) :
    s.loadConfig re config = (seatEntries config).foldl (WSeatManager.loadSeatEntry re)
      { s with m_seats := [], m_deviceRules := [] } := by
  rw [loadConfig_eq]
  have hne : ((seatEntries config).foldl (WSeatManager.loadSeatEntry re)
      { s with m_seats := [], m_deviceRules := [] }).m_seats.isEmpty = false := by
    apply isEmpty_eq_false_of_contains
    rw [QMap.contains_eq_isSome, h]
    rfl
  simp only [hne, Bool.false_eq_true, if_false, WSeatManager.fallbackSeat, h, Option.isNone_some,
    Bool.false_and]

theorem flagged_iff_of_flagInv {s : WSeatManager} (hi : FlagInv s) {seat : WSeat}
    (hv : QMap.value s.m_seats s.m_fallbackSeatName = some seat)
    (hf : seat.isFallback = true) :
    ∀ e ∈ s.m_seats, e.2.isFallback = true ↔ e.1 = s.m_fallbackSeatName := by
  intro e he
  constructor
  · exact hi.2 e he
  · intro hk
    have hv2 : QMap.value s.m_seats e.1 = some e.2 := QMap.value_of_mem hi.1 he
    rw [hk, hv] at hv2
    cases hv2
    exact hf

theorem loadConfig_fallback_of_last (re : RegexEngine) (s : WSeatManager)
    (config : List (String × QJsonValue)) (n : String)
    (h : (creatingFallbackNames (seatEntries config)).getLast? = some n) :
    (s.loadConfig re config).m_fallbackSeatName = n ∧
    ∃ seat, QMap.value (s.loadConfig re config).m_seats n = some seat ∧
      seat.isFallback = true := by
  obtain ⟨h1, seat, h2, h3⟩ := foldl_loadSeatEntry_last re (seatEntries config)
    { s with m_seats := [], m_deviceRules := [] } [] (by simp [QMap.contains]) n h
  have he := loadConfig_eq_fold re s config seat (by rw [h1]; exact h2)
  rw [he]
  exact ⟨h1, seat, h2, h3⟩

theorem creatingFallbackNamesFrom_of_nodup (seen : List String) (vs : List QJsonValue)
    (hn : (vs.map entryName).Nodup) (hs : ∀ v ∈ vs, entryName v ∉ seen) :
    creatingFallbackNamesFrom seen vs = (vs.filter entryFallback).map entryName := by
  induction vs generalizing seen with
  | nil => rfl
  | cons v vs ih =>
    simp only [List.map_cons, List.nodup_cons] at hn
    have hc : seen.contains (entryName v) = false := by
      simpa using hs v (List.mem_cons_self v vs)
    have htail := ih (entryName v :: seen) hn.2 (by
      intro w hw hmem
      rcases List.mem_cons.mp hmem with h | h
      · exact hn.1 (h ▸ List.mem_map_of_mem entryName hw)
      · exact hs w (List.mem_cons_of_mem v hw) h)
    simp only [creatingFallbackNamesFrom, hc, Bool.not_false, Bool.and_true, htail,
      List.filter_cons]
    cases entryFallback v <;> simp

/-- C28, as stated, fails. In the first document the entries are seat1 (fallback
false), seat0 (fallback true) and seat1 again (fallback true): two entries with
distinct names have fallback true and the last of them is the second entry of seat1,
but after `loadConfig` the fallback seat is seat0 and seat1 is unflagged, because
`createSeat` returns early for the existing name; the empty pattern and the pattern
that does not compile are missing from `deviceRules("seat1")`. In the second document
the entries are the empty name (fallback true), seat0 (fallback true) and the empty
name again, the two of the empty name with one valid rule each: the rule lists are not
concatenated, `deviceRules("")` is empty. -/
theorem loadConfig_repeated_name_entry_sets_no_fallback :
    (seatEntries demoRepeatedFallback).map (fun v => (entryName v, entryFallback v))
      = [("seat1", false), ("seat0", true), ("seat1", true)] ∧
    flagView (WSeatManager.init.loadConfig demoRegex demoRepeatedFallback).m_seats
      = [("seat0", true), ("seat1", false)] ∧
    (WSeatManager.init.loadConfig demoRegex demoRepeatedFallback).fallbackSeat.map
      (fun seat => seat.name) = some "seat0" ∧
    (seatEntries demoRepeatedFallback).map entryRules
      = [["^Logitech.*", "", "["], [], ["^Wacom.*"]] ∧
    (WSeatManager.init.loadConfig demoRegex demoRepeatedFallback).deviceRules "seat1"
      = ["^Logitech.*", "^Wacom.*"] ∧
    (seatEntries demoEmptyNameRepeated).map (fun v => (entryName v, entryFallback v))
      = [("", true), ("seat0", true), ("", false)] ∧
    (seatEntries demoEmptyNameRepeated).map entryRules
      = [["^Logitech.*"], [], ["^Wacom.*"]] ∧
    QMap.contains (WSeatManager.init.loadConfig demoRegex demoEmptyNameRepeated).m_seats ""
      = true ∧
    (WSeatManager.init.loadConfig demoRegex demoEmptyNameRepeated).deviceRules "" = [] := by
  decide

/-- C28, amended: for every prior state and every document, take the entries that are
the first of their name and have fallback true; when `n` is the name of the last of
them in document order, then after `loadConfig` the seat `n` is the fallback seat:
`fallbackSeat()` returns it with its flag set, and every other seat, a seat created
with fallback true by an earlier entry included, has its flag cleared. When no name
is repeated these entries are all the entries with fallback true. An entry that
repeats a name creates no seat and changes no flag; for a non-empty name
`deviceRules` is the concatenation, in document order, of the non-empty valid patterns
of all entries of that name, and for the empty name it is empty. -/
theorem loadConfig_last_creating_fallback_wins (re : RegexEngine) (s : WSeatManager)
    (config : List (String × QJsonValue)) :
    (∀ n, (creatingFallbackNames (seatEntries config)).getLast? = some n →
      (∃ seat, (s.loadConfig re config).fallbackSeat = some seat ∧ seat.name = n ∧
        seat.isFallback = true) ∧
      (∀ e ∈ (s.loadConfig re config).m_seats, e.2.isFallback = true ↔ e.1 = n)) ∧
    (((seatEntries config).map entryName).Nodup →
      creatingFallbackNames (seatEntries config)
        = ((seatEntries config).filter entryFallback).map entryName) ∧
    (∀ m, (s.loadConfig re config).deviceRules m =
      if m = "" then [] else documentRules re (seatEntries config) m) := by
  refine ⟨?_, ?_, deviceRules_loadConfig re s config⟩
  · intro n h
    obtain ⟨h1, seat, h2, h3⟩ := loadConfig_fallback_of_last re s config n h
    have hw := loadConfig_wellFormed re s config
    have hi := loadConfig_flagInv re s config
    refine ⟨⟨seat, ?_, ?_, h3⟩, ?_⟩
    · rw [WSeatManager.fallbackSeat, h1, h2]
    · exact hw.2 _ (QMap.value_mem h2)
    · have := flagged_iff_of_flagInv hi (by rw [h1]; exact h2) h3
      rw [h1] at this
      exact this
  · intro hn
    exact creatingFallbackNamesFrom_of_nodup [] _ hn (by simp)

/-- C28 at the first document, loaded over the registry of the scenarios: the entries
that are the first of their name and have fallback true are seat0 alone, seat0 becomes
the fallback seat and seat1 ends unflagged. -/
theorem loadConfig_last_creating_fallback_wins_witness :
    creatingFallbackNames (seatEntries demoRepeatedFallback) = ["seat0"] ∧
    (∃ seat, (demoManager.loadConfig demoRegex demoRepeatedFallback).fallbackSeat = some seat ∧
      seat.name = "seat0" ∧ seat.isFallback = true) ∧
    (∀ e ∈ (demoManager.loadConfig demoRegex demoRepeatedFallback).m_seats,
      e.2.isFallback = true ↔ e.1 = "seat0") ∧
    (demoManager.loadConfig demoRegex demoRepeatedFallback).deviceRules "seat1"
      = ["^Logitech.*", "^Wacom.*"] :=
  ⟨by decide,
    ((loadConfig_last_creating_fallback_wins demoRegex demoManager demoRepeatedFallback).1
      "seat0" (by decide)).1,
    ((loadConfig_last_creating_fallback_wins demoRegex demoManager demoRepeatedFallback).1
      "seat0" (by decide)).2,
    ((loadConfig_last_creating_fallback_wins demoRegex demoManager demoRepeatedFallback).2.2
      "seat1").trans (by decide)⟩

/-! ### The fallback seat after loadConfig and the recorded name of the prior state -/

theorem loadConfig_nonempty (re : RegexEngine) (s : WSeatManager)
    (config : List (String × QJsonValue)) : (s.loadConfig re config).m_seats ≠ [] := by
  rw [loadConfig_eq]
  simp only []
  generalize (seatEntries config).foldl (WSeatManager.loadSeatEntry re)
    { s with m_seats := [], m_deviceRules := [] } = s1
  have h2 : (if s1.m_seats.isEmpty then (s1.createSeat "seat0" true).2 else s1).m_seats.isEmpty
      = false := by
    split_ifs with he
    · exact isEmpty_eq_false_of_contains
        ((contains_createSeat s1 "seat0" true "seat0").mpr (Or.inr rfl))
    · simpa using he
  generalize (if s1.m_seats.isEmpty then (s1.createSeat "seat0" true).2 else s1) = s2 at h2
  intro h0
  have hc : ∀ n, QMap.contains s2.m_seats n = false := by
    intro n
    rw [← contains_healFallback s2 n, h0]
    rfl
  cases hm : s2.m_seats with
  | nil => rw [hm] at h2; cases h2
  | cons e rest =>
    have := hc e.1
    rw [hm] at this
    simp [QMap.contains] at this

theorem loadConfig_heals_unless_stale (re : RegexEngine) (s : WSeatManager)
    (config : List (String × QJsonValue))
    (h : creatingFallbackNames (seatEntries config) ≠ [] ∨
      s.m_fallbackSeatName ∉ (seatEntries config).map entryName) :
    fallbackCount (s.loadConfig re config) = 1 ∧
    ∃ seat, (s.loadConfig re config).fallbackSeat = some seat ∧ seat.isFallback = true := by
  have hi := loadConfig_flagInv re s config
  have key : ∃ seat, (s.loadConfig re config).fallbackSeat = some seat ∧
      seat.isFallback = true := by
    by_cases hL : creatingFallbackNames (seatEntries config) = []
    · have hF : s.m_fallbackSeatName ∉ (seatEntries config).map entryName := by
        rcases h with h | h
        · exact absurd hL h
        · exact h
      obtain ⟨q1, _, _⟩ := foldl_loadSeatEntry_quiet re (seatEntries config)
        { s with m_seats := [], m_deviceRules := [] } [] (by simp [QMap.contains]) hL
      have hnone : ((seatEntries config).foldl (WSeatManager.loadSeatEntry re)
          { s with m_seats := [], m_deviceRules := [] }).fallbackSeat = none := by
        unfold WSeatManager.fallbackSeat
        rw [q1]
        apply Option.not_isSome_iff_eq_none.mp
        rw [← QMap.contains_eq_isSome, contains_foldl_loadSeatEntry]
        simp only [QMap.contains, Bool.false_eq_true, false_or]
        exact hF
      rw [loadConfig_eq]
      simp only []
      generalize (seatEntries config).foldl (WSeatManager.loadSeatEntry re)
        { s with m_seats := [], m_deviceRules := [] } = s1 at hnone
      cases hm : s1.m_seats with
      | nil =>
        obtain ⟨l1, seat, l2, l3⟩ := createSeat_loud s1 "seat0" (by rw [hm]; rfl)
        have hfs : (s1.createSeat "seat0" true).2.fallbackSeat = some seat := by
          unfold WSeatManager.fallbackSeat
          rw [l1, l2]
        simp only [List.isEmpty_nil, if_true, hfs, Option.isNone_some, Bool.false_and,
          Bool.false_eq_true, if_false]
        exact ⟨seat, rfl, l3⟩
      | cons e rest =>
        simp only [List.isEmpty_cons, Bool.false_eq_true, if_false, hnone, Option.isNone_none,
          hm, Bool.not_false, Bool.and_self, if_true]
        refine ⟨e.2.setIsFallback true, ?_, rfl⟩
        simp [WSeatManager.promoteFirst, hm, WSeatManager.fallbackSeat, QMap.value]
    · obtain ⟨n, hn⟩ : ∃ n, (creatingFallbackNames (seatEntries config)).getLast? = some n :=
        ⟨_, List.getLast?_eq_getLast _ hL⟩
      obtain ⟨h1, seat, h2, h3⟩ := loadConfig_fallback_of_last re s config n hn
      exact ⟨seat, by rw [WSeatManager.fallbackSeat, h1, h2], h3⟩
  refine ⟨?_, key⟩
  obtain ⟨seat, hs1, hs2⟩ := key
  exact fallbackCount_eq_one hi
    ⟨(_, seat), QMap.value_mem (by exact hs1), hs2⟩

/-- C22: the code at the failing input. No fallback seat is left. The
prior state is the scenario of the spec, whose recorded fallback name is "seat0"; the
document has the entries seat0 and seat1 without fallback true. `loadConfig` does not
reset the recorded name, so `fallbackSeat()` finds the new seat0 and the promotion of
lines 289-293 is skipped: no seat is flagged, and `fallbackSeat()` returns a seat
whose flag is false. -/
theorem loadConfig_stale_name_leaves_no_fallback :
    demoScenario.m_fallbackSeatName = "seat0" ∧
    flagView (demoScenario.loadConfig demoRegex demoPlainDocument).m_seats
      = [("seat0", false), ("seat1", false)] ∧
    fallbackCount (demoScenario.loadConfig demoRegex demoPlainDocument) = 0 ∧
    (demoScenario.loadConfig demoRegex demoPlainDocument).fallbackSeat.map
      (fun seat => (seat.name, seat.isFallback)) = some ("seat0", false) := by
  decide

/-! ### Stored rules are accepted rules -/

theorem rulesAccepted_of_rules {re : RegexEngine} {s s' : WSeatManager}
    (h : s'.m_deviceRules = s.m_deviceRules) (hr : RulesAccepted re s) : RulesAccepted re s' := by
  unfold RulesAccepted
  rw [deviceRules_congr h]
  refine ⟨hr.1, fun n => ?_⟩
  rw [deviceRules_congr h]
  exact hr.2 n

theorem mem_acceptedRules {re : RegexEngine} {rules : List String} {r : String}
    (h : r ∈ acceptedRules re rules) : r.isEmpty = false ∧ re.isValid r = true := by
  unfold acceptedRules at h
  have := (List.mem_filter.mp h).2
  simpa using this

theorem mem_documentRules {re : RegexEngine} {vs : List QJsonValue} {n r : String}
    (h : r ∈ documentRules re vs n) : r.isEmpty = false ∧ re.isValid r = true := by
  induction vs with
  | nil => simp [documentRules] at h
  | cons v vs ih =>
    simp only [documentRules, List.mem_append] at h
    rcases h with h | h
    · split_ifs at h
      · exact mem_acceptedRules h
      · cases h
    · exact ih h

theorem acceptedRules_eq_self {re : RegexEngine} {rules : List String}
    (h : ∀ r ∈ rules, r.isEmpty = false ∧ re.isValid r = true) :
    acceptedRules re rules = rules := by
  unfold acceptedRules
  rw [List.filter_eq_self]
  intro r hr
  obtain ⟨h1, h2⟩ := h r hr
  simp [h1, h2]

theorem addDeviceRule_rulesAccepted (re : RegexEngine) (s : WSeatManager)
    (seatName rule : String) (h : RulesAccepted re s) :
    RulesAccepted re (s.addDeviceRule re seatName rule) := by
  cases hrej : addDeviceRuleRejected re s seatName rule
  · have hd := deviceRules_addDeviceRule re s seatName rule hrej
    simp only [addDeviceRuleRejected, Bool.or_eq_false_iff, Bool.not_eq_false',
      Bool.not_eq_eq_eq_not, Bool.not_true] at hrej
    obtain ⟨⟨⟨hn, _⟩, hr1⟩, hr2⟩ := hrej
    have hne : ¬ "" = seatName := by
      intro e
      rw [← e] at hn
      exact absurd hn (by decide)
    refine ⟨?_, ?_⟩
    · rw [hd, if_neg hne]
      exact h.1
    · intro n r hr
      rw [hd] at hr
      split_ifs at hr
      · rcases List.mem_append.mp hr with hr | hr
        · exact h.2 n r hr
        · simp only [List.mem_singleton] at hr
          subst hr
          exact ⟨hr1, by simpa using hr2⟩
      · exact h.2 n r hr
  · rw [addDeviceRule_rejected re s seatName rule hrej]
    exact h

theorem removeDeviceRule_rulesAccepted (re : RegexEngine) (s : WSeatManager)
    (seatName rule : String) (h : RulesAccepted re s) :
    RulesAccepted re (s.removeDeviceRule re seatName rule) := by
  cases hv : re.isValid rule
  · rw [removeDeviceRule_noop re s seatName rule (Or.inr hv)]
    exact h
  · have hd := deviceRules_removeDeviceRule re s seatName rule hv
    refine ⟨?_, ?_⟩
    · rw [hd, h.1]
      simp
    · intro n r hr
      rw [hd] at hr
      split_ifs at hr
      · exact h.2 n r (List.mem_of_mem_erase hr)
      · exact h.2 n r hr

theorem loadConfig_rulesAccepted (re : RegexEngine) (s : WSeatManager)
    (config : List (String × QJsonValue)) : RulesAccepted re (s.loadConfig re config) := by
  refine ⟨?_, ?_⟩
  · rw [deviceRules_loadConfig]
    simp
  · intro n r hr
    rw [deviceRules_loadConfig] at hr
    split_ifs at hr
    · cases hr
    · exact mem_documentRules hr

theorem Call.apply_rulesAccepted (re : RegexEngine) (s : WSeatManager) (c : Call)
    (h : RulesAccepted re s) : RulesAccepted re (c.apply re s) := by
  cases c with
  | createSeat name isFallback => exact rulesAccepted_of_rules (createSeat_rules s _ _) h
  | removeSeat name => exact rulesAccepted_of_rules (removeSeat_views re s name).2.2 h
  | removeSeatPtr seat =>
    simp only [Call.apply, WSeatManager.removeSeatPtr]
    cases seat with
    | null => exact h
    | owned key =>
      simp only
      split_ifs
      · exact rulesAccepted_of_rules (removeSeat_views re s _).2.2 h
      · exact h
    | foreign =>
      simp only
      split_ifs
      · exact rulesAccepted_of_rules (removeSeat_views re s _).2.2 h
      · exact h
  | assignDeviceToSeat device seatName =>
    exact rulesAccepted_of_rules (assignDeviceToSeat_flagView s device seatName).2.2 h
  | autoAssignDevice device =>
    exact rulesAccepted_of_rules (autoAssignDevice_flagView re s device).2.2 h
  | assignOutputToSeat output seatName =>
    exact rulesAccepted_of_rules (assignOutputToSeat_flagView s output seatName).2.2 h
  | addDeviceRule seatName rule => exact addDeviceRule_rulesAccepted re s seatName rule h
  | removeDeviceRule seatName rule =>
    exact removeDeviceRule_rulesAccepted re s seatName rule h
  | loadConfig config => exact loadConfig_rulesAccepted re s config
  | create server =>
    cases server with
    | none => exact h
    | some _ => exact rulesAccepted_of_rules (healFallback_rules s) h
  | destroy server =>
    simp [Call.apply, WSeatManager.destroy, RulesAccepted, WSeatManager.deviceRules,
      QMap.contains]

/-- In every state that a sequence of calls produces from a freshly constructed manager
no pattern is stored for the empty seat name and every stored pattern is non-empty and
compiles. -/
theorem runCalls_rulesAccepted (re : RegexEngine) (calls : List Call) :
    RulesAccepted re (runCalls re WSeatManager.init calls) := by
  have h : ∀ (cs : List Call) (s : WSeatManager), RulesAccepted re s →
      RulesAccepted re (runCalls re s cs) := by
    intro cs
    induction cs with
    | nil => exact fun _ hs => hs
    | cons c cs ih => exact fun s hs => ih _ (Call.apply_rulesAccepted re s c hs)
  apply h
  simp [RulesAccepted, WSeatManager.init, WSeatManager.deviceRules, QMap.contains]
/-! ### The round trip through saveConfig and loadConfig -/

theorem documentRules_saved (re : RegexEngine) (s : WSeatManager) (n : String)
    (l : List (String × WSeat)) (hn : NodupKeys l) :
    documentRules re (l.map s.saveSeatEntry) n =
      if n ∈ l.map Prod.fst then acceptedRules re (s.deviceRules n) else [] := by
  induction l with
  | nil => simp [documentRules]
  | cons e l ih =>
    have hn' : NodupKeys l := (List.nodup_cons.mp hn).2
    have hnot : e.1 ∉ l.map Prod.fst := (List.nodup_cons.mp hn).1
    simp only [List.map_cons, documentRules, entryName_saveSeatEntry, entryRules_saveSeatEntry,
      List.mem_cons]
    rw [ih hn']
    by_cases he : e.1 = n
    · have : n ∉ l.map Prod.fst := he ▸ hnot
      simp [he, this]
    · have : ¬ n = e.1 := fun h => he h.symm
      rw [if_neg he, List.nil_append]
      simp only [this, false_or]

theorem mem_creatingFallbackNamesFrom {seen : List String} {vs : List QJsonValue} {x : String}
    (h : x ∈ creatingFallbackNamesFrom seen vs) :
    ∃ v ∈ vs, entryName v = x ∧ entryFallback v = true := by
  induction vs generalizing seen with
  | nil => simp [creatingFallbackNamesFrom] at h
  | cons v vs ih =>
    simp only [creatingFallbackNamesFrom, List.mem_append] at h
    rcases h with h | h
    · split_ifs at h with hc
      · simp only [List.mem_singleton] at h
        simp only [Bool.and_eq_true] at hc
        exact ⟨v, List.mem_cons_self v vs, h.symm, hc.1⟩
      · cases h
    · obtain ⟨w, hw, h1, h2⟩ := ih h
      exact ⟨w, List.mem_cons_of_mem v hw, h1, h2⟩

theorem creatingFallbackNamesFrom_mem {seen : List String} {vs : List QJsonValue}
    (hn : (vs.map entryName).Nodup) {v : QJsonValue} (hv : v ∈ vs)
    (hf : entryFallback v = true) (hs : entryName v ∉ seen) :
    entryName v ∈ creatingFallbackNamesFrom seen vs := by
  induction vs generalizing seen with
  | nil => cases hv
  | cons w vs ih =>
    simp only [List.map_cons, List.nodup_cons] at hn
    simp only [creatingFallbackNamesFrom, List.mem_append]
    rcases List.mem_cons.mp hv with hv | hv
    · subst hv
      left
      have hc : seen.contains (entryName v) = false := by simpa using hs
      simp only [hf, hc, Bool.not_false, Bool.and_self, if_true, List.mem_singleton]
    · right
      apply ih hn.2 hv
      intro hmem
      rcases List.mem_cons.mp hmem with h | h
      · exact hn.1 (h ▸ List.mem_map_of_mem entryName hv)
      · exact hs h

theorem getLast?_of_all_eq {l : List String} {x : String} (hne : l ≠ [])
    (h : ∀ y ∈ l, y = x) : l.getLast? = some x := by
  rw [List.getLast?_eq_getLast l hne]
  exact congrArg some (h _ (List.getLast_mem hne))

theorem flagOf_eq_of_flags {s r : WSeatManager} (Q : String → Prop)
    (hc : ∀ n, QMap.contains r.m_seats n = QMap.contains s.m_seats n)
    (hr : ∀ e ∈ r.m_seats, e.2.isFallback = true ↔ Q e.1)
    (hs : ∀ e ∈ s.m_seats, e.2.isFallback = true ↔ Q e.1) (n : String) :
    r.flagOf n = s.flagOf n := by
  unfold WSeatManager.flagOf WSeatManager.getSeat
  have hcn := hc n
  rw [QMap.contains_eq_isSome, QMap.contains_eq_isSome] at hcn
  rcases Option.eq_none_or_eq_some (QMap.value r.m_seats n) with h1 | ⟨a, h1⟩
  · rw [h1] at hcn ⊢
    rcases Option.eq_none_or_eq_some (QMap.value s.m_seats n) with h2 | ⟨b, h2⟩
    · rw [h2]
    · rw [h2] at hcn
      cases hcn
  · rw [h1] at hcn ⊢
    rcases Option.eq_none_or_eq_some (QMap.value s.m_seats n) with h2 | ⟨b, h2⟩
    · rw [h2] at hcn
      cases hcn
    · rw [h2]
      simp only [Option.map_some', Option.some.injEq]
      have ha := hr _ (QMap.value_mem h1)
      have hb := hs _ (QMap.value_mem h2)
      simp only at ha hb
      rw [Bool.eq_iff_iff, ha, hb]

theorem saved_entries_names (s : WSeatManager) :
    (seatEntries s.saveConfig).map entryName = s.m_seats.map Prod.fst := by
  rw [seatEntries_saveConfig, List.map_map]
  apply List.map_congr_left
  intro e _
  exact entryName_saveSeatEntry s e

theorem roundTrip_core (re : RegexEngine) (s : WSeatManager)
    (hi : FlagInv s) (hr : RulesAccepted re s) (hf : s.fallbackSeat.isSome = true) :
    (∀ n, QMap.contains (s.loadConfig re s.saveConfig).m_seats n = QMap.contains s.m_seats n) ∧
    (∀ n, (s.loadConfig re s.saveConfig).flagOf n = s.flagOf n) ∧
    (∀ n, QMap.contains s.m_seats n = true →
      (s.loadConfig re s.saveConfig).deviceRules n = s.deviceRules n) ∧
    (∀ n, QMap.contains s.m_seats n = false →
      (s.loadConfig re s.saveConfig).deviceRules n = []) := by
  obtain ⟨fb, hfb⟩ := Option.isSome_iff_exists.mp hf
  have hfb' : QMap.value s.m_seats s.m_fallbackSeatName = some fb := hfb
  have hmem : (s.m_fallbackSeatName, fb) ∈ s.m_seats := QMap.value_mem hfb'
  have hnames := saved_entries_names s
  have hne : seatEntries s.saveConfig ≠ [] := by
    intro h0
    rw [h0] at hnames
    have : s.m_seats = [] := by simpa using hnames.symm
    rw [this] at hmem
    cases hmem
  have hkeys : ∀ n, QMap.contains (s.loadConfig re s.saveConfig).m_seats n
      = QMap.contains s.m_seats n := by
    intro n
    rw [Bool.eq_iff_iff, contains_loadConfig re s _ hne, QMap.contains_iff_mem_keys, hnames]
  have hrules : ∀ n, (s.loadConfig re s.saveConfig).deviceRules n =
      if n ∈ s.m_seats.map Prod.fst then s.deviceRules n else [] := by
    intro n
    rw [deviceRules_loadConfig, seatEntries_saveConfig, documentRules_saved re s n _ hi.1,
      acceptedRules_eq_self (hr.2 n)]
    by_cases hn : n = ""
    · subst hn
      simp [hr.1]
    · simp [hn]
  refine ⟨hkeys, ?_, ?_, ?_⟩
  · cases hflag : fb.isFallback
    · -- no seat is flagged; the recorded name names an unflagged seat
      have hnone : ∀ e ∈ s.m_seats, e.2.isFallback = true ↔ False := by
        intro e he
        constructor
        · intro hef
          have hk := hi.2 e he hef
          have hv2 : QMap.value s.m_seats e.1 = some e.2 := QMap.value_of_mem hi.1 he
          rw [hk, hfb'] at hv2
          cases hv2
          rw [hflag] at hef
          cases hef
        · exact False.elim
      have hL : creatingFallbackNamesFrom [] (seatEntries s.saveConfig) = [] := by
        apply List.eq_nil_iff_forall_not_mem.mpr
        intro x hx
        obtain ⟨v, hv, _, hvf⟩ := mem_creatingFallbackNamesFrom hx
        rw [seatEntries_saveConfig] at hv
        obtain ⟨e, he, rfl⟩ := List.mem_map.mp hv
        rw [entryFallback_saveSeatEntry] at hvf
        exact (hnone e he).mp hvf
      obtain ⟨q1, _, q3⟩ := foldl_loadSeatEntry_quiet re (seatEntries s.saveConfig)
        { s with m_seats := [], m_deviceRules := [] } [] (by simp [QMap.contains]) hL
      have hcF : QMap.contains ((seatEntries s.saveConfig).foldl (WSeatManager.loadSeatEntry re)
          { s with m_seats := [], m_deviceRules := [] }).m_seats s.m_fallbackSeatName = true := by
        rw [contains_foldl_loadSeatEntry, hnames]
        right
        exact List.mem_map_of_mem Prod.fst hmem
      rw [QMap.contains_eq_isSome] at hcF
      obtain ⟨seat, hseat⟩ := Option.isSome_iff_exists.mp hcF
      have he := loadConfig_eq_fold re s s.saveConfig seat (by rw [q1]; exact hseat)
      have hR : ∀ e ∈ (s.loadConfig re s.saveConfig).m_seats, e.2.isFallback = true ↔ False := by
        intro e hemem
        rw [he] at hemem
        have := q3 e.1 e.2 rfl
          (QMap.value_of_mem (foldl_loadSeatEntry_flagInv re _ _
            (by simp [FlagInv, NodupKeys])).1 hemem)
        simp [this]
      exact flagOf_eq_of_flags (fun _ => False) hkeys hR hnone
    · -- the seat under the recorded name is flagged
      have hS := flagged_iff_of_flagInv hi hfb' hflag
      have hL : (creatingFallbackNames (seatEntries s.saveConfig)).getLast?
          = some s.m_fallbackSeatName := by
        apply getLast?_of_all_eq
        · have hv : s.saveSeatEntry (s.m_fallbackSeatName, fb) ∈ seatEntries s.saveConfig := by
            rw [seatEntries_saveConfig]
            exact List.mem_map_of_mem _ hmem
          have := @creatingFallbackNamesFrom_mem [] _
            (by rw [hnames]; exact hi.1) _ hv
            (by rw [entryFallback_saveSeatEntry]; exact hflag) (by simp)
          intro h0
          unfold creatingFallbackNames at h0
          rw [h0] at this
          cases this
        · intro y hy
          obtain ⟨v, hv, hvn, hvf⟩ := mem_creatingFallbackNamesFrom hy
          rw [seatEntries_saveConfig] at hv
          obtain ⟨e, he, rfl⟩ := List.mem_map.mp hv
          rw [entryFallback_saveSeatEntry] at hvf
          rw [entryName_saveSeatEntry] at hvn
          rw [← hvn]
          exact hi.2 e he hvf
      obtain ⟨h1, seat, h2, h3⟩ := loadConfig_fallback_of_last re s s.saveConfig _ hL
      have hR := flagged_iff_of_flagInv (loadConfig_flagInv re s s.saveConfig)
        (by rw [h1]; exact h2) h3
      rw [h1] at hR
      exact flagOf_eq_of_flags (fun k => k = s.m_fallbackSeatName) hkeys hR hS
  · intro n hn
    rw [hrules, if_pos ((QMap.contains_iff_mem_keys _ _).mp hn)]
  · intro n hn
    rw [hrules, if_neg]
    intro hmem2
    rw [(QMap.contains_iff_mem_keys _ _).mpr hmem2] at hn
    cases hn
theorem roundTrip_fails_without_fallbackSeat (re : RegexEngine) (s : WSeatManager)
    (hi : FlagInv s) (hf : s.fallbackSeat = none) : ¬ RoundTripReproduces re s := by
  rintro ⟨hkeys, hflags, _⟩
  have hnames := saved_entries_names s
  have hnoflag := FlagInv.no_flag_of_no_fallbackSeat hi hf
  have hL : creatingFallbackNamesFrom [] (seatEntries s.saveConfig) = [] := by
    apply List.eq_nil_iff_forall_not_mem.mpr
    intro x hx
    obtain ⟨v, hv, _, hvf⟩ := mem_creatingFallbackNamesFrom hx
    rw [seatEntries_saveConfig] at hv
    obtain ⟨e, he, rfl⟩ := List.mem_map.mp hv
    rw [entryFallback_saveSeatEntry, hnoflag e he] at hvf
    cases hvf
  obtain ⟨q1, _, _⟩ := foldl_loadSeatEntry_quiet re (seatEntries s.saveConfig)
    { s with m_seats := [], m_deviceRules := [] } [] (by simp [QMap.contains]) hL
  have hck : ∀ n, QMap.contains ((seatEntries s.saveConfig).foldl (WSeatManager.loadSeatEntry re)
      { s with m_seats := [], m_deviceRules := [] }).m_seats n = QMap.contains s.m_seats n := by
    intro n
    rw [Bool.eq_iff_iff, contains_foldl_loadSeatEntry, hnames, ← QMap.contains_iff_mem_keys]
    simp [QMap.contains]
  cases hm : s.m_seats with
  | nil =>
    have he : seatEntries s.saveConfig = [] := by
      rw [seatEntries_saveConfig, hm]
      rfl
    have h1 := hkeys "seat0"
    rw [loadConfig_eq] at h1
    simp only [] at h1
    rw [contains_healFallback, he, hm] at h1
    simp only [List.foldl_nil, List.isEmpty_nil, if_true] at h1
    have h2 := (contains_createSeat { s with m_seats := [], m_deviceRules := [] } "seat0" true
      "seat0").mpr (Or.inr rfl)
    rw [h2] at h1
    simp [QMap.contains] at h1
  | cons e0 rest =>
    have hfold_none : ((seatEntries s.saveConfig).foldl (WSeatManager.loadSeatEntry re)
        { s with m_seats := [], m_deviceRules := [] }).fallbackSeat = none := by
      unfold WSeatManager.fallbackSeat
      rw [q1]
      have h0 := hck s.m_fallbackSeatName
      rw [QMap.contains_eq_isSome, QMap.contains_eq_isSome] at h0
      have hf' : QMap.value s.m_seats s.m_fallbackSeatName = none := hf
      rw [hf'] at h0
      exact Option.not_isSome_iff_eq_none.mp (by rw [h0]; simp)
    have hfold_ne : ((seatEntries s.saveConfig).foldl (WSeatManager.loadSeatEntry re)
        { s with m_seats := [], m_deviceRules := [] }).m_seats.isEmpty = false := by
      apply @isEmpty_eq_false_of_contains _ _ e0.1
      rw [hck, hm]
      simp [QMap.contains]
    have hR : s.loadConfig re s.saveConfig = ((seatEntries s.saveConfig).foldl
        (WSeatManager.loadSeatEntry re)
        { s with m_seats := [], m_deviceRules := [] }).promoteFirst := by
      rw [loadConfig_eq]
      simp only [hfold_ne, Bool.false_eq_true, if_false, hfold_none, Option.isNone_none,
        Bool.not_false, Bool.and_self, if_true]
    obtain ⟨e, he, hflag⟩ : HasFlaggedSeat (s.loadConfig re s.saveConfig) := by
      rw [hR]
      apply promoteFirst_hasFlaggedSeat
      intro h0
      rw [h0] at hfold_ne
      cases hfold_ne
    have hv := QMap.value_of_mem (loadConfig_flagInv re s s.saveConfig).1 he
    have h2 := hflags e.1
    unfold WSeatManager.flagOf WSeatManager.getSeat at h2
    rw [hv] at h2
    rcases Option.eq_none_or_eq_some (QMap.value s.m_seats e.1) with h3 | ⟨b, h3⟩
    · rw [h3] at h2
      cases h2
    · rw [h3] at h2
      simp only [Option.map_some', Option.some.injEq] at h2
      have := hnoflag _ (QMap.value_mem h3)
      simp only at this
      rw [hflag, this] at h2
      cases h2

/-- C21, as stated, fails at two reachable states. After the single call
`createSeat("seat1", false)` no seat is flagged and `fallbackSeat()` is null; the
round trip promotes seat1, so its fallback flag changes from false to true. On a
freshly constructed manager the registry is empty, and the round trip leaves the
default seat seat0. -/
theorem round_trip_changes_state_without_fallback :
    flagView demoNoFallback.m_seats = [("seat1", false)] ∧
    flagView (demoNoFallback.loadConfig demoRegex demoNoFallback.saveConfig).m_seats
      = [("seat1", true)] ∧
    flagView WSeatManager.init.m_seats = [] ∧
    flagView (WSeatManager.init.loadConfig demoRegex WSeatManager.init.saveConfig).m_seats
      = [("seat0", true)] := by
  decide

/-- C21, amended: for every state `s` that a sequence of calls produces from a
freshly constructed manager, `loadConfig(saveConfig())` on that manager reproduces
the set of seat names, the fallback flag of every seat and the rule list of every
seat exactly when `fallbackSeat()` returns a seat in `s`, which is the case whenever
a seat of `s` is flagged. The rules stored for names without a seat are dropped. -/
theorem loadConfig_saveConfig_round_trip (re : RegexEngine) (calls : List Call)
    (s : WSeatManager) (hs : s = runCalls re WSeatManager.init calls) :
    (RoundTripReproduces re s ↔ s.fallbackSeat.isSome = true) ∧
    (HasFlaggedSeat s → s.fallbackSeat.isSome = true) ∧
    (∀ n, QMap.contains s.m_seats n = false →
      (s.loadConfig re s.saveConfig).deviceRules n = []) := by
  have hi : FlagInv s := by rw [hs]; exact (runCalls_state_invariants re calls).2.2.2
  have hr : RulesAccepted re s := by rw [hs]; exact runCalls_rulesAccepted re calls
  refine ⟨⟨?_, ?_⟩, ?_, ?_⟩
  · intro h
    by_contra hf
    exact roundTrip_fails_without_fallbackSeat re s hi
      (Option.not_isSome_iff_eq_none.mp hf) h
  · intro hf
    obtain ⟨h1, h2, h3, _⟩ := roundTrip_core re s hi hr hf
    exact ⟨h1, h2, h3⟩
  · rintro ⟨e, he, hflag⟩
    have hk := hi.2 e he hflag
    have hv := QMap.value_of_mem hi.1 he
    unfold WSeatManager.fallbackSeat
    rw [← hk, hv]
    rfl
  · intro n hn
    rw [deviceRules_loadConfig]
    split_ifs
    · rfl
    · rw [seatEntries_saveConfig, documentRules_saved re s n _ hi.1, if_neg]
      intro hmem
      rw [(QMap.contains_iff_mem_keys _ _).mpr hmem] at hn
      cases hn

/-- C21 at the scenario of the spec: `demoScenario` is the state after three calls,
its fallback seat is seat0, and the round trip reproduces it. -/
theorem loadConfig_saveConfig_round_trip_witness :
    demoScenario.fallbackSeat.isSome = true ∧ RoundTripReproduces demoRegex demoScenario :=
  ⟨by decide,
    (loadConfig_saveConfig_round_trip demoRegex
      [Call.createSeat "seat0" true, Call.createSeat "seat1" false,
        Call.addDeviceRule "seat1" "^Logitech.*"] demoScenario rfl).1.mpr (by decide)⟩

/-! ### Assignment while the recorded fallback name is stale -/

/-- C7: the code at the failing input. In the state after `createSeat("seat0", true)`,
`removeSeat("seat0")`, `createSeat("seat0", false)` the keyboard is attached to no
seat, "seat9" names no seat and no seat is flagged, so that no fallback seat exists;
`assignDeviceToSeat(keyboard, "seat9")` nevertheless attaches the keyboard to seat0,
the unflagged seat that `fallbackSeat()` finds under the stale recorded name. -/
theorem assignDeviceToSeat_stale_name_attaches_to_unflagged_seat :
    deviceOwnerCount demoStaleName demoKeyboard = 0 ∧
    QMap.contains demoStaleName.m_seats "seat9" = false ∧
    fallbackCount demoStaleName = 0 ∧
    (demoStaleName.assignDeviceToSeat (some demoKeyboard) "seat9").m_seats
      = [("seat0", { name := "seat0", isFallback := false, deviceList := [demoKeyboard],
                     outputs := [] })] := by
  decide

/-- C13: the code at the failing input. In the state with the stale recorded name
"seat0" the seats seat0 and seat1 are both unflagged, there is no rule, and seat1
holds the keyboard. After `removeSeat("seat1")` no remaining seat has a matching rule
and no seat is flagged, so that no fallback seat exists; the keyboard nevertheless is
attached to seat0, the unflagged seat that `fallbackSeat()` finds under the stale
name. -/
theorem removeSeat_stale_name_redistributes_to_unflagged_seat :
    flagView demoStaleNameTwoSeats.m_seats = [("seat0", false), ("seat1", false)] ∧
    devView demoStaleNameTwoSeats.m_seats = [("seat0", []), ("seat1", [demoKeyboard])] ∧
    demoStaleNameTwoSeats.m_deviceRules = [] ∧
    fallbackCount (demoStaleNameTwoSeats.removeSeat demoRegex "seat1") = 0 ∧
    (demoStaleNameTwoSeats.removeSeat demoRegex "seat1").m_seats
      = [("seat0", { name := "seat0", isFallback := false, deviceList := [demoKeyboard],
                     outputs := [] })] := by
  decide

/-! ### Registry order for names outside the Basic Multilingual Plane -/

/-- The registry iterates in the order of the UTF-16 code units: "😀" (units D83D DE00)
comes before "Ａ" (unit FF21) although its code point is the larger one. After
`removeSeat("z")` of the fallback seat the first remaining seat "😀" is promoted, and
`saveConfig` writes the entries in this order. -/
theorem registry_iterates_in_utf16_order :
    QString.lt "😀" "Ａ" ∧
    demoSurrogateNames.m_seats.map Prod.fst = ["z", "😀", "Ａ"] ∧
    flagView (demoSurrogateNames.removeSeat demoRegex "z").m_seats
      = [("😀", true), ("Ａ", false)] ∧
    (seatEntries demoSurrogateNames.saveConfig).map entryName = ["z", "😀", "Ａ"] := by
  decide

end Waylib
